import Mathlib

/-! # aqueue: a durable append-only queue on two log files

A shallow embedding of `queue.go` (package `aqueue`).  The two log files of the
working directory (`push`, the records, and `pop`, the delete markers) are byte
lists, a file handle is a position into such a list, and every operation of
`DQueue` is a function from a queue state to a result and a new queue state.

Conventions:

* a byte is a `UInt8`, a `[]byte` and a Go `string` are both `List UInt8`;
* `int` is 64 bits wide (the `strconv.Atoi` fast path is the 64-bit one);
* `int32`, `int64` are `Int`, `uint32`, `uint64` are `Nat`, and every
  conversion or addition that can wrap is written with an explicit modulus;
* an operation that can panic returns a `Run`: either its results or the panic,
  each with the queue state at that point;
* the standard library (`hash/crc32`, `fmt`, `strconv`, `os.File`) is modelled
  by the definitions of the first sections;
* what lies outside the process is an `IOEnv` (whether a write or a rename
  succeeds, what a failed write leaves behind, which backup a rename replaces)
  and the largest offset of the file system; one `Read` returns at most
  `maxRW` bytes;
* the mutex, the channels of `Deliver` and the background goroutines are not
  modelled: `push` and `pop` are the bodies run one at a time by the worker.
-/

namespace AQueue

/-- A Go byte slice (or string). -/
abbrev Bytes := List UInt8

/-! ## Machine integers -/

/-- Conversion to `int32` (two's complement wrap-around): the residue modulo
`2^32 = 4294967296`, read as negative from `2^31 = 2147483648` on. -/
def toInt32 (v : Int) : Int :=
  if (v % 4294967296).toNat < 2147483648 then ((v % 4294967296).toNat : Int)
  else ((v % 4294967296).toNat : Int) - 4294967296

/-- Conversion to `int64` (two's complement wrap-around): the residue modulo
`2^64 = 18446744073709551616`, read as negative from
`2^63 = 9223372036854775808` on. -/
def toInt64 (v : Int) : Int :=
  if (v % 18446744073709551616).toNat < 9223372036854775808 then
    ((v % 18446744073709551616).toNat : Int)
  else ((v % 18446744073709551616).toNat : Int) - 18446744073709551616

/-- Conversion to `uint32`: the residue modulo `2^32`. -/
def toUInt32 (v : Int) : Nat := (v % 4294967296).toNat

/-- Conversion to `uint64`: the residue modulo `2^64`. -/
def toUInt64 (v : Int) : Nat := (v % 18446744073709551616).toNat

/-- The `++` of a `uint64` counter (modulo `2^64`). -/
def incr64 (n : Nat) : Nat := (n + 1) % 18446744073709551616

/-! ## `hash/crc32`: CRC-32/IEEE -/

/-- The reflected IEEE polynomial. -/
def crcPoly : Nat := 0xEDB88320

/-- One bit of the reflected CRC shift register. -/
def crcShift (c : Nat) : Nat :=
  if c % 2 = 1 then (c / 2) ^^^ crcPoly else c / 2

/-- One byte: xor it into the low byte, then shift eight times. -/
def crcByte (c : Nat) (b : UInt8) : Nat :=
  crcShift (crcShift (crcShift (crcShift (crcShift (crcShift (crcShift
    (crcShift (c ^^^ b.toNat))))))))

/-- The function `crc32.ChecksumIEEE`. -/
def ChecksumIEEE (data : Bytes) : Nat :=
  (data.foldl crcByte 0xFFFFFFFF) ^^^ 0xFFFFFFFF

/-- The function `sliceCRC` of queue.go. -/
def sliceCRC (data : Bytes) : Nat := ChecksumIEEE data

/-- The eight bytes that `binary.Write(buff, binary.BigEndian, data)` produces
for an `int64`. -/
def bigEndian64 (data : Int) : Bytes :=
  let u := toUInt64 data
  [UInt8.ofNat (u / 2 ^ 56 % 256), UInt8.ofNat (u / 2 ^ 48 % 256),
   UInt8.ofNat (u / 2 ^ 40 % 256), UInt8.ofNat (u / 2 ^ 32 % 256),
   UInt8.ofNat (u / 2 ^ 24 % 256), UInt8.ofNat (u / 2 ^ 16 % 256),
   UInt8.ofNat (u / 2 ^ 8 % 256), UInt8.ofNat (u % 256)]

/-- The function `int64CRC` of queue.go. -/
def int64CRC (data : Int) : Nat := ChecksumIEEE (bigEndian64 data)

/-! ## `fmt`: the verbs `%010d` and `%020d` -/

/-- The ASCII digit of `d`. -/
def digitChar (d : Nat) : UInt8 := UInt8.ofNat (48 + d)

/-- Decimal digits of `n`, most significant first, by recursion on a fuel. -/
def decDigitsAux : Nat → Nat → Bytes
  | 0, _ => []
  | fuel + 1, n =>
    if n < 10 then [digitChar n]
    else decDigitsAux fuel (n / 10) ++ [digitChar (n % 10)]

/-- Decimal digits of `n`, most significant first (`"0"` for zero). -/
def decDigits (n : Nat) : Bytes := decDigitsAux (n + 1) n

/-- The verb `%0wd` of `fmt.Sprintf` on an integer: the digits are padded with
zeros to the width, the sign of a negative number takes one column of the
width, and a number too wide for the field is written in full. -/
def fmtD (w : Nat) (v : Int) : Bytes :=
  let ds := decDigits v.natAbs
  if v < 0 then 45 :: (List.replicate (w - 1 - ds.length) 48 ++ ds)
  else List.replicate (w - ds.length) 48 ++ ds

/-! ## `strconv`: `ParseUint`, `ParseInt`, `Atoi` in base 10 -/

/-- The two errors of `strconv` (`ErrSyntax`, `ErrRange`). -/
inductive NumError where
  | invalid
  | range
  deriving DecidableEq, Repr

/-- Is the byte an ASCII decimal digit. -/
def isDigit (c : UInt8) : Bool := decide (48 ≤ c.toNat) && decide (c.toNat ≤ 57)

/-- The constant `maxUint64/10 + 1` of `ParseUint` in base 10
(`maxUint64 = 2^64 - 1 = 18446744073709551615`). -/
def cutoff10 : Nat := 18446744073709551615 / 10 + 1

/-- The digit loop of `strconv.ParseUint` in base 10; `n1 < n`, the test of a
`uint64` that wrapped, is `2^64 ≤ n1` on unbounded numbers. -/
def parseUintLoop (maxVal : Nat) : Bytes → Nat → Nat × Option NumError
  | [], n => (n, none)
  | c :: cs, n =>
    if isDigit c then
      if cutoff10 ≤ n then (maxVal, some NumError.range)
      else
        let n1 := n * 10 + (c.toNat - 48)
        if 18446744073709551616 ≤ n1 ∨ maxVal < n1 then (maxVal, some NumError.range)
        else parseUintLoop maxVal cs n1
    else (0, some NumError.invalid)

/-- The call `strconv.ParseUint(s, 10, bitSize)` for `bitSize` 64 (also what
`bitSize` 0 means when `int` has 64 bits). -/
def ParseUint (s : Bytes) (bitSize : Nat) : Nat × Option NumError :=
  if s = [] then (0, some NumError.invalid)
  else parseUintLoop (2 ^ bitSize - 1) s 0

/-- The call `strconv.ParseInt(s, 10, bitSize)`; the result is an `int64`. -/
def ParseInt (s : Bytes) (bitSize : Nat) : Int × Option NumError :=
  match s with
  | [] => (0, some NumError.invalid)
  | c :: cs =>
    let neg := decide (c = 45)
    let body := if c = 43 ∨ c = 45 then cs else c :: cs
    match ParseUint body bitSize with
    | (_, some NumError.invalid) => (0, some NumError.invalid)
    | (un, _) =>
      let cutoff : Nat := 2 ^ (bitSize - 1)
      if neg = false ∧ cutoff ≤ un then (((cutoff - 1 : Nat) : Int), some NumError.range)
      else if neg = true ∧ cutoff < un then (-((cutoff : Nat) : Int), some NumError.range)
      else
        let n := toInt64 (un : Int)
        (if neg then toInt64 (-n) else n, none)

/-- The digit loop of the fast path of `strconv.Atoi`. -/
def atoiLoop : Bytes → Nat → Option Nat
  | [], n => some n
  | c :: cs, n => if isDigit c then atoiLoop cs (n * 10 + (c.toNat - 48)) else none

/-- The function `strconv.Atoi` (64-bit `int`): the fast path for strings of 1
to 18 bytes, `ParseInt(s, 10, 0)` otherwise. -/
def Atoi (s : Bytes) : Int × Option NumError :=
  match s with
  | [] => ParseInt s 64
  | c :: cs =>
    if s.length < 19 then
      let body := if c = 45 ∨ c = 43 then cs else c :: cs
      if body.length < 1 then (0, some NumError.invalid)
      else
        match atoiLoop body 0 with
        | none => (0, some NumError.invalid)
        | some n => (if c = 45 then -(n : Int) else (n : Int), none)
    else ParseInt s 64

/-! ## `os.File` -/

/-- The errors that the operations of the queue return. -/
inductive Err where
  /-- The value `io.EOF`. -/
  | eof
  /-- The error "Data is empty" of `buildPushRecord`. -/
  | dataEmpty
  /-- The error "Invalid Header size" of `readHeader`. -/
  | invalidHeaderSize
  /-- The error "Invalid Data size" of `readPayload`. -/
  | invalidDataSize
  /-- The error "CRC not equal!" of `readPayload`. -/
  | crcNotEqual
  /-- The error "Invalid DEL RECORD size" of `offsetDelRecord`. -/
  | invalidDelSize
  /-- The error "Invalid last record CRC" of `offsetDelRecord`. -/
  | invalidLastCrc
  /-- A failed `Write` on a file handle. -/
  | writeFailed
  /-- The wrapped error "Erro Last record" of `New`. -/
  | lastRecord
  deriving DecidableEq, Repr

/-- The run-time panics of the operations of the queue. -/
inductive GoPanic where
  /-- A slice expression out of range. -/
  | sliceBounds
  /-- The call `make([]byte, n)` with a negative `n`. -/
  | makeNegativeLen
  deriving DecidableEq, Repr

/-- What the calls outside the process do during one operation: whether a
`Write` on the push handle and on the pop handle succeeds, whether the two
`os.Rename` of a rotation succeed, how many bytes of its buffer a `Write` that
fails has written when it fails, and which file of `.bkp`, counted from the
latest, already bears the name that a rename gives (the names carry the time
to the second), if there is one. -/
structure IOEnv where
  pushWriteOk : Bool
  popWriteOk : Bool
  renamePopOk : Bool
  renamePushOk : Bool
  pushWriteTorn : Nat
  popWriteTorn : Nat
  bkpPopClash : Option Nat
  bkpPushClash : Option Nat
  deriving DecidableEq, Repr

/-- Every call outside the process succeeds, and the names of the backups are
new. -/
def IOEnv.allOk : IOEnv := ⟨true, true, true, true, 0, 0, none, none⟩

/-- The largest size of a file: offsets are `int64`. -/
def maxFileSize : Nat := 2 ^ 63 - 1

/-- The constant `maxRW` of `internal/poll`: `Read` on a file passes at most
1 GiB of the buffer to the system call (which on Linux returns at most
`0x7ffff000` bytes). -/
def maxRW : Nat := 1073741824

/-- The largest offset of a file of ext4 with blocks of 4 KiB: `2^44 - 4096`. -/
def ext4MaxOffset : Nat := 17592186040320

/-- The call `fh.Read(buf)` with `len(buf) = n` on a regular file with the
handle at `pos`: the bytes read and the error; `io.EOF` when no byte is left and
`n` is not zero. One call reads at most `maxRW` bytes and does not loop, so a
longer buffer is filled in part. The handle advances by the number of bytes
read. -/
def fileRead (content : Bytes) (pos n : Nat) : Bytes × Option Err :=
  let got := (content.drop pos).take (if n ≤ maxRW then n else maxRW)
  if n ≠ 0 ∧ got.length = 0 then ([], some Err.eof) else (got, none)

/-- The call `fh.Write(data)` on a handle opened with `O_APPEND`: the new
content of the file and the error. A write that fails has written the first
`torn` bytes of the buffer. -/
def fileAppend (ok : Bool) (torn : Nat) (content data : Bytes) : Bytes × Option Err :=
  if ok = true then (content ++ data, none)
  else (content ++ data.take torn, some Err.writeFailed)

/-! ## The data of queue.go -/

/-- The constant `MAXSIZE`. -/
def MAXSIZE : Nat := 100000000

/-- The constant `HEADERSZ`. -/
def HEADERSZ : Nat := 22

/-- The constant `DELRECSZ`. -/
def DELRECSZ : Nat := 43

/-- The struct `Record`: `Len int32`, `Crc uint32`, `Payload []byte`. -/
structure Record where
  Len : Int
  Crc : Nat
  Payload : Bytes
  deriving DecidableEq, Repr

/-- The struct `Data` of `PopReadOnlyStart`: `Offset uint32`, `Payload []byte`. -/
structure Data where
  Offset : Nat
  Payload : Bytes
  deriving DecidableEq, Repr

/-- The struct `DQueue` together with the files it owns: the content of
`sdir/push` and `sdir/pop`, the files moved to `sdir/.bkp`, the position of
the read-only handle `pushReadFH`, and the largest offset of the file system
that holds `sdir`. -/
structure DQueue where
  /-- Content of the file `sdir/push`. -/
  pushLog : Bytes
  /-- Content of the file `sdir/pop`. -/
  popLog : Bytes
  /-- Files renamed into `sdir/.bkp`, the latest first. -/
  bkp : List Bytes
  /-- Position of the handle `pushReadFH`. -/
  pushReadPos : Nat
  pushNro : Nat
  pushRecNro : Nat
  pushReadNro : Nat
  /-- The field `pushReadOffset int64`. -/
  pushReadOffset : Int
  popNro : Nat
  popRecNro : Nat
  /-- The field `maxsize uint64`. -/
  maxsize : Nat
  clearStarted : Bool
  /-- The largest offset that `Seek` accepts on the file system of `sdir`
  (`s_maxbytes`: `2^44 - 4096` on ext4, `2^63 - 1` on XFS). -/
  maxOffset : Nat
  deriving DecidableEq, Repr

/-- The outcome of an operation that can panic. A loop of the source is a
recursion on a fuel, and `outOfFuel` is the outcome of a fuel that was too
small. -/
inductive Run (α : Type) where
  /-- The operation returned. -/
  | ret (a : α)
  /-- The operation panicked, leaving the queue in the given state. -/
  | panic (p : GoPanic) (q : DQueue)
  /-- The fuel of the model ran out. -/
  | outOfFuel
  deriving DecidableEq, Repr

/-- The results `(data []byte, err error)` of `pop` with the queue after it. -/
structure PopResult where
  data : Bytes
  err : Option Err
  q : DQueue
  deriving DecidableEq, Repr

/-! ## Record codec -/

/-- The function `buildPushRecord`. -/
def buildPushRecord (data : Bytes) : Except Err Record :=
  let sz := toInt32 data.length
  if sz = 0 then Except.error Err.dataEmpty
  else Except.ok ⟨sz, sliceCRC data, data⟩

/-- The buffer that `pushRecord` writes: `%010d`, a space, `%010d`, a space,
the payload. -/
def pushRecordBytes (r : Record) : Bytes :=
  fmtD 10 r.Len ++ [32] ++ fmtD 10 (r.Crc : Int) ++ [32] ++ r.Payload

/-- The method `pushRecord`. -/
def pushRecord (env : IOEnv) (q : DQueue) (r : Record) : Option Err × DQueue :=
  let w := fileAppend env.pushWriteOk env.pushWriteTorn q.pushLog (pushRecordBytes r)
  (w.2, { q with pushLog := w.1 })

/-- The buffer that `WriteDelRecord` writes: `%010d`, a space, `%020d`, a
space, `%010d`, a newline. -/
def delRecordBytes (off : Int) (crcpush : Nat) : Bytes :=
  fmtD 10 (int64CRC off : Int) ++ [32] ++ fmtD 20 off ++ [32] ++ fmtD 10 (crcpush : Int) ++ [10]

/-- The method `WriteDelRecord`. -/
def WriteDelRecord (env : IOEnv) (q : DQueue) (off : Int) (crcpush : Nat) :
    Option Err × DQueue :=
  let w := fileAppend env.popWriteOk env.popWriteTorn q.popLog (delRecordBytes off crcpush)
  (w.2, { q with popLog := w.1 })

/-- The method `offsetDelRecord` on the pop file with its handle at `pos`: the
offset, the error and the new position of the handle. -/
def offsetDelRecord (content : Bytes) (pos : Nat) : Int × Option Err × Nat :=
  let r := fileRead content pos DELRECSZ
  match r.2 with
  | some e => (0, some e, pos)
  | none =>
    let databuff := r.1
    let pos1 := pos + databuff.length
    if toInt32 databuff.length ≠ DELRECSZ then (0, some Err.invalidDelSize, pos1)
    else
      let scrc := (databuff.drop 0).take 10
      let soff := (databuff.drop 11).take 20
      let offset := (ParseInt soff 64).1
      let nCrc := (ParseUint scrc 64).1
      let crc := toUInt32 nCrc
      if int64CRC offset ≠ crc then (offset, some Err.invalidLastCrc, pos1)
      else (offset, none, pos1)

/-- The method `ReadDelRecord`: the handle of the pop file is moved to the end;
on an empty file the result is 0; otherwise the handle is moved 43 bytes back
(a seek that fails, leaving the handle at the end, when the file is shorter)
and one delete record is read. -/
def ReadDelRecord (q : DQueue) : Int × Option Err :=
  let curoffset := q.popLog.length
  if curoffset = 0 then (0, none)
  else
    let pos := if DELRECSZ ≤ curoffset then curoffset - DELRECSZ else curoffset
    let r := offsetDelRecord q.popLog pos
    (r.1, r.2.1)

/-- The function `readHeader` on a file with its handle at `pos`: the record,
the error and the new position of the handle. -/
def readHeader (content : Bytes) (pos : Nat) : Record × Option Err × Nat :=
  let rec0 : Record := ⟨0, 0, []⟩
  let r := fileRead content pos HEADERSZ
  match r.2 with
  | some e => (rec0, some e, pos)
  | none =>
    let headbuff := r.1
    let pos1 := pos + headbuff.length
    if toInt32 headbuff.length ≠ HEADERSZ then (rec0, some Err.invalidHeaderSize, pos1)
    else
      let slen := (headbuff.drop 0).take 10
      let scrc := (headbuff.drop 11).take 10
      let nLen := (Atoi slen).1
      let nCrc := (ParseUint scrc 64).1
      (⟨toInt32 nLen, toUInt32 nCrc, []⟩, none, pos1)

/-- The function `readPayload` on a file with its handle at `pos`. -/
def readPayload (content : Bytes) (pos : Nat) (r : Record) :
    Except GoPanic (Record × Option Err × Nat) :=
  if r.Len < 0 then Except.error GoPanic.makeNegativeLen
  else
    let rd := fileRead content pos r.Len.toNat
    match rd.2 with
    | some e => Except.ok (r, some e, pos)
    | none =>
      let databuff := rd.1
      let pos1 := pos + databuff.length
      if toInt32 databuff.length ≠ r.Len then Except.ok (r, some Err.invalidDataSize, pos1)
      else
        let r1 : Record := { r with Payload := databuff }
        if r1.Crc ≠ sliceCRC databuff then Except.ok (r1, some Err.crcNotEqual, pos1)
        else Except.ok (r1, none, pos1)

/-- The method `ReadHeader`: `readHeader` on the handle `pushReadFH`. -/
def ReadHeader (q : DQueue) : Record × Option Err × DQueue :=
  let r := readHeader q.pushLog q.pushReadPos
  (r.1, r.2.1, { q with pushReadPos := r.2.2 })

/-- The method `ReadPayload`: `readPayload` on the handle `pushReadFH`. -/
def ReadPayload (q : DQueue) (r : Record) : Run (Record × Option Err × DQueue) :=
  match readPayload q.pushLog q.pushReadPos r with
  | Except.error p => Run.panic p q
  | Except.ok x => Run.ret (x.1, x.2.1, { q with pushReadPos := x.2.2 })

/-- The offsets that `Seek` accepts on the push file: a negative offset and an
offset past the largest one of the file system are refused (`EINVAL`). A file
never exceeds the largest offset of its file system, so an offset within the
file is accepted. -/
def seekAccepts (q : DQueue) (off : Int) : Prop :=
  0 ≤ off ∧ (off.toNat ≤ q.maxOffset ∨ off.toNat ≤ q.pushLog.length)

instance (q : DQueue) (off : Int) : Decidable (seekAccepts q off) := by
  unfold seekAccepts
  infer_instance

/-- The call `dq.pushReadFH.Seek(off, os.SEEK_SET)`, whose results the callers
drop: an offset that is refused leaves the handle where it was. -/
def seekRead (q : DQueue) (off : Int) : DQueue :=
  if seekAccepts q off then { q with pushReadPos := off.toNat } else q

/-! ## The queue -/

/-- The function `New` on a directory whose files `push` and `pop` hold the
given bytes (empty when the file is created by `Open`), on a file system with
the largest offset `maxOffset`: the fields of the struct literal, then
`pushReadOffset` from `ReadDelRecord`. -/
def New (pushFile popFile : Bytes) (bkp : List Bytes) (maxOffset : Nat) : Except Err DQueue :=
  let dq : DQueue :=
    { pushLog := pushFile, popLog := popFile, bkp := bkp, pushReadPos := 0,
      pushNro := 0, pushRecNro := 0, pushReadNro := 0, pushReadOffset := 0,
      popNro := 0, popRecNro := 0, maxsize := MAXSIZE, clearStarted := false,
      maxOffset := maxOffset }
  let r := ReadDelRecord dq
  match r.2 with
  | some _ => Except.error Err.lastRecord
  | none => Except.ok { dq with pushReadOffset := r.1 }

/-- The queue that `New` returns on a directory without files, on a file
system with the largest offset `maxOffset`. -/
def freshOn (maxOffset : Nat) : DQueue :=
  { pushLog := [], popLog := [], bkp := [], pushReadPos := 0,
    pushNro := 0, pushRecNro := 0, pushReadNro := 0, pushReadOffset := 0,
    popNro := 0, popRecNro := 0, maxsize := MAXSIZE, clearStarted := false,
    maxOffset := maxOffset }

/-- The queue that `New` returns on a directory without files, on ext4. -/
def fresh : DQueue := freshOn ext4MaxOffset

/-- The method `MaxSize`. -/
def MaxSize (q : DQueue) (m : Nat) : DQueue := { q with maxsize := m }

/-- The files of `.bkp` that a rename into it leaves: a file that bears the
name of the destination is replaced. -/
def bkpAfterClash (clash : Option Nat) (bkp : List Bytes) : List Bytes :=
  match clash with
  | none => bkp
  | some i => bkp.eraseIdx i

/-- The method `rotatePop`: the handles are closed, `pop` then `push` are
renamed into `.bkp` (a failed rename leaves the file in place, a rename onto
an existing name replaces that file), `Open` creates the missing files empty
and puts the read handle at 0, and the counters and the offset are zeroed
whatever the renames did. The compression of the moved files is not
modelled. -/
def rotatePop (env : IOEnv) (q : DQueue) : DQueue :=
  let popLog := if env.renamePopOk = true then [] else q.popLog
  let bkp1 :=
    if env.renamePopOk = true then q.popLog :: bkpAfterClash env.bkpPopClash q.bkp else q.bkp
  let pushLog := if env.renamePushOk = true then [] else q.pushLog
  let bkp2 :=
    if env.renamePushOk = true then q.pushLog :: bkpAfterClash env.bkpPushClash bkp1 else bkp1
  { pushLog := pushLog, popLog := popLog, bkp := bkp2, pushReadPos := 0,
    pushNro := 0, pushRecNro := 0, pushReadNro := 0, pushReadOffset := 0,
    popNro := 0, popRecNro := 0, maxsize := q.maxsize, clearStarted := q.clearStarted,
    maxOffset := q.maxOffset }

/-- The method `push`: the error and the queue after the call. -/
def push (env : IOEnv) (q : DQueue) (data : Bytes) : Option Err × DQueue :=
  let data := data ++ [10]
  match buildPushRecord data with
  | Except.error e => (some e, q)
  | Except.ok r =>
    let w := pushRecord env q r
    match w.1 with
    | some e => (some e, w.2)
    | none => (none, { w.2 with pushRecNro := incr64 w.2.pushRecNro })

/-- The method `pop`. -/
def pop (env : IOEnv) (q : DQueue) : Run PopResult :=
  let q0 := seekRead q q.pushReadOffset
  let h := ReadHeader q0
  let q1 :=
    if h.2.1 = some Err.eof ∧ h.2.2.maxsize < toUInt64 h.2.2.pushReadOffset then
      rotatePop env h.2.2
    else h.2.2
  match h.2.1 with
  | some e => Run.ret ⟨[], some e, q1⟩
  | none =>
    match ReadPayload q1 h.1 with
    | Run.outOfFuel => Run.outOfFuel
    | Run.panic p qp => Run.panic p qp
    | Run.ret (_, some e, q2) => Run.ret ⟨[], some e, q2⟩
    | Run.ret (r, none, q2) =>
      let paylo := r.Payload
      let le := paylo.length
      if le = 0 then Run.panic GoPanic.sliceBounds q2
      else
        let data := paylo.take (le - 1)
        let q3 : DQueue :=
          { q2 with pushReadOffset := toInt64 (q2.pushReadOffset + ((HEADERSZ + paylo.length : Nat) : Int)) }
        let w := WriteDelRecord env q3 q3.pushReadOffset r.Crc
        match w.1 with
        | some e => Run.ret ⟨data, some e, w.2⟩
        | none => Run.ret ⟨data, none, { w.2 with popRecNro := incr64 w.2.popRecNro }⟩

/-- The deferred function of `PopReadOnly`, run when the method returns and
when it panics, with the `data` of that moment. -/
def popReadOnlyDefer (env : IOEnv) (nroRec : Nat) (q : DQueue) (data : List Bytes) : DQueue :=
  if nroRec ≠ 0 ∧ q.maxsize < toUInt64 q.pushReadOffset ∧ data.length = 0 then rotatePop env q
  else q

/-- The loop of `PopReadOnly`; a panic runs the deferred function. -/
def popReadOnlyLoop (env : IOEnv) (nroRec : Nat) :
    Nat → DQueue → List Bytes → Nat → Run (List Bytes × Nat × DQueue)
  | 0, _, _, _ => Run.outOfFuel
  | fuel + 1, q, data, nroRecDone =>
    let h := ReadHeader q
    match h.2.1 with
    | some _ => Run.ret (data, nroRecDone, h.2.2)
    | none =>
      match ReadPayload h.2.2 h.1 with
      | Run.outOfFuel => Run.outOfFuel
      | Run.panic p qp => Run.panic p (popReadOnlyDefer env nroRec qp data)
      | Run.ret (_, some _, q2) => Run.ret (data, nroRecDone, q2)
      | Run.ret (r, none, q2) =>
        let paylo := r.Payload
        let le := paylo.length
        if le = 0 then Run.panic GoPanic.sliceBounds (popReadOnlyDefer env nroRec q2 data)
        else
          let data1 := data ++ [paylo.take (le - 1)]
          let nroRecDone1 := incr64 nroRecDone
          if nroRec ≤ nroRecDone1 then Run.ret (data1, nroRecDone1, q2)
          else popReadOnlyLoop env nroRec fuel q2 data1 nroRecDone1

/-- The method `PopReadOnly`: `data`, `nroRecDone` and the queue after the
call. Every turn of the loop that does not return consumes at least the 22
bytes of a header, so the length of the push file bounds the turns. -/
def PopReadOnly (env : IOEnv) (q : DQueue) (nroRec : Nat) : Run (List Bytes × Nat × DQueue) :=
  let q0 := seekRead q q.pushReadOffset
  match popReadOnlyLoop env nroRec (q.pushLog.length + 1) q0 [] 0 with
  | Run.outOfFuel => Run.outOfFuel
  | Run.panic p qp => Run.panic p qp
  | Run.ret (data, n, q1) => Run.ret (data, n, popReadOnlyDefer env nroRec q1 data)

/-- The loop of `PopReadOnlyTail`. -/
def popReadOnlyTailLoop (nroRec : Nat) :
    Nat → DQueue → List Bytes → Nat → Run (List Bytes × Nat × DQueue)
  | 0, _, _, _ => Run.outOfFuel
  | fuel + 1, q, data, nroRecDone =>
    let h := ReadHeader q
    match h.2.1 with
    | some _ => Run.ret (data, nroRecDone, h.2.2)
    | none =>
      match ReadPayload h.2.2 h.1 with
      | Run.outOfFuel => Run.outOfFuel
      | Run.panic p qp => Run.panic p qp
      | Run.ret (_, some _, q2) => Run.ret (data, nroRecDone, q2)
      | Run.ret (r, none, q2) =>
        let paylo := r.Payload
        let le := paylo.length
        if nroRec ≤ data.length ∧ data.length < 1 then Run.panic GoPanic.sliceBounds q2
        else
          let data1 := if nroRec ≤ data.length then data.drop 1 else data
          if le = 0 then Run.panic GoPanic.sliceBounds q2
          else
            let data2 := data1 ++ [paylo.take (le - 1)]
            popReadOnlyTailLoop nroRec fuel q2 data2 data2.length

/-- The method `PopReadOnlyTail`. -/
def PopReadOnlyTail (q : DQueue) (nroRec : Nat) : Run (List Bytes × Nat × DQueue) :=
  let q0 := seekRead q q.pushReadOffset
  popReadOnlyTailLoop nroRec (q.pushLog.length + 1) q0 [] 0

/-- The loop of `PopReadOnlyStart` with `offsetCurr` and `data`. The two
`int64` additions of `offset` wrap like one; the prints are not modelled. -/
def popReadOnlyStartLoop : Nat → DQueue → Int → List Data → Run (List Data × DQueue)
  | 0, _, _, _ => Run.outOfFuel
  | fuel + 1, q, offsetCurr, data =>
    let q0 := seekRead q offsetCurr
    let h := ReadHeader q0
    match h.2.1 with
    | some _ => Run.ret (data, h.2.2)
    | none =>
      match ReadPayload h.2.2 h.1 with
      | Run.outOfFuel => Run.outOfFuel
      | Run.panic p qp => Run.panic p qp
      | Run.ret (_, some _, q2) => Run.ret (data, q2)
      | Run.ret (r, none, q2) =>
        let paylo := r.Payload
        let le := paylo.length
        let offset := toInt64 (offsetCurr + ((HEADERSZ : Nat) : Int) + ((le : Nat) : Int))
        let d : Data := ⟨toUInt32 offset, paylo⟩
        popReadOnlyStartLoop fuel q2 (toInt64 (offsetCurr + offset)) (data ++ [d])

/-- The method `PopReadOnlyStart`: `data` and the queue after the call. The
loop has no bound in the source; the fuel is the length of the push file plus
65, and a run that would need more turns is `outOfFuel`. -/
def PopReadOnlyStart (q : DQueue) : Run (List Data × DQueue) :=
  popReadOnlyStartLoop (q.pushLog.length + 65) q q.pushReadOffset []

/-! ## Definitions used to state the properties -/

/-- The number that a string of decimal digits denotes, continuing from `n`. -/
def decVal : Bytes → Nat → Nat
  | [], n => n
  | c :: cs, n => decVal cs (n * 10 + (c.toNat - 48))

/-- Every byte is an ASCII decimal digit. -/
def allDigits (s : Bytes) : Prop := ∀ c ∈ s, isDigit c = true

instance (s : Bytes) : Decidable (allDigits s) := by
  unfold allDigits
  infer_instance

/-- The 22 bytes of the header of a push record with the fields `len`, `crc`. -/
def headerBytes (len : Int) (crc : Nat) : Bytes :=
  fmtD 10 len ++ [32] ++ fmtD 10 (crc : Int) ++ [32]

/-- A queue whose push file holds one record with a wrong checksum field. -/
def corruptSample : DQueue :=
  { fresh with pushLog := headerBytes 2 0 ++ [97, 10] }

/-- The queue after `push("a")` on the fresh queue. -/
def oneRecordSample : DQueue := (push IOEnv.allOk fresh [97]).2

/-- A payload of `2^31 - 1` zero bytes; its stored form has `2^31` bytes. -/
def hugePayload : Bytes := List.replicate 2147483647 0

/-- A payload of `2^31 - 2` zero bytes; its stored form has `2^31 - 1` bytes,
which fits `int32` and is more than one `Read` returns. -/
def largePayload : Bytes := List.replicate 2147483646 0

/-- A payload of `2^30` zero bytes; its stored form has `2^30 + 1` bytes, one
more than one `Read` returns. -/
def gibPayload : Bytes := List.replicate 1073741824 0

/-- An environment in which the writes succeed and the two renames fail. -/
def IOEnv.renamesFail : IOEnv := ⟨true, true, false, false, 0, 0, none, none⟩

/-- The bytes of the record that `push` stores for the caller payload `x`. -/
def storedBytes (x : Bytes) : Bytes :=
  headerBytes ((x.length + 1 : Nat) : Int) (sliceCRC (x ++ [10])) ++ (x ++ [10])

/-- The records of a sequence of caller payloads, one after the other. -/
def framesOf : List Bytes → Bytes
  | [] => []
  | p :: ps => storedBytes p ++ framesOf ps

/-- Calls of `push` in a row, one per payload: the error of each call and the
queue after the last. -/
def pushAll (env : IOEnv) : DQueue → List Bytes → List (Option Err) × DQueue
  | q, [] => ([], q)
  | q, p :: ps => ((push env q p).1 :: (pushAll env (push env q p).2 ps).1,
      (pushAll env (push env q p).2 ps).2)

/-- A number of calls of `pop` in a row: the results `(data, err)` of each call
and the queue after the last; a panic ends the run. -/
def popAll (env : IOEnv) : Nat → DQueue → Run (List (Bytes × Option Err) × DQueue)
  | 0, q => Run.ret ([], q)
  | n + 1, q =>
    match pop env q with
    | Run.outOfFuel => Run.outOfFuel
    | Run.panic p qp => Run.panic p qp
    | Run.ret r =>
      match popAll env n r.q with
      | Run.outOfFuel => Run.outOfFuel
      | Run.panic p qp => Run.panic p qp
      | Run.ret (rs, q1) => Run.ret ((r.data, r.err) :: rs, q1)

/-- Every write and every rename of the environment succeeds. -/
def IOEnv.succeeds (env : IOEnv) : Prop :=
  env.pushWriteOk = true ∧ env.popWriteOk = true
    ∧ env.renamePopOk = true ∧ env.renamePushOk = true

/-- The states of the queue reached from a fresh queue, on any file system, by
calls of `push`, `pop` and `MaxSize` in any order, each in an environment in
which every write and rename succeeds; a call of `pop` that panics ends the
process and reaches no state. -/
inductive Reach : DQueue → Prop
  | fresh (m : Nat) : Reach (freshOn m)
  | push (env : IOEnv) (q : DQueue) (x : Bytes) : IOEnv.succeeds env → Reach q →
      Reach (push env q x).2
  | pop (env : IOEnv) (q : DQueue) (r : PopResult) : IOEnv.succeeds env → Reach q →
      pop env q = Run.ret r → Reach r.q
  | maxSize (q : DQueue) (m : Nat) : Reach q → Reach (MaxSize q m)

/-- The pop file and the offset agree: either the pop file is empty and the
offset is 0, or the pop file ends with the marker of the offset. -/
def CursorInv (q : DQueue) : Prop :=
  (q.popLog = [] ∧ q.pushReadOffset = 0)
    ∨ ∃ pre crc, q.popLog = pre ++ delRecordBytes q.pushReadOffset crc ∧ crc < 2 ^ 32
        ∧ -2 ^ 63 ≤ q.pushReadOffset ∧ q.pushReadOffset < 2 ^ 63

/-- The queue after a call of `pop` that returns (the queue itself otherwise). -/
def queueAfterPop (env : IOEnv) (q : DQueue) : DQueue :=
  match pop env q with
  | Run.ret r => r.q
  | _ => q

/-- The drained queue after `push("a")`, `pop` and `MaxSize(10)`: the offset 24
is the length of the push file and exceeds `maxsize`. -/
def drainedSmallMaxSample : DQueue := MaxSize (queueAfterPop IOEnv.allOk oneRecordSample) 10

/-- The queue that `New` returns, on ext4, on a directory whose push file holds
the record of `"a"` and whose pop file holds the marker of the offset `2^62`,
which is past the largest offset of the file system. -/
def farOffsetSample : DQueue :=
  { fresh with
    pushLog := storedBytes [97]
    popLog := delRecordBytes 4611686018427387904 0
    pushReadOffset := 4611686018427387904 }

/-- The queue that `New` returns on a directory whose push file holds the
record of `"a"` and whose pop file holds the marker of the offset `-1`. -/
def negativeOffsetSample : DQueue :=
  { fresh with
    pushLog := storedBytes [97]
    popLog := delRecordBytes (-1) 0
    pushReadOffset := -1 }

/-- The queue `drainedSmallMaxSample` after one more `pop`, during which the two
renames of the rotation fail. -/
def failedRotationSample : DQueue := queueAfterPop IOEnv.renamesFail drainedSmallMaxSample

/-- A queue whose push file holds one record of `2^31 - 2` payload bytes under
a header whose checksum field is not the CRC-32 of these bytes. -/
def largeCorruptSample : DQueue :=
  { fresh with
    pushLog := headerBytes (largePayload.length : Int)
      ((ChecksumIEEE largePayload + 1) % 4294967296) ++ largePayload }

/-- The queue after `push("a")`, `push("b")`, `push("c")` on the fresh queue. -/
def threeRecordSample : DQueue := (pushAll IOEnv.allOk fresh [[97], [98], [99]]).2

/-- The queue after `push("a")`, `push("b")`, `pop` and `MaxSize(10)`, in which
the payload byte of the second record (byte 46 of the push file) has been
overwritten on disk: `"b"` reads `"c"` under the checksum of `"b\n"`. -/
def corruptSecondSample : DQueue :=
  { MaxSize (queueAfterPop IOEnv.allOk (pushAll IOEnv.allOk fresh [[97], [98]]).2) 10 with
    pushLog := (queueAfterPop IOEnv.allOk
      (pushAll IOEnv.allOk fresh [[97], [98]]).2).pushLog.set 46 99 }

/-- An environment in which the write to the pop file fails. -/
def IOEnv.popWriteFails : IOEnv := ⟨true, false, true, true, 0, 0, none, none⟩

/-- The digits of a decimal field without its sign: `Atoi` skips one leading
`+` or `-`. -/
def dropSign : Bytes → Bytes
  | [] => []
  | c :: cs => if c = 45 ∨ c = 43 then cs else c :: cs

/-- The 22 bytes `"abcdefghij abcdefghij "`. -/
def lettersHeader : Bytes :=
  [97, 98, 99, 100, 101, 102, 103, 104, 105, 106, 32,
    97, 98, 99, 100, 101, 102, 103, 104, 105, 106, 32]

/-- The states of the queue reached from a fresh queue, on any file system, by
calls of `push`, `pop`, `PopReadOnly`, `PopReadOnlyTail` and `MaxSize` in any
order, each in an environment in which every write and rename succeeds. The
payloads pushed have `len(x) + 1 < 2^31` and the push file stays within the
`2^63 - 1` bytes of a file; a call that panics ends the process and reaches no
state. -/
inductive ReachOps : DQueue → Prop
  | fresh (m : Nat) : ReachOps (freshOn m)
  | push (env : IOEnv) (q : DQueue) (x : Bytes) : IOEnv.succeeds env → ReachOps q →
      x.length + 1 < 2 ^ 31 → q.pushLog.length + (22 + x.length + 1) ≤ maxFileSize →
      ReachOps (push env q x).2
  | pop (env : IOEnv) (q : DQueue) (r : PopResult) : IOEnv.succeeds env → ReachOps q →
      pop env q = Run.ret r → ReachOps r.q
  | head (env : IOEnv) (q : DQueue) (n : Nat) (data : List Bytes) (cnt : Nat) (q1 : DQueue) :
      IOEnv.succeeds env → ReachOps q →
      PopReadOnly env q n = Run.ret (data, cnt, q1) → ReachOps q1
  | tail (q : DQueue) (n : Nat) (data : List Bytes) (cnt : Nat) (q1 : DQueue) : ReachOps q →
      PopReadOnlyTail q n = Run.ret (data, cnt, q1) → ReachOps q1
  | maxSize (q : DQueue) (m : Nat) : ReachOps q → ReachOps (MaxSize q m)

/-- The push file is the records of the payloads `consumed` followed by those
of the payloads `pending`, and the offset is the end of the records of
`consumed`. -/
def BoundaryInv (q : DQueue) : Prop :=
  ∃ consumed pending : List Bytes,
    (∀ p ∈ consumed ++ pending, p.length + 1 < 2 ^ 31)
      ∧ q.pushLog = framesOf consumed ++ framesOf pending
      ∧ q.pushReadOffset = ((framesOf consumed).length : Int)
      ∧ q.pushLog.length ≤ maxFileSize

/-! # Properties -/

/-! ## Machine integers -/

theorem toInt32_of_range (v : Int) (h0 : 0 ≤ v) (h : v < 2 ^ 31) : toInt32 v = v := by
  unfold toInt32
  split <;> omega

theorem toInt64_of_range (v : Int) (h0 : -2 ^ 63 ≤ v) (h : v < 2 ^ 63) : toInt64 v = v := by
  unfold toInt64
  split <;> omega

theorem toInt64_range (v : Int) : -2 ^ 63 ≤ toInt64 v ∧ toInt64 v < 2 ^ 63 := by
  unfold toInt64
  split <;> omega

theorem toUInt32_of_lt (n : Nat) (h : n < 2 ^ 32) : toUInt32 (n : Int) = n := by
  unfold toUInt32; omega

theorem toUInt64_of_nonneg (v : Int) (h0 : 0 ≤ v) (h : v < 2 ^ 64) : toUInt64 v = v.toNat := by
  unfold toUInt64; omega

/-! ## CRC-32 fits 32 bits -/

theorem crcShift_lt (c : Nat) (h : c < 2 ^ 32) : crcShift c < 2 ^ 32 := by
  unfold crcShift
  split
  · apply Nat.xor_lt_two_pow
    · omega
    · unfold crcPoly; norm_num
  · omega

theorem crcByte_lt (c : Nat) (b : UInt8) (h : c < 2 ^ 32) : crcByte c b < 2 ^ 32 := by
  unfold crcByte
  have hb : b.toNat < 2 ^ 32 := by
    have := UInt8.toNat_lt b
    omega
  have h0 : c ^^^ b.toNat < 2 ^ 32 := Nat.xor_lt_two_pow h hb
  exact crcShift_lt _ (crcShift_lt _ (crcShift_lt _ (crcShift_lt _ (crcShift_lt _
    (crcShift_lt _ (crcShift_lt _ (crcShift_lt _ h0)))))))

theorem foldl_crcByte_lt (data : Bytes) (c : Nat) (h : c < 2 ^ 32) :
    data.foldl crcByte c < 2 ^ 32 := by
  induction data generalizing c with
  | nil => simpa using h
  | cons b bs ih => exact ih _ (crcByte_lt c b h)

theorem ChecksumIEEE_lt (data : Bytes) : ChecksumIEEE data < 2 ^ 32 := by
  unfold ChecksumIEEE
  apply Nat.xor_lt_two_pow
  · exact foldl_crcByte_lt data _ (by norm_num)
  · norm_num

theorem sliceCRC_lt (data : Bytes) : sliceCRC data < 2 ^ 32 := ChecksumIEEE_lt data

theorem int64CRC_lt (v : Int) : int64CRC v < 2 ^ 32 := ChecksumIEEE_lt _

/-! ## Decimal digits -/

theorem digitChar_toNat (d : Nat) (h : d < 10) : (digitChar d).toNat = 48 + d := by
  unfold digitChar
  interval_cases d <;> rfl

theorem isDigit_digitChar (d : Nat) (h : d < 10) : isDigit (digitChar d) = true := by
  unfold isDigit
  rw [digitChar_toNat d h]
  simp
  omega

theorem isDigit_zero : isDigit 48 = true := by decide

theorem isDigit_ne_minus (c : UInt8) (h : isDigit c = true) : c ≠ 45 := by
  intro hc
  subst hc
  revert h
  decide

theorem isDigit_ne_plus (c : UInt8) (h : isDigit c = true) : c ≠ 43 := by
  intro hc
  subst hc
  revert h
  decide

theorem allDigits_nil : allDigits [] := by
  intro c hc
  simp at hc

theorem allDigits_append (xs ys : Bytes) (hx : allDigits xs) (hy : allDigits ys) :
    allDigits (xs ++ ys) := by
  intro c hc
  rcases List.mem_append.mp hc with h | h
  · exact hx c h
  · exact hy c h

theorem allDigits_replicate_zero (k : Nat) : allDigits (List.replicate k 48) := by
  intro c hc
  rw [List.mem_replicate] at hc
  rw [hc.2]
  exact isDigit_zero

theorem allDigits_decDigitsAux (fuel n : Nat) : allDigits (decDigitsAux fuel n) := by
  induction fuel generalizing n with
  | zero => exact allDigits_nil
  | succ f ih =>
    unfold decDigitsAux
    split
    · intro c hc
      rw [List.mem_singleton] at hc
      rw [hc]
      exact isDigit_digitChar n (by assumption)
    · apply allDigits_append _ _ (ih _)
      intro c hc
      rw [List.mem_singleton] at hc
      rw [hc]
      exact isDigit_digitChar _ (Nat.mod_lt _ (by norm_num))

theorem allDigits_decDigits (n : Nat) : allDigits (decDigits n) :=
  allDigits_decDigitsAux _ _

theorem decVal_append (xs ys : Bytes) (n : Nat) :
    decVal (xs ++ ys) n = decVal ys (decVal xs n) := by
  induction xs generalizing n with
  | nil => rfl
  | cons c cs ih => simp only [List.cons_append, decVal]; exact ih _

theorem decVal_replicate_zero (k : Nat) : decVal (List.replicate k 48) 0 = 0 := by
  induction k with
  | zero => rfl
  | succ k ih =>
    rw [List.replicate_succ]
    simp only [decVal]
    exact ih

theorem decVal_decDigitsAux (fuel n : Nat) (h : n < fuel) :
    decVal (decDigitsAux fuel n) 0 = n := by
  induction fuel generalizing n with
  | zero => omega
  | succ f ih =>
    unfold decDigitsAux
    split
    · rename_i h10
      simp only [decVal]
      rw [digitChar_toNat n h10]
      omega
    · rw [decVal_append, ih (n / 10) (by omega)]
      simp only [decVal]
      rw [digitChar_toNat _ (Nat.mod_lt _ (by norm_num))]
      omega

theorem decVal_decDigits (n : Nat) : decVal (decDigits n) 0 = n :=
  decVal_decDigitsAux _ _ (Nat.lt_succ_self n)

theorem decDigitsAux_length_le (w fuel n : Nat) (hw : 0 < w) (h : n < 10 ^ w) :
    (decDigitsAux fuel n).length ≤ w := by
  induction fuel generalizing n w with
  | zero => simp [decDigitsAux]
  | succ f ih =>
    unfold decDigitsAux
    split
    · simpa using hw
    · rename_i h10
      rw [List.length_append, List.length_singleton]
      obtain ⟨w1, rfl⟩ : ∃ w1, w = w1 + 1 := ⟨w - 1, by omega⟩
      have hw1 : 0 < w1 := by
        rcases Nat.eq_zero_or_pos w1 with h0 | h0
        · subst h0
          simp at h
          omega
        · exact h0
      have hdiv : n / 10 < 10 ^ w1 := by
        rw [Nat.div_lt_iff_lt_mul (by norm_num)]
        rw [pow_succ] at h
        exact h
      have := ih w1 (n / 10) hw1 hdiv
      omega

theorem decDigits_length_le (w n : Nat) (hw : 0 < w) (h : n < 10 ^ w) :
    (decDigits n).length ≤ w :=
  decDigitsAux_length_le w _ n hw h

theorem decDigitsAux_ne_nil (fuel n : Nat) : decDigitsAux (fuel + 1) n ≠ [] := by
  unfold decDigitsAux
  split <;> simp

theorem decDigits_length_pos (n : Nat) : 0 < (decDigits n).length := by
  have := decDigitsAux_ne_nil n n
  exact List.length_pos.mpr this

/-! ## The verb `%0wd` -/

theorem fmtD_nonneg (w : Nat) (v : Int) (h : 0 ≤ v) :
    fmtD w v = List.replicate (w - (decDigits v.natAbs).length) 48 ++ decDigits v.natAbs := by
  unfold fmtD
  simp only
  rw [if_neg (by omega)]

theorem fmtD_neg (w : Nat) (v : Int) (h : v < 0) :
    fmtD w v =
      45 :: (List.replicate (w - 1 - (decDigits v.natAbs).length) 48 ++ decDigits v.natAbs) := by
  unfold fmtD
  simp only
  rw [if_pos h]

theorem fmtD_nonneg_length (w : Nat) (v : Int) (hw : 0 < w) (h : 0 ≤ v)
    (hv : v.natAbs < 10 ^ w) : (fmtD w v).length = w := by
  rw [fmtD_nonneg w v h, List.length_append, List.length_replicate]
  have := decDigits_length_le w v.natAbs hw hv
  omega

theorem fmtD_neg_length (w : Nat) (v : Int) (hw : 1 < w) (h : v < 0)
    (hv : v.natAbs < 10 ^ (w - 1)) : (fmtD w v).length = w := by
  rw [fmtD_neg w v h, List.length_cons, List.length_append, List.length_replicate]
  have := decDigits_length_le (w - 1) v.natAbs (by omega) hv
  omega

theorem fmtD_nonneg_allDigits (w : Nat) (v : Int) (h : 0 ≤ v) : allDigits (fmtD w v) := by
  rw [fmtD_nonneg w v h]
  exact allDigits_append _ _ (allDigits_replicate_zero _) (allDigits_decDigits _)

theorem decVal_pad (k n : Nat) :
    decVal (List.replicate k 48 ++ decDigits n) 0 = n := by
  rw [decVal_append, decVal_replicate_zero, decVal_decDigits]

theorem fmtD_nonneg_decVal (w : Nat) (v : Int) (h : 0 ≤ v) :
    decVal (fmtD w v) 0 = v.natAbs := by
  rw [fmtD_nonneg w v h, decVal_pad]

/-! ## `strconv` reads back what `fmt` wrote -/

theorem le_decVal (s : Bytes) (n : Nat) : n ≤ decVal s n := by
  induction s generalizing n with
  | nil => exact Nat.le_refl _
  | cons c cs ih =>
    simp only [decVal]
    have := ih (n * 10 + (c.toNat - 48))
    omega

theorem atoiLoop_allDigits (s : Bytes) (n : Nat) (h : allDigits s) :
    atoiLoop s n = some (decVal s n) := by
  induction s generalizing n with
  | nil => rfl
  | cons c cs ih =>
    have hc : isDigit c = true := h c (List.mem_cons_self _ _)
    have hcs : allDigits cs := fun d hd => h d (List.mem_cons_of_mem _ hd)
    simp only [atoiLoop, decVal, hc, if_true]
    exact ih _ hcs

theorem parseUintLoop_allDigits (maxVal : Nat) (s : Bytes) (n : Nat) (h : allDigits s)
    (hmax : maxVal < 2 ^ 64) (hv : decVal s n ≤ maxVal) :
    parseUintLoop maxVal s n = (decVal s n, none) := by
  induction s generalizing n with
  | nil => rfl
  | cons c cs ih =>
    have hc : isDigit c = true := h c (List.mem_cons_self _ _)
    have hcs : allDigits cs := fun d hd => h d (List.mem_cons_of_mem _ hd)
    simp only [decVal] at hv
    have hge := le_decVal cs (n * 10 + (c.toNat - 48))
    have h1 : ¬ cutoff10 ≤ n := by
      unfold cutoff10
      omega
    have h2 : ¬ (18446744073709551616 ≤ n * 10 + (c.toNat - 48)
        ∨ maxVal < n * 10 + (c.toNat - 48)) := by
      omega
    simp only [parseUintLoop, decVal, hc, if_true, h1, h2, if_false]
    exact ih _ hcs hv

theorem ParseUint_allDigits (s : Bytes) (h : allDigits s) (hne : s ≠ [])
    (hv : decVal s 0 < 2 ^ 64) : ParseUint s 64 = (decVal s 0, none) := by
  unfold ParseUint
  rw [if_neg hne]
  exact parseUintLoop_allDigits _ s 0 h (by norm_num) (by omega)

theorem fmtD_ne_nil (w : Nat) (v : Int) : fmtD w v ≠ [] := by
  intro h
  have hl := congrArg List.length h
  have hp := decDigits_length_pos v.natAbs
  unfold fmtD at hl
  simp only at hl
  split at hl
  · simp at hl
  · simp only [List.length_append, List.length_replicate, List.length_nil] at hl
    omega

theorem ParseUint_fmtD (w n : Nat) (h : n < 2 ^ 64) :
    ParseUint (fmtD w (n : Int)) 64 = (n, none) := by
  have h0 : (0 : Int) ≤ (n : Int) := Int.ofNat_nonneg n
  have hval := fmtD_nonneg_decVal w (n : Int) h0
  rw [Int.natAbs_ofNat] at hval
  rw [ParseUint_allDigits _ (fmtD_nonneg_allDigits w _ h0) (fmtD_ne_nil w _)
    (by rw [hval]; exact h), hval]

theorem Atoi_fmtD (v : Int) (h0 : 0 ≤ v) (h : v < 10 ^ 10) :
    Atoi (fmtD 10 v) = (v, none) := by
  have hlen : (fmtD 10 v).length = 10 :=
    fmtD_nonneg_length 10 v (by norm_num) h0 (by omega)
  have hall := fmtD_nonneg_allDigits 10 v h0
  have hval := fmtD_nonneg_decVal 10 v h0
  generalize fmtD 10 v = s at hlen hall hval
  match s, hlen with
  | c :: cs, hlen =>
    have hc : isDigit c = true := hall c (List.mem_cons_self _ _)
    have hm := isDigit_ne_minus c hc
    have hp := isDigit_ne_plus c hc
    have hlt : (c :: cs).length < 19 := by omega
    have hb : ¬ (c :: cs).length < 1 := by simp
    simp only [Atoi, hlt, if_true, hm, hp, or_self, if_false, hb,
      atoiLoop_allDigits (c :: cs) 0 hall, hval]
    congr 1
    omega

theorem ParseInt_fmtD (v : Int) (h0 : -2 ^ 63 ≤ v) (h : v < 2 ^ 63) :
    ParseInt (fmtD 20 v) 64 = (v, none) := by
  by_cases hneg : v < 0
  · have hu : ParseUint (List.replicate (20 - 1 - (decDigits v.natAbs).length) 48
        ++ decDigits v.natAbs) 64 = (v.natAbs, none) := by
      have hall : allDigits (List.replicate (20 - 1 - (decDigits v.natAbs).length) 48
          ++ decDigits v.natAbs) :=
        allDigits_append _ _ (allDigits_replicate_zero _) (allDigits_decDigits _)
      have hne : List.replicate (20 - 1 - (decDigits v.natAbs).length) 48
          ++ decDigits v.natAbs ≠ [] := by
        intro hnil
        have := decDigits_length_pos v.natAbs
        have hl := congrArg List.length hnil
        simp only [List.length_append, List.length_replicate, List.length_nil] at hl
        omega
      rw [ParseUint_allDigits _ hall hne (by rw [decVal_pad]; omega), decVal_pad]
    have hres : toInt64 (-toInt64 (v.natAbs : Int)) = v := by
      by_cases hmin : v = -2 ^ 63
      · have habs : (v.natAbs : Int) = 9223372036854775808 := by omega
        rw [habs, hmin]
        decide
      · rw [toInt64_of_range (v.natAbs : Int) (by omega) (by omega),
          toInt64_of_range _ (by omega) (by omega)]
        omega
    have hc2 : ¬ (True ∧ 2 ^ (64 - 1) < v.natAbs) := fun hh => by
      have := hh.2
      omega
    rw [fmtD_neg 20 v hneg]
    simp only [ParseInt, or_true, if_true, hu, decide_True, false_and, if_false,
      Bool.true_eq_false, if_neg hc2, hres]
  · have hv0 : 0 ≤ v := by omega
    have hall := fmtD_nonneg_allDigits 20 v hv0
    have hval := fmtD_nonneg_decVal 20 v hv0
    have hne := fmtD_ne_nil 20 v
    have hu := ParseUint_allDigits _ hall hne (by rw [hval]; omega)
    rw [hval] at hu
    have hres : toInt64 (v.natAbs : Int) = v := by
      rw [toInt64_of_range _ (by omega) (by omega)]
      omega
    have hc1 : ¬ (True ∧ 2 ^ (64 - 1) ≤ v.natAbs) := fun hh => by
      have := hh.2
      omega
    generalize fmtD 20 v = s at hall hne hu
    match s, hne with
    | c :: cs, _ =>
      have hc : isDigit c = true := hall c (List.mem_cons_self _ _)
      have hm := isDigit_ne_minus c hc
      have hp := isDigit_ne_plus c hc
      simp only [ParseInt, hm, hp, or_self, if_false, hu, decide_False, if_neg hc1,
        Bool.false_eq_true, false_and, hres]

/-! ## Reading a file -/

theorem fileRead_zero (content : Bytes) (pos : Nat) : fileRead content pos 0 = ([], none) := by
  simp [fileRead]

theorem lt_of_le_maxRW (n : Nat) (h : n ≤ maxRW) : n < 2 ^ 31 := by
  unfold maxRW at h
  omega

theorem fileRead_at (pre xs rest : Bytes) (n : Nat) (hn : xs.length = n) (hcap : n ≤ maxRW) :
    fileRead (pre ++ (xs ++ rest)) pre.length n = (xs, none) := by
  unfold fileRead
  simp only [if_pos hcap, List.drop_left, List.take_left' hn]
  by_cases h0 : n = 0
  · simp [h0]
  · have : ¬ (n ≠ 0 ∧ xs.length = 0) := by omega
    rw [if_neg this]

theorem fileRead_short (pre xs rest : Bytes) (n : Nat) (hn : xs.length = n)
    (hcap : maxRW < n) :
    fileRead (pre ++ (xs ++ rest)) pre.length n = (xs.take maxRW, none) := by
  have hle : maxRW ≤ xs.length := by omega
  have hpos : 0 < maxRW := by decide
  have hlen : (xs.take maxRW).length = maxRW := by
    rw [List.length_take]
    omega
  unfold fileRead
  simp only [if_neg (Nat.not_le.mpr hcap), List.drop_left, List.take_append_of_le_length hle]
  rw [if_neg (by omega)]

theorem fileRead_eof (content : Bytes) (pos n : Nat) (hpos : content.length ≤ pos)
    (hn : n ≠ 0) : fileRead content pos n = ([], some Err.eof) := by
  unfold fileRead
  simp only [List.drop_of_length_le hpos, List.take_nil, List.length_nil]
  rw [if_pos ⟨hn, trivial⟩]

/-! ## The header of a push record -/

theorem fmtD10_length (v : Int) (h0 : 0 ≤ v) (h : v < 10 ^ 10) : (fmtD 10 v).length = 10 :=
  fmtD_nonneg_length 10 v (by norm_num) h0 (by omega)

theorem headerBytes_length (len : Int) (crc : Nat) (h0 : 0 ≤ len) (h : len < 10 ^ 10)
    (hc : crc < 10 ^ 10) : (headerBytes len crc).length = 22 := by
  unfold headerBytes
  simp only [List.length_append, List.length_singleton,
    fmtD10_length len h0 h, fmtD10_length (crc : Int) (by omega) (by omega)]

theorem pushRecordBytes_eq (r : Record) :
    pushRecordBytes r = headerBytes r.Len r.Crc ++ r.Payload := rfl

theorem readHeader_at (pre rest : Bytes) (len : Int) (crc : Nat) (h0 : 0 ≤ len)
    (h : len < 2 ^ 31) (hc : crc < 2 ^ 32) :
    readHeader (pre ++ (headerBytes len crc ++ rest)) pre.length
      = (⟨len, crc, []⟩, none, pre.length + 22) := by
  have hl1 : (fmtD 10 len).length = 10 := fmtD10_length len h0 (by omega)
  have hl2 : (fmtD 10 (crc : Int)).length = 10 :=
    fmtD10_length (crc : Int) (by omega) (by omega)
  have hlen : (headerBytes len crc).length = 22 :=
    headerBytes_length len crc h0 (by omega) (by omega)
  have hread := fileRead_at pre (headerBytes len crc) rest 22 hlen (by decide)
  have ha : Atoi (fmtD 10 len) = (len, none) := Atoi_fmtD len h0 (by omega)
  have hu : ParseUint (fmtD 10 (crc : Int)) 64 = (crc, none) := ParseUint_fmtD 10 crc (by omega)
  have ht1 : List.take 10 (headerBytes len crc) = fmtD 10 len := by
    unfold headerBytes
    simp only [List.append_assoc]
    exact List.take_left' hl1
  have ht2 : List.take 10 (List.drop 11 (headerBytes len crc)) = fmtD 10 (crc : Int) := by
    unfold headerBytes
    have hd : (fmtD 10 len ++ [32]).length = 11 := by simp [hl1]
    rw [List.append_assoc (fmtD 10 len ++ [32]), List.drop_left' hd]
    exact List.take_left' hl2
  have h22 : ¬ toInt32 ((22 : Nat) : Int) ≠ ((22 : Nat) : Int) := by decide
  simp only [readHeader, HEADERSZ]
  rw [hread]
  simp only [List.drop_zero, ht1, ht2, ha, hu, hlen]
  rw [if_neg h22, toInt32_of_range len h0 h, toUInt32_of_lt crc hc]

/-! ## The payload of a push record -/

theorem readPayload_at (pre payload rest : Bytes) (len : Int) (crc : Nat)
    (hlen : (payload.length : Int) = len) (hcap : payload.length ≤ maxRW) :
    readPayload (pre ++ (payload ++ rest)) pre.length ⟨len, crc, []⟩
      = Except.ok (⟨len, crc, payload⟩,
          if crc ≠ sliceCRC payload then some Err.crcNotEqual else none,
          pre.length + payload.length) := by
  have h : len < 2 ^ 31 := by
    unfold maxRW at hcap
    omega
  have h0 : ¬ len < 0 := by omega
  have hn : payload.length = len.toNat := by omega
  have hread := fileRead_at pre payload rest len.toNat hn (by omega)
  have hsz : ¬ toInt32 (payload.length : Int) ≠ len := by
    rw [hlen, toInt32_of_range len (by omega) h]
    simp
  simp only [readPayload, if_neg h0, hread, if_neg hsz]
  split <;> rfl

/-! ## `pop` on a record of the push file -/

theorem seekRead_nonneg (q : DQueue) (n : Nat)
    (h : n ≤ q.maxOffset ∨ n ≤ q.pushLog.length) :
    seekRead q (n : Int) = { q with pushReadPos := n } := by
  unfold seekRead
  rw [if_pos (show seekAccepts q (n : Int) from ⟨Int.ofNat_nonneg n, by simpa using h⟩)]
  simp

theorem ReadHeader_at (q : DQueue) (pre rest : Bytes) (len : Int) (crc : Nat)
    (hlog : q.pushLog = pre ++ (headerBytes len crc ++ rest)) (hpos : q.pushReadPos = pre.length)
    (h0 : 0 ≤ len) (h : len < 2 ^ 31) (hc : crc < 2 ^ 32) :
    ReadHeader q = (⟨len, crc, []⟩, none, { q with pushReadPos := pre.length + 22 }) := by
  unfold ReadHeader
  rw [hlog, hpos, readHeader_at pre rest len crc h0 h hc]

theorem ReadPayload_at (q : DQueue) (pre payload rest : Bytes) (len : Int) (crc : Nat)
    (hlog : q.pushLog = pre ++ (payload ++ rest)) (hpos : q.pushReadPos = pre.length)
    (hlen : (payload.length : Int) = len) (hcap : payload.length ≤ maxRW) :
    ReadPayload q ⟨len, crc, []⟩
      = Run.ret (⟨len, crc, payload⟩,
          if crc ≠ sliceCRC payload then some Err.crcNotEqual else none,
          { q with pushReadPos := pre.length + payload.length }) := by
  unfold ReadPayload
  rw [hlog, hpos, readPayload_at pre payload rest len crc hlen hcap]

theorem pop_record_prefix (q : DQueue) (pre payload rest : Bytes) (crc : Nat)
    (hlog : q.pushLog = pre ++ (headerBytes payload.length crc ++ (payload ++ rest)))
    (hoff : q.pushReadOffset = pre.length)
    (hcap : payload.length ≤ maxRW) (hc : crc < 2 ^ 32) :
    ReadHeader (seekRead q q.pushReadOffset)
        = (⟨payload.length, crc, []⟩, none, { q with pushReadPos := pre.length + 22 })
    ∧ ReadPayload { q with pushReadPos := pre.length + 22 } ⟨payload.length, crc, []⟩
        = Run.ret (⟨payload.length, crc, payload⟩,
            if crc ≠ sliceCRC payload then some Err.crcNotEqual else none,
            { q with pushReadPos := pre.length + 22 + payload.length }) := by
  have hpl : payload.length < 2 ^ 31 := by
    unfold maxRW at hcap
    omega
  have hl : (headerBytes (payload.length : Int) crc).length = 22 :=
    headerBytes_length _ crc (by omega) (by omega) (by omega)
  rcases q with ⟨pl, ppl, bk, rp, n1, n2, n3, off, n4, n5, mx, cs, mo⟩
  simp only at hlog hoff
  subst hlog
  subst hoff
  constructor
  · rw [seekRead_nonneg _ _ (Or.inr (by simp only [List.length_append]; omega))]
    exact ReadHeader_at _ pre (payload ++ rest) (payload.length : Int) crc rfl rfl (by omega)
      (by exact_mod_cast hpl) hc
  · have := ReadPayload_at
      { pushLog := pre ++ (headerBytes (payload.length : Int) crc ++ (payload ++ rest)),
        popLog := ppl, bkp := bk, pushReadPos := pre.length + 22, pushNro := n1,
        pushRecNro := n2, pushReadNro := n3, pushReadOffset := (pre.length : Int),
        popNro := n4, popRecNro := n5, maxsize := mx, clearStarted := cs, maxOffset := mo }
      (pre ++ headerBytes (payload.length : Int) crc) payload rest (payload.length : Int) crc
      (by simp only [List.append_assoc])
      (by simp only [List.length_append, hl]) rfl hcap
    rw [this]
    simp only [List.length_append, hl]

theorem pop_record_crc (env : IOEnv) (q : DQueue) (pre payload rest : Bytes) (crc : Nat)
    (hlog : q.pushLog = pre ++ (headerBytes payload.length crc ++ (payload ++ rest)))
    (hoff : q.pushReadOffset = pre.length)
    (hcap : payload.length ≤ maxRW) (hc : crc < 2 ^ 32) (hne : crc ≠ sliceCRC payload) :
    pop env q = Run.ret ⟨[], some Err.crcNotEqual,
      { q with pushReadPos := pre.length + 22 + payload.length }⟩ := by
  obtain ⟨hh, hp⟩ := pop_record_prefix q pre payload rest crc hlog hoff hcap hc
  unfold pop
  simp only [hh]
  rw [if_neg (by simp)]
  simp only [hp, if_pos hne]

theorem pop_record_ok (env : IOEnv) (q : DQueue) (pre payload rest : Bytes)
    (hlog : q.pushLog
      = pre ++ (headerBytes payload.length (sliceCRC payload) ++ (payload ++ rest)))
    (hoff : q.pushReadOffset = pre.length)
    (hcap : payload.length ≤ maxRW) (hne : payload ≠ [])
    (hsz : pre.length + 22 + payload.length ≤ maxFileSize) (hw : env.popWriteOk = true) :
    pop env q = Run.ret ⟨payload.take (payload.length - 1), none,
      { q with
        pushReadPos := pre.length + 22 + payload.length
        pushReadOffset := ((pre.length + 22 + payload.length : Nat) : Int)
        popLog := q.popLog ++ delRecordBytes ((pre.length + 22 + payload.length : Nat) : Int)
          (sliceCRC payload)
        popRecNro := incr64 q.popRecNro }⟩ := by
  obtain ⟨hh, hp⟩ := pop_record_prefix q pre payload rest (sliceCRC payload) hlog hoff hcap
    (sliceCRC_lt payload)
  have hle : ¬ payload.length = 0 := by
    intro h0
    exact hne (List.length_eq_zero.mp h0)
  have hadd : toInt64 ((pre.length : Int) + ((HEADERSZ + payload.length : Nat) : Int))
      = ((pre.length + 22 + payload.length : Nat) : Int) := by
    unfold maxFileSize at hsz
    unfold HEADERSZ
    rw [toInt64_of_range _ (by omega) (by omega)]
    omega
  rcases q with ⟨pl, ppl, bk, rp, n1, n2, n3, off, n4, n5, mx, cs, mo⟩
  simp only at hlog hoff hh hp
  subst hoff
  unfold pop
  simp only [hh]
  rw [if_neg (by simp)]
  simp only [hp, ne_eq, not_true_eq_false, if_false, if_neg hle, hadd, WriteDelRecord,
    fileAppend, hw, if_true]

/-! ## The delete marker -/

theorem fmtD20_length (v : Int) (h0 : -2 ^ 63 ≤ v) (h : v < 2 ^ 63) :
    (fmtD 20 v).length = 20 := by
  by_cases hneg : v < 0
  · exact fmtD_neg_length 20 v (by norm_num) hneg (by omega)
  · exact fmtD_nonneg_length 20 v (by norm_num) (by omega) (by omega)

theorem delRecordBytes_length (off : Int) (crcpush : Nat) (h0 : -2 ^ 63 ≤ off)
    (h : off < 2 ^ 63) (hc : crcpush < 2 ^ 32) : (delRecordBytes off crcpush).length = 43 := by
  have hcrc := int64CRC_lt off
  unfold delRecordBytes
  simp only [List.length_append, List.length_singleton, fmtD20_length off h0 h,
    fmtD10_length (crcpush : Int) (by omega) (by omega),
    fmtD10_length (int64CRC off : Int) (by omega) (by omega)]

theorem offsetDelRecord_at (pre rest : Bytes) (off : Int) (crcpush : Nat) (h0 : -2 ^ 63 ≤ off)
    (h : off < 2 ^ 63) (hc : crcpush < 2 ^ 32) :
    offsetDelRecord (pre ++ (delRecordBytes off crcpush ++ rest)) pre.length
      = (off, none, pre.length + 43) := by
  have hcrc := int64CRC_lt off
  have hl1 : (fmtD 10 (int64CRC off : Int)).length = 10 :=
    fmtD10_length _ (by omega) (by omega)
  have hl2 : (fmtD 20 off).length = 20 := fmtD20_length off h0 h
  have hlen := delRecordBytes_length off crcpush h0 h hc
  have hread := fileRead_at pre (delRecordBytes off crcpush) rest 43 hlen (by decide)
  have ht1 : List.take 10 (delRecordBytes off crcpush) = fmtD 10 (int64CRC off : Int) := by
    unfold delRecordBytes
    simp only [List.append_assoc]
    exact List.take_left' hl1
  have ht2 : List.take 20 (List.drop 11 (delRecordBytes off crcpush)) = fmtD 20 off := by
    have hd : (fmtD 10 (int64CRC off : Int) ++ [32]).length = 11 := by simp [hl1]
    have hshape : delRecordBytes off crcpush
        = (fmtD 10 (int64CRC off : Int) ++ [32])
          ++ (fmtD 20 off ++ ([32] ++ fmtD 10 (crcpush : Int) ++ [10])) := by
      simp only [delRecordBytes, List.append_assoc]
    rw [hshape, List.drop_left' hd]
    exact List.take_left' hl2
  have h43 : ¬ toInt32 ((43 : Nat) : Int) ≠ ((43 : Nat) : Int) := by decide
  have hu : ParseUint (fmtD 10 (int64CRC off : Int)) 64 = (int64CRC off, none) :=
    ParseUint_fmtD 10 _ (by omega)
  have hcheck : ¬ int64CRC off ≠ toUInt32 ((int64CRC off : Nat) : Int) := by
    rw [toUInt32_of_lt _ hcrc]
    simp
  simp only [offsetDelRecord, DELRECSZ]
  rw [hread]
  simp only [List.drop_zero, ht1, ht2, hu, hlen, ParseInt_fmtD off h0 h]
  rw [if_neg h43, if_neg hcheck]

theorem ReadDelRecord_append (q : DQueue) (pre : Bytes) (off : Int) (crcpush : Nat)
    (hlog : q.popLog = pre ++ delRecordBytes off crcpush)
    (h0 : -2 ^ 63 ≤ off) (h : off < 2 ^ 63) (hc : crcpush < 2 ^ 32) :
    ReadDelRecord q = (off, none) := by
  have hlen := delRecordBytes_length off crcpush h0 h hc
  have hl : q.popLog.length = pre.length + 43 := by
    rw [hlog, List.length_append, hlen]
  have hat := offsetDelRecord_at pre [] off crcpush h0 h hc
  rw [List.append_nil] at hat
  unfold ReadDelRecord
  simp only [hl, DELRECSZ]
  rw [if_neg (by omega), if_pos (by omega)]
  have hpos : pre.length + 43 - 43 = pre.length := by omega
  rw [hpos, hlog, hat]

/-! ## `push` appends one record -/

theorem push_frame (env : IOEnv) (q : DQueue) (x : Bytes) (hlen : x.length + 1 < 2 ^ 31)
    (hw : env.pushWriteOk = true) :
    push env q x = (none, { q with
      pushLog := q.pushLog ++ (headerBytes ((x.length + 1 : Nat) : Int) (sliceCRC (x ++ [10]))
        ++ (x ++ [10]))
      pushRecNro := incr64 q.pushRecNro }) := by
  have h32 : toInt32 (((x ++ [10]).length : Nat) : Int) = ((x.length + 1 : Nat) : Int) := by
    rw [List.length_append, List.length_singleton]
    exact toInt32_of_range _ (by omega) (by omega)
  have hnz : ¬ ((x.length + 1 : Nat) : Int) = 0 := by omega
  simp only [push, buildPushRecord, h32, if_neg hnz, pushRecord, fileAppend, hw, if_true,
    pushRecordBytes_eq]

theorem hugePayload_length : hugePayload.length = 2147483647 := by
  unfold hugePayload
  exact List.length_replicate _ _

theorem push_wrapped_length (q : DQueue) (x : Bytes) (hlen : x.length + 1 = 2147483648) :
    push IOEnv.allOk q x = (none, { q with
      pushLog := q.pushLog ++ (fmtD 10 (-2147483648) ++ [32]
        ++ fmtD 10 (sliceCRC (x ++ [10]) : Int) ++ [32] ++ (x ++ [10]))
      pushRecNro := incr64 q.pushRecNro }) := by
  have h32 : toInt32 (((x ++ [10]).length : Nat) : Int) = -2147483648 := by
    rw [List.length_append, List.length_singleton, hlen]
    decide
  have hnz : ¬ ((-2147483648 : Int) = 0) := by decide
  simp only [push, buildPushRecord, h32, if_neg hnz, pushRecord, fileAppend, IOEnv.allOk,
    if_true, pushRecordBytes]

theorem push_wrapped_size (q : DQueue) (x : Bytes) (hlen : x.length + 1 = 2147483648) :
    (push IOEnv.allOk q x).1 = none
      ∧ (push IOEnv.allOk q x).2.pushLog.length = q.pushLog.length + (23 + x.length + 1) := by
  have hcrc := sliceCRC_lt (x ++ [10])
  have hl11 : (fmtD 10 (-2147483648)).length = 11 := by decide
  have hl10 : (fmtD 10 (sliceCRC (x ++ [10]) : Int)).length = 10 :=
    fmtD10_length _ (by omega) (by omega)
  rw [push_wrapped_length q x hlen]
  constructor
  · rfl
  · simp only [List.length_append, List.length_singleton, hl11, hl10]
    omega

theorem storedBytes_length (x : Bytes) (hlen : x.length + 1 < 2 ^ 31) :
    (storedBytes x).length = 22 + x.length + 1 := by
  have hcrc := sliceCRC_lt (x ++ [10])
  unfold storedBytes
  rw [List.length_append, headerBytes_length _ _ (by omega) (by omega) (by omega)]
  simp only [List.length_append, List.length_singleton]
  omega

theorem storedBytes_shape (p : Bytes) (rest : Bytes) :
    storedBytes p ++ rest
      = headerBytes ((p ++ [10]).length : Int) (sliceCRC (p ++ [10])) ++ ((p ++ [10]) ++ rest) := by
  have hpl : (p ++ [10]).length = p.length + 1 := by simp
  rw [hpl]
  simp only [storedBytes, List.append_assoc]

theorem framesOf_length (ps : List Bytes) (hlen : ∀ p ∈ ps, p.length + 1 < 2 ^ 31) :
    (framesOf ps).length = (ps.map (fun p => 22 + p.length + 1)).sum := by
  induction ps with
  | nil => rfl
  | cons p ps ih =>
    have hp := hlen p (List.mem_cons_self _ _)
    have hps : ∀ r ∈ ps, r.length + 1 < 2 ^ 31 := fun r hr => hlen r (List.mem_cons_of_mem _ hr)
    simp only [framesOf, List.length_append, storedBytes_length p hp, ih hps, List.map_cons,
      List.sum_cons]

theorem length_le_framesOf (qs : List Bytes) : qs.length ≤ (framesOf qs).length := by
  induction qs with
  | nil => exact Nat.le_refl _
  | cons p qs ih =>
    simp only [framesOf, storedBytes, List.length_cons, List.length_append, List.length_singleton,
      List.length_nil]
    omega

theorem pushAll_frames (env : IOEnv) (hw : env.pushWriteOk = true) (ps : List Bytes) (q : DQueue)
    (hlen : ∀ p ∈ ps, p.length + 1 < 2 ^ 31) :
    ∃ n, pushAll env q ps
      = (ps.map (fun _ => none),
         { q with pushLog := q.pushLog ++ framesOf ps, pushRecNro := n }) := by
  induction ps generalizing q with
  | nil =>
    refine ⟨q.pushRecNro, ?_⟩
    simp only [pushAll, framesOf, List.map_nil, List.append_nil]
  | cons p ps ih =>
    have hp := hlen p (List.mem_cons_self _ _)
    have hps : ∀ r ∈ ps, r.length + 1 < 2 ^ 31 := fun r hr => hlen r (List.mem_cons_of_mem _ hr)
    have hpush := push_frame env q p hp hw
    obtain ⟨n, hn⟩ := ih (push env q p).2 hps
    refine ⟨n, ?_⟩
    simp only [pushAll, hn, List.map_cons, framesOf]
    rw [hpush]
    simp only [storedBytes, List.append_assoc]

/-! ## Records read in a row -/

theorem read_record_at (q : DQueue) (pre payload rest : Bytes) (crc : Nat)
    (hlog : q.pushLog = pre ++ (headerBytes payload.length crc ++ (payload ++ rest)))
    (hpos : q.pushReadPos = pre.length)
    (hcap : payload.length ≤ maxRW) (hc : crc < 2 ^ 32) :
    ReadHeader q
        = (⟨payload.length, crc, []⟩, none, { q with pushReadPos := pre.length + 22 })
    ∧ ReadPayload { q with pushReadPos := pre.length + 22 } ⟨payload.length, crc, []⟩
        = Run.ret (⟨payload.length, crc, payload⟩,
            if crc ≠ sliceCRC payload then some Err.crcNotEqual else none,
            { q with pushReadPos := pre.length + 22 + payload.length }) := by
  have hpl := lt_of_le_maxRW _ hcap
  have hl : (headerBytes (payload.length : Int) crc).length = 22 :=
    headerBytes_length _ crc (by omega) (by omega) (by omega)
  rcases q with ⟨pl, ppl, bk, rp, n1, n2, n3, off, n4, n5, mx, cs, mo⟩
  simp only at hlog hpos
  subst hlog
  subst hpos
  constructor
  · exact ReadHeader_at _ pre (payload ++ rest) (payload.length : Int) crc rfl rfl (by omega)
      (by exact_mod_cast hpl) hc
  · have := ReadPayload_at
      { pushLog := pre ++ (headerBytes (payload.length : Int) crc ++ (payload ++ rest)),
        popLog := ppl, bkp := bk, pushReadPos := pre.length + 22, pushNro := n1,
        pushRecNro := n2, pushReadNro := n3, pushReadOffset := off,
        popNro := n4, popRecNro := n5, maxsize := mx, clearStarted := cs, maxOffset := mo }
      (pre ++ headerBytes (payload.length : Int) crc) payload rest (payload.length : Int) crc
      (by simp only [List.append_assoc])
      (by simp only [List.length_append, hl]) rfl hcap
    rw [this]
    simp only [List.length_append, hl]

theorem ReadHeader_eof (q : DQueue) (hpos : q.pushLog.length ≤ q.pushReadPos) :
    ReadHeader q = (⟨0, 0, []⟩, some Err.eof, q) := by
  unfold ReadHeader readHeader
  simp only [HEADERSZ, fileRead_eof q.pushLog q.pushReadPos 22 hpos (by norm_num)]

theorem popAll_frames (env : IOEnv) (hw : env.popWriteOk = true) (ps : List Bytes) (q : DQueue)
    (pre : Bytes)
    (hlog : q.pushLog = pre ++ framesOf ps) (hoff : q.pushReadOffset = (pre.length : Int))
    (hcap : ∀ p ∈ ps, p.length + 1 ≤ maxRW)
    (hsz : pre.length + (framesOf ps).length ≤ maxFileSize) :
    ∃ q', popAll env ps.length q = Run.ret (ps.map (fun p => (p, none)), q') := by
  induction ps generalizing q pre with
  | nil => exact ⟨q, rfl⟩
  | cons p ps ih =>
    have hpc := hcap p (List.mem_cons_self _ _)
    have hp := lt_of_le_maxRW _ hpc
    have hps : ∀ r ∈ ps, r.length + 1 ≤ maxRW := fun r hr => hcap r (List.mem_cons_of_mem _ hr)
    have hsl := storedBytes_length p hp
    have hpl : (p ++ [10]).length = p.length + 1 := by simp
    have hlog1 : q.pushLog = pre ++ (headerBytes ((p ++ [10]).length : Int) (sliceCRC (p ++ [10]))
        ++ ((p ++ [10]) ++ framesOf ps)) := by
      rw [hlog, hpl]
      simp only [framesOf, storedBytes, List.append_assoc]
    have hsz1 : pre.length + 22 + (p ++ [10]).length ≤ maxFileSize := by
      simp only [framesOf, List.length_append, hsl] at hsz
      rw [hpl]
      omega
    have hpop := pop_record_ok env q pre (p ++ [10]) (framesOf ps) hlog1 hoff
      (by rw [hpl]; exact hpc) (by simp) hsz1 hw
    have htake : List.take ((p ++ [10]).length - 1) (p ++ [10]) = p := by
      rw [hpl]
      exact List.take_left' (by omega)
    rw [htake] at hpop
    obtain ⟨q1, hpop1, hl1, ho1⟩ : ∃ q1, pop env q = Run.ret ⟨p, none, q1⟩
        ∧ q1.pushLog = q.pushLog
        ∧ q1.pushReadOffset = ((pre.length + 22 + (p ++ [10]).length : Nat) : Int) :=
      ⟨_, hpop, rfl, rfl⟩
    have hlog2 : q1.pushLog = (pre ++ storedBytes p) ++ framesOf ps := by
      rw [hl1, hlog]
      simp only [framesOf, List.append_assoc]
    have hoff2 : q1.pushReadOffset = ((pre ++ storedBytes p).length : Int) := by
      have hl3 : (pre ++ storedBytes p).length = pre.length + 22 + (p ++ [10]).length := by
        rw [List.length_append, hsl, hpl]
        omega
      rw [ho1, hl3]
    have hsz2 : (pre ++ storedBytes p).length + (framesOf ps).length ≤ maxFileSize := by
      simp only [framesOf, List.length_append, hsl] at hsz ⊢
      omega
    obtain ⟨q', hq'⟩ := ih q1 (pre ++ storedBytes p) hlog2 hoff2 hps hsz2
    refine ⟨q', ?_⟩
    simp only [List.length_cons, popAll, hpop1, hq', List.map_cons]

theorem popReadOnlyLoop_frames (env : IOEnv) (n : Nat) (qs : List Bytes) (fuel : Nat)
    (q : DQueue) (pre : Bytes) (data : List Bytes) (cnt : Nat)
    (hlog : q.pushLog = pre ++ framesOf qs) (hpos : q.pushReadPos = pre.length)
    (hcap : ∀ p ∈ qs, p.length + 1 ≤ maxRW) (hfuel : qs.length < fuel)
    (hcnt : cnt < n) (hwrap : cnt + qs.length < 2 ^ 64) :
    ∃ q', popReadOnlyLoop env n fuel q data cnt
        = Run.ret (data ++ qs.take (n - cnt), cnt + min (n - cnt) qs.length, q')
      ∧ q'.pushLog = q.pushLog ∧ q'.popLog = q.popLog
      ∧ q'.pushReadOffset = q.pushReadOffset ∧ q'.maxsize = q.maxsize := by
  induction qs generalizing fuel q pre data cnt with
  | nil =>
    obtain ⟨f, rfl⟩ : ∃ f, fuel = f + 1 := ⟨fuel - 1, by simp at hfuel; omega⟩
    have he := ReadHeader_eof q (by rw [hlog, hpos]; simp [framesOf])
    refine ⟨q, ?_, rfl, rfl, rfl, rfl⟩
    simp only [popReadOnlyLoop, he, List.take_nil, List.append_nil, List.length_nil,
      Nat.min_zero, Nat.add_zero]
  | cons p qs ih =>
    obtain ⟨f, rfl⟩ : ∃ f, fuel = f + 1 := ⟨fuel - 1, by simp at hfuel; omega⟩
    have hpc := hcap p (List.mem_cons_self _ _)
    have hp := lt_of_le_maxRW _ hpc
    have hps : ∀ r ∈ qs, r.length + 1 ≤ maxRW := fun r hr => hcap r (List.mem_cons_of_mem _ hr)
    have hpl : (p ++ [10]).length = p.length + 1 := by simp
    have hlog1 : q.pushLog = pre ++ (headerBytes ((p ++ [10]).length : Int)
        (sliceCRC (p ++ [10])) ++ ((p ++ [10]) ++ framesOf qs)) := by
      rw [hlog]
      simp only [framesOf]
      rw [storedBytes_shape]
    obtain ⟨hh, hpay⟩ := read_record_at q pre (p ++ [10]) (framesOf qs) (sliceCRC (p ++ [10]))
      hlog1 hpos (by rw [hpl]; exact hpc) (sliceCRC_lt _)
    have hle : ¬ (p ++ [10]).length = 0 := by rw [hpl]; omega
    have htake : List.take ((p ++ [10]).length - 1) (p ++ [10]) = p := by
      rw [hpl]
      exact List.take_left' (by omega)
    have hinc : incr64 cnt = cnt + 1 := by
      unfold incr64
      simp only [List.length_cons] at hwrap
      omega
    have hsl := storedBytes_length p hp
    by_cases hdone : n ≤ cnt + 1
    · refine ⟨{ q with pushReadPos := pre.length + 22 + (p ++ [10]).length }, ?_,
        rfl, rfl, rfl, rfl⟩
      have h1 : n - cnt = 1 := by omega
      simp only [popReadOnlyLoop, hh, hpay, ne_eq, not_true_eq_false, if_false, if_neg hle,
        htake, hinc, if_pos hdone, h1, List.take_succ_cons, List.take_zero, List.length_cons]
      have hmin : min 1 (qs.length + 1) = 1 := by omega
      rw [hmin]
    · obtain ⟨q', hq', h1, h2, h3, h4⟩ := ih f
        { q with pushReadPos := pre.length + 22 + (p ++ [10]).length }
        (pre ++ storedBytes p) (data ++ [p]) (cnt + 1)
        (by
          show q.pushLog = pre ++ storedBytes p ++ framesOf qs
          rw [hlog]
          simp only [framesOf, List.append_assoc])
        (by
          show pre.length + 22 + (p ++ [10]).length = (pre ++ storedBytes p).length
          simp only [List.length_append, hsl, List.length_singleton]
          omega)
        hps (by simp only [List.length_cons] at hfuel; omega) (by omega)
        (by simp only [List.length_cons] at hwrap; omega)
      refine ⟨q', ?_, h1, h2, h3, h4⟩
      have h5 : n - cnt = (n - (cnt + 1)) + 1 := by omega
      simp only [popReadOnlyLoop, hh, hpay, ne_eq, not_true_eq_false, if_false, if_neg hle,
        htake, hinc, if_neg hdone, hq', h5, List.take_succ_cons, List.length_cons,
        List.append_assoc, List.singleton_append]
      have hmin : min (n - (cnt + 1) + 1) (qs.length + 1) = min (n - (cnt + 1)) qs.length + 1 := by
        omega
      rw [hmin, Nat.add_assoc, Nat.add_comm 1]

theorem popReadOnlyTailLoop_frames (n : Nat) (qs : List Bytes) (fuel : Nat)
    (q : DQueue) (pre : Bytes) (data : List Bytes) (cnt : Nat)
    (hlog : q.pushLog = pre ++ framesOf qs) (hpos : q.pushReadPos = pre.length)
    (hcap : ∀ p ∈ qs, p.length + 1 ≤ maxRW) (hfuel : qs.length < fuel)
    (hn : 1 ≤ n) (hdata : data.length ≤ n) (hcnt : cnt = data.length) :
    ∃ q', popReadOnlyTailLoop n fuel q data cnt
        = Run.ret ((data ++ qs).drop ((data ++ qs).length - n), min n (data ++ qs).length, q')
      ∧ q'.pushLog = q.pushLog ∧ q'.popLog = q.popLog
      ∧ q'.pushReadOffset = q.pushReadOffset ∧ q'.maxsize = q.maxsize := by
  induction qs generalizing fuel q pre data cnt with
  | nil =>
    obtain ⟨f, rfl⟩ : ∃ f, fuel = f + 1 := ⟨fuel - 1, by simp at hfuel; omega⟩
    have he := ReadHeader_eof q (by rw [hlog, hpos]; simp [framesOf])
    refine ⟨q, ?_, rfl, rfl, rfl, rfl⟩
    have h0 : data.length - n = 0 := by omega
    have hmin : min n data.length = data.length := by omega
    simp only [popReadOnlyTailLoop, he, List.append_nil, h0, List.drop_zero, hmin, hcnt]
  | cons p qs ih =>
    obtain ⟨f, rfl⟩ : ∃ f, fuel = f + 1 := ⟨fuel - 1, by simp at hfuel; omega⟩
    have hpc := hcap p (List.mem_cons_self _ _)
    have hp := lt_of_le_maxRW _ hpc
    have hps : ∀ r ∈ qs, r.length + 1 ≤ maxRW := fun r hr => hcap r (List.mem_cons_of_mem _ hr)
    have hpl : (p ++ [10]).length = p.length + 1 := by simp
    have hlog1 : q.pushLog = pre ++ (headerBytes ((p ++ [10]).length : Int)
        (sliceCRC (p ++ [10])) ++ ((p ++ [10]) ++ framesOf qs)) := by
      rw [hlog]
      simp only [framesOf]
      rw [storedBytes_shape]
    obtain ⟨hh, hpay⟩ := read_record_at q pre (p ++ [10]) (framesOf qs) (sliceCRC (p ++ [10]))
      hlog1 hpos (by rw [hpl]; exact hpc) (sliceCRC_lt _)
    have hle : ¬ (p ++ [10]).length = 0 := by rw [hpl]; omega
    have htake : List.take ((p ++ [10]).length - 1) (p ++ [10]) = p := by
      rw [hpl]
      exact List.take_left' (by omega)
    have hsl := storedBytes_length p hp
    have hnp : ¬ (n ≤ data.length ∧ data.length < 1) := by omega
    obtain ⟨q', hq', h1, h2, h3, h4⟩ := ih f
      { q with pushReadPos := pre.length + 22 + (p ++ [10]).length }
      (pre ++ storedBytes p) ((if n ≤ data.length then data.drop 1 else data) ++ [p])
      ((if n ≤ data.length then data.drop 1 else data) ++ [p]).length
      (by
        show q.pushLog = pre ++ storedBytes p ++ framesOf qs
        rw [hlog]
        simp only [framesOf, List.append_assoc])
      (by
        show pre.length + 22 + (p ++ [10]).length = (pre ++ storedBytes p).length
        simp only [List.length_append, hsl, List.length_singleton]
        omega)
      hps (by simp only [List.length_cons] at hfuel; omega)
      (by
        split
        · simp only [List.length_append, List.length_drop, List.length_singleton]
          omega
        · simp only [List.length_append, List.length_singleton]
          omega)
      rfl
    refine ⟨q', ?_, h1, h2, h3, h4⟩
    simp only [popReadOnlyTailLoop, hh, hpay, ne_eq, not_true_eq_false, if_false, if_neg hnp,
      if_neg hle, htake, hq']
    by_cases hfull : n ≤ data.length
    · have hdn : data.length = n := by omega
      have hd1 : List.drop 1 data ++ [p] ++ qs = List.drop 1 (data ++ p :: qs) := by
        rw [List.drop_append_of_le_length (by omega)]
        simp only [List.append_assoc, List.singleton_append]
      simp only [if_pos hfull, hd1, List.drop_drop, List.length_drop, List.length_append,
        List.length_cons]
      have e1 : 1 + (data.length + (qs.length + 1) - 1 - n) = data.length + (qs.length + 1) - n := by
        omega
      have e2 : min n (data.length + (qs.length + 1) - 1) = min n (data.length + (qs.length + 1)) := by
        omega
      rw [e1, e2]
    · simp only [if_neg hfull, List.append_assoc, List.singleton_append]

/-! ## The offset and the pop file -/

theorem New_empty (m : Nat) : New [] [] [] m = Except.ok (freshOn m) := rfl

theorem push_keeps_cursor (env : IOEnv) (q : DQueue) (x : Bytes) :
    (push env q x).2.popLog = q.popLog
      ∧ (push env q x).2.pushReadOffset = q.pushReadOffset := by
  unfold push
  simp only
  split
  · exact ⟨rfl, rfl⟩
  · split <;> exact ⟨rfl, rfl⟩

theorem toUInt32_lt (v : Int) : toUInt32 v < 2 ^ 32 := by
  unfold toUInt32
  omega

theorem readHeader_crc_lt (content : Bytes) (pos : Nat) :
    (readHeader content pos).1.Crc < 2 ^ 32 := by
  unfold readHeader
  simp only
  split
  · norm_num
  · split
    · norm_num
    · dsimp only
      exact toUInt32_lt _

theorem readPayload_crc (content : Bytes) (pos : Nat) (r : Record)
    (x : Record × Option Err × Nat) (h : readPayload content pos r = Except.ok x) :
    x.1.Crc = r.Crc := by
  unfold readPayload at h
  split at h
  · cases h
  · simp only at h
    split at h
    · injection h with h
      rw [← h]
    · split at h
      · injection h with h
        rw [← h]
      · split at h <;>
        · injection h with h
          rw [← h]

theorem ReadPayload_ret (q : DQueue) (r : Record) (x : Record × Option Err × DQueue)
    (h : ReadPayload q r = Run.ret x) :
    x.1.Crc = r.Crc ∧ x.2.2.popLog = q.popLog ∧ x.2.2.pushReadOffset = q.pushReadOffset
      ∧ x.2.2.pushLog = q.pushLog ∧ x.2.2.maxsize = q.maxsize := by
  unfold ReadPayload at h
  split at h
  · cases h
  · rename_i y hy
    injection h with h
    rw [← h]
    exact ⟨readPayload_crc _ _ _ _ hy, rfl, rfl, rfl, rfl⟩

theorem pop_cursor (env : IOEnv) (hw : env.popWriteOk = true) (hrn : env.renamePopOk = true)
    (q : DQueue) (r : PopResult) (h : pop env q = Run.ret r) :
    (r.q.popLog = q.popLog ∧ r.q.pushReadOffset = q.pushReadOffset)
      ∨ (r.q.popLog = [] ∧ r.q.pushReadOffset = 0)
      ∨ ∃ crc, crc < 2 ^ 32 ∧ -2 ^ 63 ≤ r.q.pushReadOffset ∧ r.q.pushReadOffset < 2 ^ 63
          ∧ r.q.popLog = q.popLog ++ delRecordBytes r.q.pushReadOffset crc := by
  have hseek : (seekRead q q.pushReadOffset).popLog = q.popLog
      ∧ (seekRead q q.pushReadOffset).pushReadOffset = q.pushReadOffset
      ∧ (seekRead q q.pushReadOffset).pushLog = q.pushLog := by
    unfold seekRead
    split <;> exact ⟨rfl, rfl, rfl⟩
  have hcrc := readHeader_crc_lt (seekRead q q.pushReadOffset).pushLog
    (seekRead q q.pushReadOffset).pushReadPos
  unfold pop at h
  simp only [ReadHeader] at h
  generalize readHeader (seekRead q q.pushReadOffset).pushLog
    (seekRead q q.pushReadOffset).pushReadPos = hd at h hcrc
  obtain ⟨rec0, err0, pos0⟩ := hd
  simp only at h hcrc
  cases err0 with
  | some e =>
    simp only at h
    injection h with h
    subst h
    simp only
    split
    · right; left
      simp only [rotatePop, hrn, if_true]
      exact ⟨trivial, trivial⟩
    · left
      exact ⟨hseek.1, hseek.2.1⟩
  | none =>
    simp only [reduceCtorEq, false_and, if_false] at h
    generalize hrp : ReadPayload
      { pushLog := (seekRead q q.pushReadOffset).pushLog,
        popLog := (seekRead q q.pushReadOffset).popLog,
        bkp := (seekRead q q.pushReadOffset).bkp, pushReadPos := pos0,
        pushNro := (seekRead q q.pushReadOffset).pushNro,
        pushRecNro := (seekRead q q.pushReadOffset).pushRecNro,
        pushReadNro := (seekRead q q.pushReadOffset).pushReadNro,
        pushReadOffset := (seekRead q q.pushReadOffset).pushReadOffset,
        popNro := (seekRead q q.pushReadOffset).popNro,
        popRecNro := (seekRead q q.pushReadOffset).popRecNro,
        maxsize := (seekRead q q.pushReadOffset).maxsize,
        clearStarted := (seekRead q q.pushReadOffset).clearStarted,
        maxOffset := (seekRead q q.pushReadOffset).maxOffset } rec0 = rp at h
    cases rp with
    | outOfFuel => cases h
    | panic p qp => cases h
    | ret x =>
      obtain ⟨hc, hpl, hpo, _, _⟩ := ReadPayload_ret _ _ _ hrp
      obtain ⟨r1, e1, q2⟩ := x
      simp only at hc hpl hpo
      cases e1 with
      | some e =>
        simp only at h
        injection h with h
        subst h
        left
        exact ⟨hpl.trans hseek.1, hpo.trans hseek.2.1⟩
      | none =>
        simp only at h
        split at h
        · cases h
        · simp only [WriteDelRecord, fileAppend, hw, if_true] at h
          injection h with h
          subst h
          right; right
          refine ⟨r1.Crc, by rw [hc]; exact hcrc, (toInt64_range _).1, (toInt64_range _).2, ?_⟩
          simp only
          rw [hpl, hseek.1]

theorem cursorInv_of_reach (q : DQueue) (h : Reach q) : CursorInv q := by
  induction h with
  | fresh m => exact Or.inl ⟨rfl, rfl⟩
  | push env q x _ _ ih =>
    obtain ⟨hp, ho⟩ := push_keeps_cursor env q x
    unfold CursorInv at ih ⊢
    rw [hp, ho]
    exact ih
  | pop env q r hs _ hr ih =>
    rcases pop_cursor env hs.2.1 hs.2.2.1 q r hr with ⟨hp, ho⟩ | ⟨hp, ho⟩ | ⟨crc, hc, h0, h1, hp⟩
    · unfold CursorInv at ih ⊢
      rw [hp, ho]
      exact ih
    · exact Or.inl ⟨hp, ho⟩
    · exact Or.inr ⟨q.popLog, crc, hp, hc, h0, h1⟩
  | maxSize q m _ ih => exact ih

theorem ReadDelRecord_of_cursorInv (q : DQueue) (h : CursorInv q) :
    ReadDelRecord q = (q.pushReadOffset, none) := by
  rcases h with ⟨hp, ho⟩ | ⟨pre, crc, hp, hc, h0, h1⟩
  · unfold ReadDelRecord
    simp only [hp, ho, List.length_nil, if_true]
  · exact ReadDelRecord_append q pre q.pushReadOffset crc hp h0 h1 hc

/-! ## The read-only methods move only the read handle -/

theorem readHeader_none (content : Bytes) (pos : Nat)
    (h : (readHeader content pos).2.1 = none) :
    (readHeader content pos).2.2 = pos + 22 ∧ pos + 22 ≤ content.length := by
  have hcap : (22 : Nat) ≤ maxRW := by decide
  unfold readHeader fileRead at h ⊢
  simp only [HEADERSZ, if_pos hcap] at h ⊢
  have hl : (List.take 22 (List.drop pos content)).length = min 22 (content.length - pos) := by
    simp only [List.length_take, List.length_drop]
  by_cases h0 : (22 ≠ 0 ∧ (List.take 22 (List.drop pos content)).length = 0)
  · rw [if_pos h0] at h
    simp only [reduceCtorEq] at h
  · rw [if_neg h0] at h ⊢
    simp only at h ⊢
    by_cases h1 : toInt32 ((List.take 22 (List.drop pos content)).length : Int)
        ≠ ((22 : Nat) : Int)
    · rw [if_pos h1] at h
      simp only [reduceCtorEq] at h
    · rw [if_neg h1] at h ⊢
      have h2 : toInt32 ((List.take 22 (List.drop pos content)).length : Int)
          = ((List.take 22 (List.drop pos content)).length : Int) :=
        toInt32_of_range _ (by omega) (by omega)
      simp only [ne_eq, not_not] at h1
      rw [h2] at h1
      have h3 : (List.take 22 (List.drop pos content)).length = 22 := by exact_mod_cast h1
      simp only [h3, true_and]
      omega

theorem ReadHeader_none (q : DQueue) (h : (ReadHeader q).2.1 = none) :
    (ReadHeader q).2.2 = { q with pushReadPos := q.pushReadPos + 22 }
      ∧ q.pushReadPos + 22 ≤ q.pushLog.length := by
  have h1 := readHeader_none q.pushLog q.pushReadPos h
  constructor
  · show ({ q with pushReadPos := (readHeader q.pushLog q.pushReadPos).2.2 } : DQueue) = _
    rw [h1.1]
  · exact h1.2

theorem readPayload_pos (content : Bytes) (pos : Nat) (r : Record)
    (x : Record × Option Err × Nat) (h : readPayload content pos r = Except.ok x) :
    pos ≤ x.2.2 := by
  unfold readPayload at h
  split at h
  · cases h
  · simp only at h
    split at h
    · injection h with h
      rw [← h]
    · split at h
      · injection h with h
        rw [← h]
        exact Nat.le_add_right _ _
      · split at h <;>
        · injection h with h
          rw [← h]
          exact Nat.le_add_right _ _

theorem ReadPayload_state (q : DQueue) (r : Record) (x : Record × Option Err × DQueue)
    (h : ReadPayload q r = Run.ret x) :
    x.2.2 = { q with pushReadPos := x.2.2.pushReadPos } ∧ q.pushReadPos ≤ x.2.2.pushReadPos := by
  unfold ReadPayload at h
  split at h
  · cases h
  · rename_i y hy
    injection h with h
    rw [← h]
    exact ⟨rfl, readPayload_pos _ _ _ _ hy⟩

theorem ReadPayload_not_outOfFuel (q : DQueue) (r : Record) :
    ReadPayload q r ≠ Run.outOfFuel := by
  unfold ReadPayload
  split <;> simp

theorem popReadOnlyLoop_frame (env : IOEnv) (n fuel : Nat) (q : DQueue) (data : List Bytes)
    (cnt : Nat) (hf : q.pushLog.length - q.pushReadPos < fuel) :
    (∃ data1 cnt1 pos, popReadOnlyLoop env n fuel q data cnt
        = Run.ret (data1, cnt1, { q with pushReadPos := pos }))
      ∨ ∃ p qp, popReadOnlyLoop env n fuel q data cnt = Run.panic p qp := by
  induction fuel generalizing q data cnt with
  | zero => omega
  | succ f ih =>
    unfold popReadOnlyLoop
    simp only
    split
    · exact Or.inl ⟨_, _, _, rfl⟩
    · rename_i hnone
      obtain ⟨hst, hle⟩ := ReadHeader_none q hnone
      split
      · rename_i hfuel
        exact absurd hfuel (ReadPayload_not_outOfFuel _ _)
      · exact Or.inr ⟨_, _, rfl⟩
      · rename_i r e q2 hrp
        obtain ⟨hq2, _⟩ := ReadPayload_state _ _ _ hrp
        simp only [hst] at hq2
        left
        rw [hq2]
        exact ⟨_, _, _, rfl⟩
      · rename_i r q2 hrp
        obtain ⟨hq2, hpos⟩ := ReadPayload_state _ _ _ hrp
        simp only [hst] at hq2 hpos
        split
        · exact Or.inr ⟨_, _, rfl⟩
        · split
          · left
            rw [hq2]
            exact ⟨_, _, _, rfl⟩
          · have hf2 : q2.pushLog.length - q2.pushReadPos < f := by
              rw [hq2]
              simp only
              omega
            rcases ih q2 _ _ hf2 with ⟨d1, c1, pos, h1⟩ | ⟨p, qp, h1⟩
            · left
              refine ⟨d1, c1, pos, ?_⟩
              rw [h1, hq2]
            · exact Or.inr ⟨p, qp, h1⟩

theorem popReadOnlyTailLoop_frame (n fuel : Nat) (q : DQueue) (data : List Bytes)
    (cnt : Nat) (hf : q.pushLog.length - q.pushReadPos < fuel) :
    (∃ data1 cnt1 pos, popReadOnlyTailLoop n fuel q data cnt
        = Run.ret (data1, cnt1, { q with pushReadPos := pos }))
      ∨ ∃ p qp, popReadOnlyTailLoop n fuel q data cnt = Run.panic p qp := by
  induction fuel generalizing q data cnt with
  | zero => omega
  | succ f ih =>
    unfold popReadOnlyTailLoop
    simp only
    split
    · exact Or.inl ⟨_, _, _, rfl⟩
    · rename_i hnone
      obtain ⟨hst, hle⟩ := ReadHeader_none q hnone
      split
      · rename_i hfuel
        exact absurd hfuel (ReadPayload_not_outOfFuel _ _)
      · exact Or.inr ⟨_, _, rfl⟩
      · rename_i r e q2 hrp
        obtain ⟨hq2, _⟩ := ReadPayload_state _ _ _ hrp
        simp only [hst] at hq2
        left
        rw [hq2]
        exact ⟨_, _, _, rfl⟩
      · rename_i r q2 hrp
        obtain ⟨hq2, hpos⟩ := ReadPayload_state _ _ _ hrp
        simp only [hst] at hq2 hpos
        split
        · exact Or.inr ⟨_, _, rfl⟩
        · split
          · exact Or.inr ⟨_, _, rfl⟩
          · have hf2 : q2.pushLog.length - q2.pushReadPos < f := by
              rw [hq2]
              simp only
              omega
            rcases ih q2 _ _ hf2 with ⟨d1, c1, pos, h1⟩ | ⟨p, qp, h1⟩
            · left
              refine ⟨d1, c1, pos, ?_⟩
              rw [h1, hq2]
            · exact Or.inr ⟨p, qp, h1⟩

theorem seekRead_state (q : DQueue) (off : Int) :
    ∃ pos, seekRead q off = { q with pushReadPos := pos } := by
  unfold seekRead
  split
  · exact ⟨_, rfl⟩
  · exact ⟨q.pushReadPos, rfl⟩

theorem pop_congr_seek (env : IOEnv) (q1 q2 : DQueue)
    (h : seekRead q1 q1.pushReadOffset = seekRead q2 q2.pushReadOffset) :
    pop env q1 = pop env q2 := by
  unfold pop
  rw [h]

theorem pop_ignores_pos (env : IOEnv) (q : DQueue) (pos : Nat)
    (h : seekAccepts q q.pushReadOffset) :
    pop env { q with pushReadPos := pos } = pop env q := by
  have h1 : seekAccepts { q with pushReadPos := pos } q.pushReadOffset := h
  apply pop_congr_seek
  unfold seekRead
  rw [if_pos h, if_pos h1]

theorem PopReadOnly_state (env : IOEnv) (q : DQueue) (n : Nat) :
    (∃ data cnt pos, PopReadOnly env q n
        = Run.ret (data, cnt, popReadOnlyDefer env n { q with pushReadPos := pos } data))
      ∨ ∃ p qp, PopReadOnly env q n = Run.panic p qp := by
  obtain ⟨pos0, hseek⟩ := seekRead_state q q.pushReadOffset
  have hf : (seekRead q q.pushReadOffset).pushLog.length
      - (seekRead q q.pushReadOffset).pushReadPos < q.pushLog.length + 1 := by
    rw [hseek]
    simp only
    omega
  unfold PopReadOnly
  simp only
  rcases popReadOnlyLoop_frame env n _ _ [] 0 hf with ⟨d1, c1, pos, h1⟩ | ⟨p, qp, h1⟩
  · left
    rw [h1]
    refine ⟨d1, c1, pos, ?_⟩
    simp only [hseek]
  · right
    rw [h1]
    exact ⟨p, qp, rfl⟩

theorem PopReadOnlyTail_state (q : DQueue) (n : Nat) :
    (∃ data cnt pos, PopReadOnlyTail q n = Run.ret (data, cnt, { q with pushReadPos := pos }))
      ∨ ∃ p qp, PopReadOnlyTail q n = Run.panic p qp := by
  obtain ⟨pos0, hseek⟩ := seekRead_state q q.pushReadOffset
  have hf : (seekRead q q.pushReadOffset).pushLog.length
      - (seekRead q q.pushReadOffset).pushReadPos < q.pushLog.length + 1 := by
    rw [hseek]
    simp only
    omega
  unfold PopReadOnlyTail
  simp only
  rcases popReadOnlyTailLoop_frame n _ _ [] 0 hf with ⟨d1, c1, pos, h1⟩ | ⟨p, qp, h1⟩
  · left
    rw [h1]
    refine ⟨d1, c1, pos, ?_⟩
    simp only [hseek]
  · right
    rw [h1]
    exact ⟨p, qp, rfl⟩

/-! ## Header fields that are not numbers -/

theorem atoiLoop_not_allDigits (s : Bytes) (n : Nat) (h : ¬ allDigits s) :
    atoiLoop s n = none := by
  induction s generalizing n with
  | nil => exact absurd (fun c hc => absurd hc (List.not_mem_nil c)) h
  | cons c cs ih =>
    by_cases hc : isDigit c = true
    · have hcs : ¬ allDigits cs := by
        intro hall
        apply h
        intro d hd
        rcases List.mem_cons.mp hd with rfl | hd
        · exact hc
        · exact hall d hd
      simp only [atoiLoop, hc, if_true]
      exact ih _ hcs
    · simp only [atoiLoop, hc]
      rfl

theorem parseUintLoop_not_allDigits (s : Bytes) (n k : Nat) (h : ¬ allDigits s)
    (hn : n < 10 ^ k) (hk : s.length + k ≤ 19) :
    parseUintLoop (2 ^ 64 - 1) s n = (0, some NumError.invalid) := by
  induction s generalizing n k with
  | nil => exact absurd (fun c hc => absurd hc (List.not_mem_nil c)) h
  | cons c cs ih =>
    by_cases hc : isDigit c = true
    · have hcs : ¬ allDigits cs := by
        intro hall
        apply h
        intro d hd
        rcases List.mem_cons.mp hd with rfl | hd
        · exact hc
        · exact hall d hd
      simp only [List.length_cons] at hk
      have hk18 : k ≤ 18 := by omega
      have hpow : 10 ^ k ≤ 10 ^ 18 := Nat.pow_le_pow_right (by norm_num) hk18
      have hp18 : (10 : Nat) ^ 18 = 1000000000000000000 := by norm_num
      have hd9 : c.toNat - 48 ≤ 9 := by
        simp only [isDigit, Bool.and_eq_true, decide_eq_true_eq] at hc
        omega
      have h1 : ¬ cutoff10 ≤ n := by
        unfold cutoff10
        omega
      have h2 : ¬ (18446744073709551616 ≤ n * 10 + (c.toNat - 48)
          ∨ 2 ^ 64 - 1 < n * 10 + (c.toNat - 48)) := by
        omega
      have hn1 : n * 10 + (c.toNat - 48) < 10 ^ (k + 1) := by
        rw [Nat.pow_succ]
        omega
      simp only [parseUintLoop, hc, if_true, h1, h2, if_false]
      exact ih _ (k + 1) hcs hn1 (by omega)
    · simp only [parseUintLoop, hc]
      rfl

theorem ParseUint_not_allDigits (s : Bytes) (h : ¬ allDigits s) (hl : s.length ≤ 19) :
    ParseUint s 64 = (0, some NumError.invalid) := by
  unfold ParseUint
  split
  · rfl
  · exact parseUintLoop_not_allDigits s 0 0 h (by norm_num) (by omega)

theorem Atoi_not_allDigits (s : Bytes) (h : ¬ allDigits (dropSign s)) (hl : s.length < 19) :
    Atoi s = (0, some NumError.invalid) := by
  cases s with
  | nil => exact absurd (fun c hc => absurd hc (List.not_mem_nil c)) h
  | cons c cs =>
    simp only [dropSign] at h
    simp only [Atoi, hl, if_true]
    rw [atoiLoop_not_allDigits _ 0 h]
    simp only [ite_self]

theorem readHeader_any (pre hdr rest : Bytes) (h : hdr.length = 22) :
    readHeader (pre ++ (hdr ++ rest)) pre.length
      = (⟨toInt32 (Atoi (hdr.take 10)).1, toUInt32 (ParseUint ((hdr.drop 11).take 10) 64).1, []⟩,
          none, pre.length + 22) := by
  have hread := fileRead_at pre hdr rest 22 h (by decide)
  have h22 : ¬ toInt32 ((22 : Nat) : Int) ≠ ((22 : Nat) : Int) := by decide
  simp only [readHeader, HEADERSZ]
  rw [hread]
  simp only [List.drop_zero, h]
  rw [if_neg h22]

/-! ## `pop` at the end of the file and on a stored record -/

theorem pop_eof (env : IOEnv) (q : DQueue) (hoff : q.pushReadOffset = (q.pushLog.length : Int)) :
    pop env q = Run.ret ⟨[], some Err.eof,
      if q.maxsize < toUInt64 q.pushReadOffset
      then rotatePop env { q with pushReadPos := q.pushLog.length }
      else { q with pushReadPos := q.pushLog.length }⟩ := by
  rcases q with ⟨pl, ppl, bk, rp, n1, n2, n3, off, n4, n5, mx, cs, mo⟩
  simp only at hoff
  subst hoff
  unfold pop
  rw [seekRead_nonneg _ _ (Or.inr (Nat.le_refl _))]
  simp only [ReadHeader, readHeader, HEADERSZ,
    fileRead_eof pl pl.length 22 (Nat.le_refl _) (by norm_num)]
  split <;> rename_i hc
  · rw [if_pos hc.2]
  · rw [if_neg (fun hh => hc ⟨trivial, hh⟩)]

theorem pop_stored (env : IOEnv) (q : DQueue) (pre p rest : Bytes)
    (hlog : q.pushLog = pre ++ (storedBytes p ++ rest))
    (hoff : q.pushReadOffset = (pre.length : Int))
    (hp : p.length + 1 ≤ maxRW) (hsz : pre.length + (22 + p.length + 1) ≤ maxFileSize)
    (hw : env.popWriteOk = true) :
    pop env q = Run.ret ⟨p, none,
      { q with
        pushReadPos := pre.length + (22 + p.length + 1)
        pushReadOffset := ((pre.length + (22 + p.length + 1) : Nat) : Int)
        popLog := q.popLog ++ delRecordBytes ((pre.length + (22 + p.length + 1) : Nat) : Int)
          (sliceCRC (p ++ [10]))
        popRecNro := incr64 q.popRecNro }⟩ := by
  have hpl : (p ++ [10]).length = p.length + 1 := by simp
  have hlog1 : q.pushLog = pre ++ (headerBytes ((p ++ [10]).length : Int) (sliceCRC (p ++ [10]))
      ++ ((p ++ [10]) ++ rest)) := by
    rw [hlog, hpl]
    simp only [storedBytes, List.append_assoc]
  have hsz1 : pre.length + 22 + (p ++ [10]).length ≤ maxFileSize := by
    rw [hpl]
    omega
  have hpop := pop_record_ok env q pre (p ++ [10]) rest hlog1 hoff
    (by rw [hpl]; exact hp) (by simp) hsz1 hw
  have htake : List.take ((p ++ [10]).length - 1) (p ++ [10]) = p := by
    rw [hpl]
    exact List.take_left' (by omega)
  have hsum : pre.length + 22 + (p ++ [10]).length = pre.length + (22 + p.length + 1) := by
    rw [hpl]
    omega
  rw [htake, hsum] at hpop
  exact hpop

/-! ## A payload longer than one `Read` returns -/

theorem readPayload_short (pre payload rest : Bytes) (len : Int) (crc : Nat)
    (hlen : (payload.length : Int) = len) (hcap : maxRW < payload.length)
    (h31 : payload.length < 2 ^ 31) :
    readPayload (pre ++ (payload ++ rest)) pre.length ⟨len, crc, []⟩
      = Except.ok (⟨len, crc, []⟩, some Err.invalidDataSize, pre.length + maxRW) := by
  have h0 : ¬ len < 0 := by omega
  have hn : payload.length = len.toNat := by omega
  have hread := fileRead_short pre payload rest len.toNat hn (by omega)
  have htl : (payload.take maxRW).length = maxRW := by
    rw [List.length_take]
    omega
  have hm : toInt32 ((maxRW : Nat) : Int) = ((maxRW : Nat) : Int) :=
    toInt32_of_range _ (by omega) (by unfold maxRW; norm_num)
  have hsz : toInt32 ((maxRW : Nat) : Int) ≠ len := by
    rw [hm]
    omega
  simp only [readPayload, if_neg h0, hread, htl, if_pos hsz]

theorem pop_short_read (env : IOEnv) (q : DQueue) (pre payload rest : Bytes) (crc : Nat)
    (hlog : q.pushLog = pre ++ (headerBytes payload.length crc ++ (payload ++ rest)))
    (hoff : q.pushReadOffset = pre.length)
    (hcap : maxRW < payload.length) (h31 : payload.length < 2 ^ 31) (hc : crc < 2 ^ 32) :
    pop env q = Run.ret ⟨[], some Err.invalidDataSize,
      { q with pushReadPos := pre.length + 22 + maxRW }⟩ := by
  have hl : (headerBytes (payload.length : Int) crc).length = 22 :=
    headerBytes_length _ crc (by omega) (by omega) (by omega)
  rcases q with ⟨pl, ppl, bk, rp, n1, n2, n3, off, n4, n5, mx, cs, mo⟩
  simp only at hlog hoff
  subst hlog
  subst hoff
  have hh := ReadHeader_at
    { pushLog := pre ++ (headerBytes (payload.length : Int) crc ++ (payload ++ rest)),
      popLog := ppl, bkp := bk, pushReadPos := pre.length, pushNro := n1,
      pushRecNro := n2, pushReadNro := n3, pushReadOffset := (pre.length : Int),
      popNro := n4, popRecNro := n5, maxsize := mx, clearStarted := cs, maxOffset := mo }
    pre (payload ++ rest) (payload.length : Int) crc rfl rfl (by omega)
    (by exact_mod_cast h31) hc
  have hp := readPayload_short (pre ++ headerBytes (payload.length : Int) crc) payload rest
    (payload.length : Int) crc rfl hcap h31
  simp only [List.length_append, hl, List.append_assoc] at hp
  unfold pop
  rw [seekRead_nonneg _ _ (Or.inr (by simp only [List.length_append]; omega))]
  simp only [hh]
  rw [if_neg (by simp)]
  simp only [ReadPayload, hp]

theorem pop_short_read_start (env : IOEnv) (q : DQueue) (payload : Bytes) (crc : Nat)
    (hlog : q.pushLog = headerBytes payload.length crc ++ payload)
    (hoff : q.pushReadOffset = 0)
    (hcap : maxRW < payload.length) (h31 : payload.length < 2 ^ 31) (hc : crc < 2 ^ 32) :
    pop env q = Run.ret ⟨[], some Err.invalidDataSize,
      { q with pushReadPos := 22 + maxRW }⟩ := by
  have hpop := pop_short_read env q [] payload [] crc
    (by rw [hlog]; simp only [List.nil_append, List.append_nil])
    (by rw [hoff]; rfl) hcap h31 hc
  simp only [List.length_nil, Nat.zero_add] at hpop
  exact hpop

theorem pop_stored_short (env : IOEnv) (q : DQueue) (pre p rest : Bytes)
    (hlog : q.pushLog = pre ++ (storedBytes p ++ rest))
    (hoff : q.pushReadOffset = (pre.length : Int))
    (hcap : maxRW < p.length + 1) (h31 : p.length + 1 < 2 ^ 31) :
    pop env q = Run.ret ⟨[], some Err.invalidDataSize,
      { q with pushReadPos := pre.length + 22 + maxRW }⟩ := by
  have hpl : (p ++ [10]).length = p.length + 1 := by simp
  have hlog1 : q.pushLog = pre ++ (headerBytes ((p ++ [10]).length : Int) (sliceCRC (p ++ [10]))
      ++ ((p ++ [10]) ++ rest)) := by
    rw [hlog, hpl]
    simp only [storedBytes, List.append_assoc]
  exact pop_short_read env q pre (p ++ [10]) rest (sliceCRC (p ++ [10])) hlog1 hoff
    (by rw [hpl]; exact hcap) (by rw [hpl]; exact h31) (sliceCRC_lt _)

/-! ## A negative length field -/

theorem pop_negative_len (env : IOEnv) (q : DQueue) (pre hdr rest : Bytes)
    (hlog : q.pushLog = pre ++ (hdr ++ rest)) (hoff : q.pushReadOffset = (pre.length : Int))
    (h : hdr.length = 22) (hneg : toInt32 (Atoi (hdr.take 10)).1 < 0) :
    pop env q = Run.panic GoPanic.makeNegativeLen { q with pushReadPos := pre.length + 22 } := by
  rcases q with ⟨pl, ppl, bk, rp, n1, n2, n3, off, n4, n5, mx, cs, mo⟩
  simp only at hlog hoff
  subst hlog
  subst hoff
  unfold pop
  rw [seekRead_nonneg _ _ (Or.inr (by simp))]
  simp only [ReadHeader, readHeader_any pre hdr rest h]
  rw [if_neg (by simp)]
  simp only [ReadPayload, readPayload, if_pos hneg]

theorem pop_wrapped_panics (q : DQueue) (x : Bytes) (hlen : x.length + 1 = 2147483648)
    (hq : q.pushLog = []) (ho : q.pushReadOffset = 0) :
    ∃ qp, pop IOEnv.allOk (push IOEnv.allOk q x).2 = Run.panic GoPanic.makeNegativeLen qp := by
  have hcrc := sliceCRC_lt (x ++ [10])
  have hl10 : (fmtD 10 (sliceCRC (x ++ [10]) : Int)).length = 10 :=
    fmtD10_length _ (by omega) (by omega)
  have hf : fmtD 10 (-2147483648) = [45, 50, 49, 52, 55, 52, 56, 51, 54, 52, 56] := by decide
  have hlog : (push IOEnv.allOk q x).2.pushLog
      = [] ++ (([45, 50, 49, 52, 55, 52, 56, 51, 54, 52, 56, 32]
          ++ fmtD 10 (sliceCRC (x ++ [10]) : Int)) ++ ([32] ++ (x ++ [10]))) := by
    rw [push_wrapped_length q x hlen]
    simp only [hq, hf, List.nil_append, List.append_assoc, List.cons_append]
  have hoff : (push IOEnv.allOk q x).2.pushReadOffset = (([] : Bytes).length : Int) := by
    rw [push_wrapped_length q x hlen]
    exact ho
  have h22 : ([45, 50, 49, 52, 55, 52, 56, 51, 54, 52, 56, 32]
      ++ fmtD 10 (sliceCRC (x ++ [10]) : Int)).length = 22 := by
    rw [List.length_append, hl10]
    rfl
  have hneg : toInt32 (Atoi (([45, 50, 49, 52, 55, 52, 56, 51, 54, 52, 56, 32]
      ++ fmtD 10 (sliceCRC (x ++ [10]) : Int)).take 10)).1 < 0 := by
    have : ([45, 50, 49, 52, 55, 52, 56, 51, 54, 52, 56, 32]
        ++ fmtD 10 (sliceCRC (x ++ [10]) : Int)).take 10
        = [45, 50, 49, 52, 55, 52, 56, 51, 54, 52] := rfl
    rw [this]
    decide
  exact ⟨_, pop_negative_len IOEnv.allOk _ [] _ _ hlog hoff h22 hneg⟩

/-! ## The offset stays on a record boundary -/

theorem framesOf_append (a b : List Bytes) : framesOf (a ++ b) = framesOf a ++ framesOf b := by
  induction a with
  | nil => rfl
  | cons p ps ih =>
    show storedBytes p ++ framesOf (ps ++ b) = (storedBytes p ++ framesOf ps) ++ framesOf b
    rw [ih, List.append_assoc]

theorem boundaryInv_frame (q q1 : DQueue) (h : BoundaryInv q) (hl : q1.pushLog = q.pushLog)
    (ho : q1.pushReadOffset = q.pushReadOffset) : BoundaryInv q1 := by
  obtain ⟨c, p, hb, hlog, hoff, hsz⟩ := h
  exact ⟨c, p, hb, by rw [hl, hlog], by rw [ho, hoff], by rw [hl]; exact hsz⟩

theorem boundaryInv_empty (q : DQueue) (hl : q.pushLog = []) (ho : q.pushReadOffset = 0) :
    BoundaryInv q := by
  refine ⟨[], [], ?_, ?_, ?_, ?_⟩
  · intro p hp
    cases hp
  · rw [hl]
    rfl
  · rw [ho]
    rfl
  · rw [hl]
    exact Nat.zero_le _

theorem boundaryInv_rotatePop (env : IOEnv) (hr : env.renamePushOk = true) (q : DQueue) :
    BoundaryInv (rotatePop env q) :=
  boundaryInv_empty _ (by simp only [rotatePop, hr, if_true]) rfl

theorem boundaryInv_push (env : IOEnv) (hw : env.pushWriteOk = true) (q : DQueue) (x : Bytes)
    (h : BoundaryInv q) (hx : x.length + 1 < 2 ^ 31)
    (hsz : q.pushLog.length + (22 + x.length + 1) ≤ maxFileSize) :
    BoundaryInv (push env q x).2 := by
  obtain ⟨c, p, hb, hlog, hoff, _⟩ := h
  have hpush := push_frame env q x hx hw
  have hl : (push env q x).2.pushLog = q.pushLog ++ storedBytes x := by
    rw [hpush]
    rfl
  have ho : (push env q x).2.pushReadOffset = q.pushReadOffset := by
    rw [hpush]
  refine ⟨c, p ++ [x], ?_, ?_, ?_, ?_⟩
  · intro y hy
    rw [← List.append_assoc] at hy
    rcases List.mem_append.mp hy with hy | hy
    · exact hb y hy
    · rw [List.mem_singleton] at hy
      rw [hy]
      exact hx
  · rw [hl, hlog, framesOf_append]
    simp only [framesOf, List.append_assoc, List.append_nil]
  · rw [ho, hoff]
  · rw [hl, List.length_append, storedBytes_length x hx]
    omega

theorem boundaryInv_pop (env : IOEnv) (hw : env.popWriteOk = true)
    (hr : env.renamePushOk = true) (q : DQueue) (r : PopResult) (h : BoundaryInv q)
    (hp : pop env q = Run.ret r) : BoundaryInv r.q := by
  obtain ⟨c, p, hb, hlog, hoff, hsz⟩ := h
  cases p with
  | nil =>
    have hoff1 : q.pushReadOffset = (q.pushLog.length : Int) := by
      rw [hoff, hlog]
      simp only [framesOf, List.append_nil]
    rw [pop_eof env q hoff1] at hp
    injection hp with hp
    rw [← hp]
    simp only
    split
    · exact boundaryInv_rotatePop env hr _
    · exact boundaryInv_frame q _ ⟨c, [], hb, hlog, hoff, hsz⟩ rfl rfl
  | cons y rest =>
    have hy : y.length + 1 < 2 ^ 31 := hb y (by simp)
    have hsl := storedBytes_length y hy
    have hlog1 : q.pushLog = framesOf c ++ (storedBytes y ++ framesOf rest) := by
      rw [hlog]
      rfl
    have hsz1 : (framesOf c).length + (22 + y.length + 1) ≤ maxFileSize := by
      rw [hlog1] at hsz
      simp only [List.length_append, hsl] at hsz
      omega
    by_cases hcap : y.length + 1 ≤ maxRW
    · rw [pop_stored env q (framesOf c) y (framesOf rest) hlog1 hoff hcap hsz1 hw] at hp
      injection hp with hp
      rw [← hp]
      refine ⟨c ++ [y], rest, ?_, ?_, ?_, hsz⟩
      · intro z hz
        apply hb z
        simp only [List.append_assoc, List.singleton_append] at hz
        exact hz
      · show q.pushLog = _
        rw [hlog1, framesOf_append]
        simp only [framesOf, List.append_assoc, List.append_nil]
      · show ((((framesOf c).length + (22 + y.length + 1) : Nat)) : Int) = _
        rw [framesOf_append]
        simp only [framesOf, List.length_append, List.append_nil, hsl]
    · rw [pop_stored_short env q (framesOf c) y (framesOf rest) hlog1 hoff (by omega) hy] at hp
      injection hp with hp
      rw [← hp]
      exact boundaryInv_frame q _ ⟨c, y :: rest, hb, hlog, hoff, hsz⟩ rfl rfl

theorem boundaryInv_head (env : IOEnv) (hr : env.renamePushOk = true) (q : DQueue) (n : Nat)
    (data : List Bytes) (cnt : Nat) (q1 : DQueue)
    (h : BoundaryInv q) (hp : PopReadOnly env q n = Run.ret (data, cnt, q1)) :
    BoundaryInv q1 := by
  rcases PopReadOnly_state env q n with ⟨d, c, pos, hs⟩ | ⟨p, qp, hs⟩
  · rw [hs] at hp
    injection hp with hp
    injection hp with _ hp
    injection hp with _ hq
    rw [← hq]
    unfold popReadOnlyDefer
    split
    · exact boundaryInv_rotatePop env hr _
    · exact boundaryInv_frame q _ h rfl rfl
  · rw [hs] at hp
    cases hp

theorem boundaryInv_tail (q : DQueue) (n : Nat) (data : List Bytes) (cnt : Nat) (q1 : DQueue)
    (h : BoundaryInv q) (hp : PopReadOnlyTail q n = Run.ret (data, cnt, q1)) :
    BoundaryInv q1 := by
  rcases PopReadOnlyTail_state q n with ⟨d, c, pos, hs⟩ | ⟨p, qp, hs⟩
  · rw [hs] at hp
    injection hp with hp
    injection hp with _ hp
    injection hp with _ hq
    rw [← hq]
    exact boundaryInv_frame q _ h rfl rfl
  · rw [hs] at hp
    cases hp

theorem boundaryInv_of_reachOps (q : DQueue) (h : ReachOps q) : BoundaryInv q := by
  induction h with
  | fresh m => exact boundaryInv_empty _ rfl rfl
  | push env q x hs _ hx hsz ih => exact boundaryInv_push env hs.1 q x ih hx hsz
  | pop env q r hs _ hp ih => exact boundaryInv_pop env hs.2.1 hs.2.2.2 q r ih hp
  | head env q n data cnt q1 hs _ hp ih =>
    exact boundaryInv_head env hs.2.2.2 q n data cnt q1 ih hp
  | tail q n data cnt q1 _ hp ih => exact boundaryInv_tail q n data cnt q1 ih hp
  | maxSize q m _ ih => exact boundaryInv_frame q _ ih rfl rfl

theorem push_wrapped_prefix (x : Bytes) (hl : x.length + 1 = 2147483648) :
    (push IOEnv.allOk fresh x).2.pushLog.take 11
      = [45, 50, 49, 52, 55, 52, 56, 51, 54, 52, 56] := by
  have hw := push_wrapped_length fresh x hl
  have hf : fmtD 10 (-2147483648) = [45, 50, 49, 52, 55, 52, 56, 51, 54, 52, 56] := by decide
  rw [hw]
  simp only [hf, List.append_assoc, List.cons_append, List.nil_append]
  rfl

theorem bigEndian64_ofNat (n : Nat) (h : n < 2 ^ 63) :
    bigEndian64 (n : Int)
      = [UInt8.ofNat (n / 2 ^ 56 % 256), UInt8.ofNat (n / 2 ^ 48 % 256),
         UInt8.ofNat (n / 2 ^ 40 % 256), UInt8.ofNat (n / 2 ^ 32 % 256),
         UInt8.ofNat (n / 2 ^ 24 % 256), UInt8.ofNat (n / 2 ^ 16 % 256),
         UInt8.ofNat (n / 2 ^ 8 % 256), UInt8.ofNat (n % 256)] := by
  have hu : toUInt64 (n : Int) = n := by
    rw [toUInt64_of_nonneg _ (by omega) (by omega)]
    simp
  unfold bigEndian64
  simp only [hu]

theorem largePayload_length : largePayload.length = 2147483646 := by
  unfold largePayload
  exact List.length_replicate _ _

theorem gibPayload_length : gibPayload.length = 1073741824 := by
  unfold gibPayload
  exact List.length_replicate _ _

theorem pop_after_push_short (env : IOEnv) (hw : env.pushWriteOk = true) (q : DQueue)
    (x : Bytes) (hq : q.pushLog = []) (ho : q.pushReadOffset = 0)
    (hcap : maxRW < x.length + 1) (h31 : x.length + 1 < 2 ^ 31) :
    (push env q x).1 = none
      ∧ (push env q x).2.pushLog = storedBytes x
      ∧ (push env q x).2.pushReadOffset = 0
      ∧ (push env q x).2.popLog = q.popLog
      ∧ pop env (push env q x).2 = Run.ret ⟨[], some Err.invalidDataSize,
          { (push env q x).2 with pushReadPos := 22 + maxRW }⟩ := by
  have hpush := push_frame env q x h31 hw
  have hl : (push env q x).2.pushLog = [] ++ (storedBytes x ++ []) := by
    rw [hpush]
    simp only [hq, List.nil_append, List.append_nil]
    rfl
  have hoff : (push env q x).2.pushReadOffset = (([] : Bytes).length : Int) := by
    rw [hpush]
    exact ho
  have hpop := pop_stored_short env (push env q x).2 [] x [] hl hoff hcap h31
  simp only [List.length_nil, Nat.zero_add] at hpop
  refine ⟨by rw [hpush], ?_, ?_, by rw [hpush], hpop⟩
  · rw [hl]
    simp only [List.nil_append, List.append_nil]
  · rw [hoff]
    rfl

theorem pop_after_push_stuck (x : Bytes) (hcap : maxRW < x.length + 1)
    (h31 : x.length + 1 < 2 ^ 31) :
    (push IOEnv.allOk fresh x).2.pushLog
        = headerBytes ((x.length + 1 : Nat) : Int) (ChecksumIEEE (x ++ [10])) ++ (x ++ [10])
      ∧ (push IOEnv.allOk fresh x).2.pushReadOffset = 0
      ∧ ∃ q1, pop IOEnv.allOk (push IOEnv.allOk fresh x).2
            = Run.ret ⟨[], some Err.invalidDataSize, q1⟩
          ∧ q1.pushReadOffset = 0 ∧ q1.popLog = [] := by
  have h := pop_after_push_short IOEnv.allOk rfl fresh x rfl rfl hcap h31
  refine ⟨h.2.1, h.2.2.1, _, h.2.2.2.2, h.2.2.1, ?_⟩
  show (push IOEnv.allOk fresh x).2.popLog = []
  rw [h.2.2.2.1]
  rfl

/-! # The claims -/

/-- **C1** (counterexample to the claim as stated) A payload of `2^31 - 2`
bytes is not empty and has `len + 1 < 2^31`; `push` on the fresh queue accepts
it, but the `pop` that follows does not return it: `readPayload` calls `Read`
once, the call returns `2^30` bytes of the `2^31 - 1` asked for, and `pop`
returns the error "Invalid Data size" with no payload. The same happens from
`2^30` payload bytes on, one stored byte more than one `Read` returns. -/
theorem fifo_roundtrip_counterexample :
    largePayload ≠ []
      ∧ largePayload.length + 1 < 2 ^ 31
      ∧ (push IOEnv.allOk fresh largePayload).1 = none
      ∧ (∃ q1, pop IOEnv.allOk (push IOEnv.allOk fresh largePayload).2
          = Run.ret ⟨[], some Err.invalidDataSize, q1⟩)
      ∧ gibPayload.length + 1 = maxRW + 1
      ∧ (push IOEnv.allOk fresh gibPayload).1 = none
      ∧ ∃ q1, pop IOEnv.allOk (push IOEnv.allOk fresh gibPayload).2
          = Run.ret ⟨[], some Err.invalidDataSize, q1⟩ := by
  have hlen := largePayload_length
  have hgib := gibPayload_length
  have h := pop_after_push_short IOEnv.allOk rfl fresh largePayload rfl rfl
    (by rw [hlen]; unfold maxRW; norm_num) (by rw [hlen]; norm_num)
  have hg := pop_after_push_short IOEnv.allOk rfl fresh gibPayload rfl rfl
    (by rw [hgib]; unfold maxRW; norm_num) (by rw [hgib]; norm_num)
  refine ⟨?_, by rw [hlen]; norm_num, h.1, ⟨_, h.2.2.2.2⟩, by rw [hgib]; rfl, hg.1,
    _, hg.2.2.2.2⟩
  intro h0
  rw [h0] at hlen
  exact absurd hlen (by decide)

/-- **C1** (amended) FIFO and round trip: for every sequence of payloads
`p1..pn` (any bytes, in particular non-empty ones) each with
`len + 1 ≤ 2^30`, the most that one `Read` returns, whose records fit a file
(`2^63 - 1` bytes at most), on a fresh queue and with every write succeeding,
the `n` calls of `push` all return no error, and the `n` calls of `pop` that
follow return `p1`, ..., `pn` in this order, each with no error. -/
theorem fifo_roundtrip (env : IOEnv) (m : Nat) (ps : List Bytes)
    (hpw : env.pushWriteOk = true) (hqw : env.popWriteOk = true)
    (hlen : ∀ p ∈ ps, p.length + 1 ≤ maxRW)
    (hsz : (ps.map (fun p => 22 + p.length + 1)).sum ≤ maxFileSize) :
    (pushAll env (freshOn m) ps).1 = ps.map (fun _ => none)
      ∧ ∃ q', popAll env ps.length (pushAll env (freshOn m) ps).2
          = Run.ret (ps.map (fun p => (p, none)), q') := by
  have hlen31 : ∀ p ∈ ps, p.length + 1 < 2 ^ 31 := fun p hp => lt_of_le_maxRW _ (hlen p hp)
  obtain ⟨n, hn⟩ := pushAll_frames env hpw ps (freshOn m) hlen31
  rw [hn]
  refine ⟨rfl, ?_⟩
  apply popAll_frames env hqw ps _ [] (by simp [freshOn]) rfl hlen
  rw [framesOf_length ps hlen31]
  simpa using hsz

/-- Witness of **C1** (amended): `push("alpha")`, `push("beta")`, then two calls
of `pop` return `"alpha"` and `"beta"`. -/
theorem fifo_roundtrip_witness :
    (pushAll IOEnv.allOk fresh [[97, 108, 112, 104, 97], [98, 101, 116, 97]]).1 = [none, none]
      ∧ ∃ q', popAll IOEnv.allOk 2
          (pushAll IOEnv.allOk fresh [[97, 108, 112, 104, 97], [98, 101, 116, 97]]).2
          = Run.ret ([([97, 108, 112, 104, 97], none), ([98, 101, 116, 97], none)], q') :=
  fifo_roundtrip IOEnv.allOk ext4MaxOffset [[97, 108, 112, 104, 97], [98, 101, 116, 97]]
    rfl rfl
    (by
      intro p hp
      simp only [List.mem_cons, List.mem_singleton, List.not_mem_nil, or_false] at hp
      rcases hp with rfl | rfl <;> decide)
    (by norm_num [maxFileSize])

/-- **C2** (the code diverges from the claim) `push` with a zero-length payload
is not rejected: the newline is appended before `buildPushRecord` tests the
length, so on every queue, with the write succeeding, the call returns no
error, appends the 23-byte record `"0000000001 0852952723 \n"` to the push
file and increments `pushRecNro`. -/
theorem push_empty_payload_accepted (q : DQueue) :
    push IOEnv.allOk q [] = (none, { q with
      pushLog := q.pushLog ++ [48, 48, 48, 48, 48, 48, 48, 48, 48, 49, 32,
        48, 56, 53, 50, 57, 53, 50, 55, 50, 51, 32, 10]
      pushRecNro := incr64 q.pushRecNro }) := by
  rw [push_frame IOEnv.allOk q [] (by norm_num) rfl]
  have : headerBytes (([] : Bytes).length + 1 : Nat) (sliceCRC ([] ++ [10])) ++ ([] ++ [10])
      = [48, 48, 48, 48, 48, 48, 48, 48, 48, 49, 32,
        48, 56, 53, 50, 57, 53, 50, 55, 50, 51, 32, 10] := by decide
  rw [this]

/-- **C3** Pop on a drained queue is a benign end-of-file: in every state where
`pushReadOffset` equals the length of the push file and does not exceed
`maxsize`, `pop` returns the error `io.EOF` with no payload and leaves
`pushReadOffset`, the push file, the pop file and `popRecNro` as they were. -/
theorem pop_drained_returns_eof (env : IOEnv) (q : DQueue)
    (hoff : q.pushReadOffset = (q.pushLog.length : Int))
    (hmax : q.pushReadOffset ≤ (q.maxsize : Int)) :
    ∃ q', pop env q = Run.ret ⟨[], some Err.eof, q'⟩
      ∧ q'.pushReadOffset = q.pushReadOffset ∧ q'.pushLog = q.pushLog
      ∧ q'.popLog = q.popLog ∧ q'.popRecNro = q.popRecNro := by
  rcases q with ⟨pl, ppl, bk, rp, n1, n2, n3, off, n4, n5, mx, cs, mo⟩
  simp only at hoff hmax
  subst hoff
  have hrot : ¬ mx < toUInt64 (pl.length : Int) := by
    unfold toUInt64
    omega
  refine ⟨{ pushLog := pl, popLog := ppl, bkp := bk, pushReadPos := pl.length, pushNro := n1,
            pushRecNro := n2, pushReadNro := n3, pushReadOffset := (pl.length : Int),
            popNro := n4, popRecNro := n5, maxsize := mx, clearStarted := cs, maxOffset := mo }, ?_, rfl, rfl, rfl, rfl⟩
  unfold pop
  rw [seekRead_nonneg _ _ (Or.inr (Nat.le_refl _))]
  simp only [ReadHeader, readHeader, HEADERSZ,
    fileRead_eof pl pl.length 22 (Nat.le_refl _) (by norm_num)]
  rw [if_neg (fun hh => hrot hh.2)]

set_option maxRecDepth 100000 in
/-- Witness of **C3**: after `push("a")` and `pop` the offset 24 is the length of
the push file, and the next `pop` is `io.EOF` and changes nothing. -/
theorem pop_drained_returns_eof_witness :
    ∃ q', pop IOEnv.allOk (queueAfterPop IOEnv.allOk oneRecordSample)
        = Run.ret ⟨[], some Err.eof, q'⟩
      ∧ q'.pushReadOffset = (queueAfterPop IOEnv.allOk oneRecordSample).pushReadOffset
      ∧ q'.pushLog = (queueAfterPop IOEnv.allOk oneRecordSample).pushLog
      ∧ q'.popLog = (queueAfterPop IOEnv.allOk oneRecordSample).popLog
      ∧ q'.popRecNro = (queueAfterPop IOEnv.allOk oneRecordSample).popRecNro :=
  pop_drained_returns_eof IOEnv.allOk (queueAfterPop IOEnv.allOk oneRecordSample)
    (by decide) (by decide)

/-- **C4** (counterexample to the claim as stated) The push file of
`largeCorruptSample` holds at offset 0 a complete 22-byte header with the
length `2^31 - 2` and a checksum field that differs from the CRC-32/IEEE of
the `2^31 - 2` payload bytes that follow. `pop` does not return
"CRC not equal!": the one `Read` of `readPayload` returns `2^30` bytes, and the
error is "Invalid Data size", raised before the checksum is computed. -/
theorem pop_crc_mismatch_counterexample :
    largeCorruptSample.pushLog
        = headerBytes (largePayload.length : Int) ((ChecksumIEEE largePayload + 1) % 4294967296)
          ++ largePayload
      ∧ largePayload.length = 2147483646
      ∧ largeCorruptSample.pushReadOffset = 0
      ∧ ChecksumIEEE largePayload ≠ (ChecksumIEEE largePayload + 1) % 4294967296
      ∧ pop IOEnv.allOk largeCorruptSample
          = Run.ret ⟨[], some Err.invalidDataSize,
              { largeCorruptSample with pushReadPos := 22 + maxRW }⟩
      ∧ Err.invalidDataSize ≠ Err.crcNotEqual := by
  have hlen := largePayload_length
  have hcrc := ChecksumIEEE_lt largePayload
  have hpop := pop_short_read_start IOEnv.allOk largeCorruptSample largePayload
    ((ChecksumIEEE largePayload + 1) % 4294967296) rfl rfl
    (by rw [hlen]; unfold maxRW; norm_num) (by rw [hlen]; norm_num) (by omega)
  exact ⟨rfl, hlen, rfl, by omega, hpop, by decide⟩

/-- **C4** (amended) A CRC mismatch is atomic: in every state where the push
file holds, at `pushReadOffset`, a 22-byte header with the fields `len` and
`crc` (values of `Len int32` and `Crc uint32`: `0 ≤ len < 2^31`, `crc < 2^32`)
followed by `len` payload bytes whose CRC-32/IEEE is not `crc`, `pop` returns
an error with no payload, `pushReadOffset` is unchanged and nothing is appended
to the pop file. The error is "CRC not equal!" when `len ≤ 2^30`, the most that
one `Read` returns, and "Invalid Data size" when `len` is larger. -/
theorem pop_crc_mismatch_atomic (env : IOEnv) (q : DQueue) (pre payload rest : Bytes)
    (crc : Nat)
    (hlog : q.pushLog = pre ++ headerBytes (payload.length : Int) crc ++ payload ++ rest)
    (hoff : q.pushReadOffset = (pre.length : Int))
    (hlen : payload.length < 2 ^ 31) (hcrc : crc < 2 ^ 32)
    (hbad : ChecksumIEEE payload ≠ crc) :
    ∃ e q', pop env q = Run.ret ⟨[], some e, q'⟩
      ∧ (payload.length ≤ maxRW → e = Err.crcNotEqual)
      ∧ (maxRW < payload.length → e = Err.invalidDataSize)
      ∧ q'.pushReadOffset = q.pushReadOffset ∧ q'.popLog = q.popLog
      ∧ q'.pushLog = q.pushLog ∧ q'.popRecNro = q.popRecNro := by
  have hlog2 : q.pushLog = pre ++ (headerBytes (payload.length : Int) crc ++ (payload ++ rest)) := by
    rw [hlog]
    simp only [List.append_assoc]
  by_cases hcap : payload.length ≤ maxRW
  · exact ⟨Err.crcNotEqual, _, pop_record_crc env q pre payload rest crc hlog2 hoff hcap hcrc
      (fun h => hbad (by rw [h]; rfl)), fun _ => rfl, fun h => absurd hcap (by omega),
      rfl, rfl, rfl, rfl⟩
  · exact ⟨Err.invalidDataSize, _, pop_short_read env q pre payload rest crc hlog2 hoff
      (by omega) hlen hcrc, fun h => absurd h hcap, fun _ => rfl, rfl, rfl, rfl, rfl⟩

/-- Witness of **C4** (amended): the record `"a\n"` under a header whose checksum
field is 0. -/
theorem pop_crc_mismatch_atomic_witness :
    ∃ q', pop IOEnv.allOk corruptSample = Run.ret ⟨[], some Err.crcNotEqual, q'⟩
      ∧ q'.pushReadOffset = corruptSample.pushReadOffset ∧ q'.popLog = corruptSample.popLog
      ∧ q'.pushLog = corruptSample.pushLog ∧ q'.popRecNro = corruptSample.popRecNro := by
  obtain ⟨e, q', hpop, hsmall, _, h1, h2, h3, h4⟩ :=
    pop_crc_mismatch_atomic IOEnv.allOk corruptSample [] [97, 10] [] 0 (by decide) (by decide)
      (by decide) (by decide) (by decide)
  have he : e = Err.crcNotEqual := hsmall (by decide)
  subst he
  exact ⟨q', hpop, h1, h2, h3, h4⟩

set_option maxRecDepth 100000 in
/-- **C5** (counterexample to the claim as stated) Every file write succeeds and
the cursor disagrees with the pop file. After `push("a")`, `pop` and
`MaxSize(10)` the offset is 24, the length of the push file; the next `pop`
hits the end of the file and calls `rotatePop`. When the two `os.Rename` fail,
`rotatePop` still zeroes `pushReadOffset`, while the pop file keeps its marker:
`ReadDelRecord` returns 24, not the in-memory 0, and the next `pop` returns
`"a"` a second time. -/
theorem recovery_agrees_with_cursor_counterexample :
    drainedSmallMaxSample.pushReadOffset = 24
      ∧ pop IOEnv.renamesFail drainedSmallMaxSample
          = Run.ret ⟨[], some Err.eof, failedRotationSample⟩
      ∧ failedRotationSample.pushReadOffset = 0
      ∧ failedRotationSample.popLog = drainedSmallMaxSample.popLog
      ∧ failedRotationSample.popLog.length = 43
      ∧ ReadDelRecord failedRotationSample = (24, none)
      ∧ ∃ q1, pop IOEnv.allOk failedRotationSample = Run.ret ⟨[97], none, q1⟩ := by
  refine ⟨by decide, by decide, by decide, by decide, by decide, by decide, ?_⟩
  exact ⟨queueAfterPop IOEnv.allOk failedRotationSample, by decide⟩

/-- **C5** (amended) Recovery agrees with the live cursor: in every state
reached from a fresh queue by calls of `push` and `pop` (and of `MaxSize`) with
every write and every rename of a rotation succeeding, `ReadDelRecord` on the
pop file returns, with no error, the in-memory `pushReadOffset`; this is 0 when
the pop file is empty, and otherwise the pop file ends with the 43-byte marker
of that offset. Hence `New` on the same directory yields a queue with the same
files and the same offset. -/
theorem recovery_agrees_with_cursor (q : DQueue) (h : Reach q) :
    ReadDelRecord q = (q.pushReadOffset, none)
      ∧ (q.popLog = [] → q.pushReadOffset = 0)
      ∧ (q.popLog ≠ [] → ∃ pre crc, q.popLog = pre ++ delRecordBytes q.pushReadOffset crc
          ∧ (delRecordBytes q.pushReadOffset crc).length = 43)
      ∧ ∃ q', New q.pushLog q.popLog q.bkp q.maxOffset = Except.ok q'
          ∧ q'.pushReadOffset = q.pushReadOffset ∧ q'.pushLog = q.pushLog
          ∧ q'.popLog = q.popLog := by
  have hinv := cursorInv_of_reach q h
  have hread := ReadDelRecord_of_cursorInv q hinv
  refine ⟨hread, ?_, ?_, ?_⟩
  · intro hnil
    rcases hinv with ⟨_, ho⟩ | ⟨pre, crc, hp, hc, h0, h1⟩
    · exact ho
    · have hl := congrArg List.length hp
      rw [hnil, List.length_append, delRecordBytes_length _ _ h0 h1 hc] at hl
      simp at hl
  · intro hne
    rcases hinv with ⟨hp, _⟩ | ⟨pre, crc, hp, hc, h0, h1⟩
    · exact absurd hp hne
    · exact ⟨pre, crc, hp, delRecordBytes_length _ _ h0 h1 hc⟩
  · have hnew : ReadDelRecord
        { pushLog := q.pushLog, popLog := q.popLog, bkp := q.bkp, pushReadPos := 0,
          pushNro := 0, pushRecNro := 0, pushReadNro := 0, pushReadOffset := 0,
          popNro := 0, popRecNro := 0, maxsize := MAXSIZE, clearStarted := false,
          maxOffset := q.maxOffset }
        = (q.pushReadOffset, none) := by
      rw [← hread]
      rfl
    unfold New
    simp only [hnew]
    exact ⟨_, rfl, rfl, rfl, rfl⟩

set_option maxRecDepth 100000 in
/-- Witness of **C5** (amended): after `push("a")` and `pop`, the pop file holds
one marker and `ReadDelRecord` returns the offset 24 of the queue. -/
theorem recovery_agrees_with_cursor_witness :
    ReadDelRecord (queueAfterPop IOEnv.allOk oneRecordSample)
        = ((queueAfterPop IOEnv.allOk oneRecordSample).pushReadOffset, none)
      ∧ (queueAfterPop IOEnv.allOk oneRecordSample).pushReadOffset = 24
      ∧ (queueAfterPop IOEnv.allOk oneRecordSample).popLog.length = 43 :=
  ⟨(recovery_agrees_with_cursor (queueAfterPop IOEnv.allOk oneRecordSample)
      (Reach.pop IOEnv.allOk oneRecordSample
        ⟨[97], none, queueAfterPop IOEnv.allOk oneRecordSample⟩ ⟨rfl, rfl, rfl, rfl⟩
        (Reach.push IOEnv.allOk (freshOn ext4MaxOffset) [97] ⟨rfl, rfl, rfl, rfl⟩
          (Reach.fresh ext4MaxOffset)) (by decide))).1,
    by decide, by decide⟩

/-- **C6** (counterexample to the claim as stated) A payload of `2^31 - 1` bytes
is not empty, `push` accepts it, and the record appended to the empty push file
is not `22 + len(x) + 1` bytes long: the stored length `2^31` converted to
`int32` is `-2147483648`, which `%010d` writes on 11 bytes, so the header has
23 bytes. -/
theorem push_record_frame_counterexample :
    hugePayload ≠ []
      ∧ (push IOEnv.allOk fresh hugePayload).1 = none
      ∧ toInt32 2147483648 = -2147483648
      ∧ (fmtD 10 (-2147483648)).length = 11
      ∧ (push IOEnv.allOk fresh hugePayload).2.pushLog.length ≠ 22 + hugePayload.length + 1 := by
  have hlen := hugePayload_length
  have hsz := push_wrapped_size fresh hugePayload (by rw [hlen])
  refine ⟨?_, hsz.1, by decide, by decide, ?_⟩
  · intro h
    rw [h] at hlen
    exact absurd hlen (by decide)
  · rw [hsz.2]
    have h0 : fresh.pushLog.length = 0 := rfl
    omega

/-- **C6** (amended) Frame of a push record: for every caller payload `x`, in
particular every non-empty one, with `len(x) + 1 < 2^31`, `push` (its write
succeeding) appends to the push file exactly `%010d` of the stored length
`len(x) + 1` (which the conversion to `int32` leaves unchanged), one space,
`%010d` of CRC-32/IEEE of `x ++ "\n"`, one space, then `x ++ "\n"`; both
fields are 10 decimal digits that denote these numbers, the header is 22 bytes
and the record `22 + len(x) + 1`. -/
theorem push_record_frame (env : IOEnv) (q : DQueue) (x : Bytes)
    (hlen : x.length + 1 < 2 ^ 31) (hw : env.pushWriteOk = true) :
    push env q x = (none, { q with
        pushLog := q.pushLog ++
          (fmtD 10 (toInt32 ((x.length + 1 : Nat) : Int)) ++ [32]
            ++ fmtD 10 (ChecksumIEEE (x ++ [10]) : Int) ++ [32] ++ (x ++ [10]))
        pushRecNro := incr64 q.pushRecNro })
      ∧ toInt32 ((x.length + 1 : Nat) : Int) = ((x.length + 1 : Nat) : Int)
      ∧ ((fmtD 10 ((x.length + 1 : Nat) : Int)).length = 10
          ∧ allDigits (fmtD 10 ((x.length + 1 : Nat) : Int))
          ∧ decVal (fmtD 10 ((x.length + 1 : Nat) : Int)) 0 = x.length + 1)
      ∧ ((fmtD 10 (ChecksumIEEE (x ++ [10]) : Int)).length = 10
          ∧ allDigits (fmtD 10 (ChecksumIEEE (x ++ [10]) : Int))
          ∧ decVal (fmtD 10 (ChecksumIEEE (x ++ [10]) : Int)) 0 = ChecksumIEEE (x ++ [10]))
      ∧ (fmtD 10 (toInt32 ((x.length + 1 : Nat) : Int)) ++ [32]
            ++ fmtD 10 (ChecksumIEEE (x ++ [10]) : Int) ++ [32]).length = 22
      ∧ (fmtD 10 (toInt32 ((x.length + 1 : Nat) : Int)) ++ [32]
            ++ fmtD 10 (ChecksumIEEE (x ++ [10]) : Int) ++ [32] ++ (x ++ [10])).length
          = 22 + x.length + 1 := by
  have h32 : toInt32 ((x.length + 1 : Nat) : Int) = ((x.length + 1 : Nat) : Int) :=
    toInt32_of_range _ (by omega) (by omega)
  have hcrc := ChecksumIEEE_lt (x ++ [10])
  have hl1 : (fmtD 10 ((x.length + 1 : Nat) : Int)).length = 10 :=
    fmtD10_length _ (by omega) (by omega)
  have hl2 : (fmtD 10 (ChecksumIEEE (x ++ [10]) : Int)).length = 10 :=
    fmtD10_length _ (by omega) (by omega)
  refine ⟨?_, h32, ⟨hl1, ?_, ?_⟩, ⟨hl2, ?_, ?_⟩, ?_, ?_⟩
  · rw [push_frame env q x hlen hw, h32]
    rfl
  · exact fmtD_nonneg_allDigits _ _ (by omega)
  · rw [fmtD_nonneg_decVal _ _ (by omega)]
    rfl
  · exact fmtD_nonneg_allDigits _ _ (by omega)
  · rw [fmtD_nonneg_decVal _ _ (by omega)]
    rfl
  · rw [h32]
    simp only [List.length_append, List.length_singleton, hl1, hl2]
  · rw [h32]
    simp only [List.length_append, List.length_singleton, hl1, hl2]
    omega

/-- Witness of **C6** (amended): the record of the payload `"a"`. -/
theorem push_record_frame_witness :
    (push IOEnv.allOk fresh [97]).2.pushLog
      = [48, 48, 48, 48, 48, 48, 48, 48, 48, 50, 32,
         51, 55, 50, 51, 49, 52, 49, 51, 56, 51, 32, 97, 10] := by
  rw [(push_record_frame IOEnv.allOk fresh [97] (by norm_num) rfl).1]
  decide

/-- **C7** (counterexample to the claim as stated) After `push` of a payload of
`2^31 - 2` bytes on the fresh queue a well-formed record starts at
`pushReadOffset = 0`: a 22-byte header with the length `2^31 - 1` and the
CRC-32/IEEE of the `2^31 - 1` payload bytes that follow. `pop` does not advance:
the one `Read` of `readPayload` returns `2^30` bytes, `pop` returns
"Invalid Data size", `pushReadOffset` stays 0 and no marker is appended to the
pop file. The same happens for the record of `2^30 + 1` payload bytes, one
more than one `Read` returns. -/
theorem pop_success_postcondition_counterexample :
    (push IOEnv.allOk fresh largePayload).2.pushLog
        = headerBytes ((largePayload.length + 1 : Nat) : Int)
            (ChecksumIEEE (largePayload ++ [10])) ++ (largePayload ++ [10])
      ∧ largePayload.length + 1 = 2147483647
      ∧ (push IOEnv.allOk fresh largePayload).2.pushReadOffset = 0
      ∧ (∃ q1, pop IOEnv.allOk (push IOEnv.allOk fresh largePayload).2
            = Run.ret ⟨[], some Err.invalidDataSize, q1⟩
          ∧ q1.pushReadOffset = 0 ∧ q1.popLog = [])
      ∧ (push IOEnv.allOk fresh gibPayload).2.pushLog
        = headerBytes ((gibPayload.length + 1 : Nat) : Int)
            (ChecksumIEEE (gibPayload ++ [10])) ++ (gibPayload ++ [10])
      ∧ gibPayload.length + 1 = maxRW + 1
      ∧ (push IOEnv.allOk fresh gibPayload).2.pushReadOffset = 0
      ∧ ∃ q1, pop IOEnv.allOk (push IOEnv.allOk fresh gibPayload).2
            = Run.ret ⟨[], some Err.invalidDataSize, q1⟩
          ∧ q1.pushReadOffset = 0 ∧ q1.popLog = [] := by
  have hlen := largePayload_length
  have hgib := gibPayload_length
  have h := pop_after_push_stuck largePayload
    (by rw [hlen]; unfold maxRW; norm_num) (by rw [hlen]; norm_num)
  have hg := pop_after_push_stuck gibPayload
    (by rw [hgib]; unfold maxRW; norm_num) (by rw [hgib]; norm_num)
  exact ⟨h.1, by rw [hlen], h.2.1, h.2.2, hg.1, by rw [hgib]; rfl, hg.2.1, hg.2.2⟩

/-- **C7** (amended) Postcondition of a successful pop: in every state where a
well-formed record (header `len`, `crc`; `1 ≤ len ≤ 2^30` payload bytes, at most
what one `Read` returns, whose CRC-32/IEEE is `crc`) starts at
`pushReadOffset`, the push file being a file (at most `2^63 - 1` bytes) and the
write to the pop file succeeding, `pop` returns the payload without its last
byte, sets `pushReadOffset` to the old value plus `22 + len`, leaves the push
file unchanged and appends to the pop file exactly one marker: the CRC-32/IEEE
of the 8 bytes of the new offset, the most significant first, in 10 digits, a
space, the new offset in 20 digits, a space, the `crc` of the popped record in
10 digits, a newline; the three fields are decimal digits that denote these
numbers. -/
theorem pop_success_postcondition (env : IOEnv) (q : DQueue) (pre payload rest : Bytes)
    (hlog : q.pushLog
      = pre ++ pushRecordBytes ⟨(payload.length : Int), ChecksumIEEE payload, payload⟩ ++ rest)
    (hoff : q.pushReadOffset = (pre.length : Int))
    (hlen1 : 1 ≤ payload.length) (hlen : payload.length ≤ maxRW)
    (hfile : q.pushLog.length ≤ maxFileSize) (hw : env.popWriteOk = true) :
    ∃ q', pop env q = Run.ret ⟨payload.take (payload.length - 1), none, q'⟩
      ∧ q'.pushReadOffset = q.pushReadOffset + 22 + (payload.length : Int)
      ∧ q'.pushReadOffset = ((pre.length + 22 + payload.length : Nat) : Int)
      ∧ q'.popLog = q.popLog ++
          (fmtD 10 (ChecksumIEEE
              [UInt8.ofNat ((pre.length + 22 + payload.length) / 2 ^ 56 % 256),
               UInt8.ofNat ((pre.length + 22 + payload.length) / 2 ^ 48 % 256),
               UInt8.ofNat ((pre.length + 22 + payload.length) / 2 ^ 40 % 256),
               UInt8.ofNat ((pre.length + 22 + payload.length) / 2 ^ 32 % 256),
               UInt8.ofNat ((pre.length + 22 + payload.length) / 2 ^ 24 % 256),
               UInt8.ofNat ((pre.length + 22 + payload.length) / 2 ^ 16 % 256),
               UInt8.ofNat ((pre.length + 22 + payload.length) / 2 ^ 8 % 256),
               UInt8.ofNat ((pre.length + 22 + payload.length) % 256)] : Int) ++ [32]
            ++ fmtD 20 q'.pushReadOffset ++ [32]
            ++ fmtD 10 (ChecksumIEEE payload : Int) ++ [10])
      ∧ (fmtD 20 q'.pushReadOffset).length = 20
      ∧ allDigits (fmtD 20 q'.pushReadOffset)
      ∧ decVal (fmtD 20 q'.pushReadOffset) 0 = pre.length + 22 + payload.length
      ∧ (fmtD 10 (ChecksumIEEE payload : Int)).length = 10
      ∧ allDigits (fmtD 10 (ChecksumIEEE payload : Int))
      ∧ decVal (fmtD 10 (ChecksumIEEE payload : Int)) 0 = ChecksumIEEE payload
      ∧ q'.pushLog = q.pushLog
      ∧ q'.popRecNro = incr64 q.popRecNro := by
  have hlen31 := lt_of_le_maxRW _ hlen
  have hl : (headerBytes (payload.length : Int) (sliceCRC payload)).length = 22 :=
    headerBytes_length _ _ (by omega) (by omega) (by have := sliceCRC_lt payload; omega)
  have hlog2 : q.pushLog
      = pre ++ (headerBytes (payload.length : Int) (sliceCRC payload) ++ (payload ++ rest)) := by
    rw [hlog, pushRecordBytes_eq]
    simp only [List.append_assoc, sliceCRC]
  have hsz : pre.length + 22 + payload.length ≤ maxFileSize := by
    have hlen2 := congrArg List.length hlog2
    simp only [List.length_append, hl] at hlen2
    omega
  have hne : payload ≠ [] := by
    intro h
    rw [h] at hlen1
    simp at hlen1
  have hcrc := ChecksumIEEE_lt payload
  have hpop := pop_record_ok env q pre payload rest hlog2 hoff hlen hne hsz hw
  unfold maxFileSize at hsz
  have hbe := bigEndian64_ofNat (pre.length + 22 + payload.length) (by omega)
  have hnn : (0 : Int) ≤ ((pre.length + 22 + payload.length : Nat) : Int) := Int.ofNat_nonneg _
  refine ⟨_, hpop, ?_, rfl, ?_, ?_, ?_, ?_, ?_, ?_, ?_, rfl, rfl⟩
  · simp only [hoff]
    omega
  · show q.popLog ++ delRecordBytes ((pre.length + 22 + payload.length : Nat) : Int)
        (sliceCRC payload) = _
    unfold delRecordBytes int64CRC
    rw [hbe]
    rfl
  · show (fmtD 20 ((pre.length + 22 + payload.length : Nat) : Int)).length = 20
    exact fmtD20_length _ (by omega) (by omega)
  · exact fmtD_nonneg_allDigits 20 _ hnn
  · show decVal (fmtD 20 ((pre.length + 22 + payload.length : Nat) : Int)) 0 = _
    rw [fmtD_nonneg_decVal 20 _ hnn, Int.natAbs_ofNat]
  · exact fmtD10_length _ (by omega) (by omega)
  · exact fmtD_nonneg_allDigits 10 _ (Int.ofNat_nonneg _)
  · rw [fmtD_nonneg_decVal 10 _ (Int.ofNat_nonneg _), Int.natAbs_ofNat]

set_option maxRecDepth 100000 in
/-- Witness of **C7** (amended): the queue after `push("a")`, whose record
`"a\n"` starts at offset 0; `pop` returns `"a"`, moves the offset to 24 and
appends the marker `"1984841535 00000000000000000024 3723141383\n"`. -/
theorem pop_success_postcondition_witness :
    ∃ q', pop IOEnv.allOk oneRecordSample = Run.ret ⟨[97], none, q'⟩
      ∧ q'.pushReadOffset = 24
      ∧ q'.popLog = [49, 57, 56, 52, 56, 52, 49, 53, 51, 53, 32,
          48, 48, 48, 48, 48, 48, 48, 48, 48, 48, 48, 48, 48, 48, 48, 48, 48, 48, 50, 52, 32,
          51, 55, 50, 51, 49, 52, 49, 51, 56, 51, 10]
      ∧ q'.pushLog = oneRecordSample.pushLog := by
  obtain ⟨q', h1, h2, h2b, h3, _, _, _, _, _, _, h4, _⟩ :=
    pop_success_postcondition IOEnv.allOk oneRecordSample [] [97, 10] []
      (by decide) (by decide) (by decide) (by decide)
      (le_trans (by decide : oneRecordSample.pushLog.length ≤ 24) (by norm_num [maxFileSize]))
      (by decide)
  refine ⟨q', h1, h2, ?_, h4⟩
  rw [h3, h2b]
  decide

/-- **C8** Round trip of the delete marker: for every offset `0 ≤ off < 2^63` and
every 32-bit `crcpush`, `WriteDelRecord` (its write succeeding) appends to the
pop file the frame `%010d %020d %010d\n` of the CRC-32/IEEE of the big-endian
offset, the offset and `crcpush` (fields of 10, 20 and 10 decimal digits that
denote these numbers), the frame is 43 bytes long, and `offsetDelRecord` on
these 43 bytes returns `off` with no error. -/
theorem delRecord_roundtrip (q : DQueue) (off : Int) (crcpush : Nat)
    (h0 : 0 ≤ off) (h : off < 2 ^ 63) (hc : crcpush < 2 ^ 32) :
    WriteDelRecord IOEnv.allOk q off crcpush
        = (none, { q with popLog := q.popLog ++
            (fmtD 10 (ChecksumIEEE (bigEndian64 off) : Int) ++ [32] ++ fmtD 20 off ++ [32]
              ++ fmtD 10 (crcpush : Int) ++ [10]) })
      ∧ ((fmtD 10 (ChecksumIEEE (bigEndian64 off) : Int)).length = 10
          ∧ allDigits (fmtD 10 (ChecksumIEEE (bigEndian64 off) : Int))
          ∧ decVal (fmtD 10 (ChecksumIEEE (bigEndian64 off) : Int)) 0
              = ChecksumIEEE (bigEndian64 off))
      ∧ ((fmtD 20 off).length = 20 ∧ allDigits (fmtD 20 off)
          ∧ (decVal (fmtD 20 off) 0 : Int) = off)
      ∧ ((fmtD 10 (crcpush : Int)).length = 10 ∧ allDigits (fmtD 10 (crcpush : Int))
          ∧ decVal (fmtD 10 (crcpush : Int)) 0 = crcpush)
      ∧ (delRecordBytes off crcpush).length = 43
      ∧ offsetDelRecord (delRecordBytes off crcpush) 0 = (off, none, 43) := by
  have hcrc := ChecksumIEEE_lt (bigEndian64 off)
  refine ⟨rfl, ⟨?_, ?_, ?_⟩, ⟨?_, ?_, ?_⟩, ⟨?_, ?_, ?_⟩, ?_, ?_⟩
  · exact fmtD10_length _ (by omega) (by omega)
  · exact fmtD_nonneg_allDigits _ _ (by omega)
  · rw [fmtD_nonneg_decVal _ _ (by omega)]
    rfl
  · exact fmtD20_length off (by omega) h
  · exact fmtD_nonneg_allDigits _ _ h0
  · rw [fmtD_nonneg_decVal _ _ h0]
    omega
  · exact fmtD10_length _ (by omega) (by omega)
  · exact fmtD_nonneg_allDigits _ _ (by omega)
  · rw [fmtD_nonneg_decVal _ _ (by omega)]
    rfl
  · exact delRecordBytes_length off crcpush (by omega) h hc
  · have := offsetDelRecord_at [] [] off crcpush (by omega) h hc
    simpa using this

/-- Witness of **C8**: the marker of offset 24 and push CRC 7 reads back as 24. -/
theorem delRecord_roundtrip_witness :
    (delRecordBytes 24 7).length = 43
      ∧ offsetDelRecord (delRecordBytes 24 7) 0 = (24, none, 43) :=
  ((delRecord_roundtrip fresh 24 7 (by norm_num) (by norm_num) (by norm_num)).2.2.2.2)

set_option maxRecDepth 100000 in
/-- **C9** (the code diverges from the claim) `PopReadOnly(0)` returns one
payload: on the queue that holds the single unconsumed record of `push("a")`,
`PopReadOnly` with `nroRec = 0` returns the list `["a"]` and the count 1, where
the claim has the empty list and the count `min(0, 1) = 0`; the loop tests
`nroRecDone >= nroRec` only after it has appended a payload. -/
theorem head_zero_returns_one :
    PopReadOnly IOEnv.allOk oneRecordSample 0
      = Run.ret ([[97]], 1, { oneRecordSample with pushReadPos := 24 }) := by
  decide

/-- The result of `PopReadOnly(n)` for `n ≥ 1`: when the records of the payloads
`q1..qk`, each of at most `2^30` bytes with its newline, lie between
`pushReadOffset` and the end of the push file (a file of at most `2^63 - 1`
bytes), the call returns the first `min(n, k)` payloads, in
order and without the framing newline, and the count `min(n, k)`. -/
theorem head_returns_prefix (env : IOEnv) (q : DQueue) (pre : Bytes) (qs : List Bytes) (n : Nat)
    (hlog : q.pushLog = pre ++ framesOf qs) (hoff : q.pushReadOffset = (pre.length : Int))
    (hlen : ∀ p ∈ qs, p.length + 1 ≤ maxRW) (hn : 1 ≤ n)
    (hfile : q.pushLog.length ≤ maxFileSize) :
    ∃ q', PopReadOnly env q n = Run.ret (qs.take n, min n qs.length, q') := by
  have hk := length_le_framesOf qs
  have hl := congrArg List.length hlog
  rw [List.length_append] at hl
  unfold maxFileSize at hfile
  obtain ⟨q1, hq1, _⟩ := popReadOnlyLoop_frames env n qs (q.pushLog.length + 1)
    (seekRead q q.pushReadOffset) pre [] 0
    (by rw [hoff, seekRead_nonneg _ _ (Or.inr (by omega))]; exact hlog)
    (by rw [hoff, seekRead_nonneg _ _ (Or.inr (by omega))])
    hlen (by omega) (by omega) (by omega)
  refine ⟨popReadOnlyDefer env n q1 (qs.take n), ?_⟩
  unfold PopReadOnly
  simp only [hq1, List.nil_append, Nat.sub_zero, Nat.zero_add]

set_option maxRecDepth 100000 in
/-- **C10** (the code diverges from the claim) `PopReadOnlyTail(0)` panics: on
the queue that holds the single unconsumed record of `push("a")`,
`PopReadOnlyTail` with `nroRec = 0` does not return `([], 0)`; the test
`len(data) >= nroRec` holds for the empty `data`, and `data[1:]` is out of
range. -/
theorem tail_zero_panics :
    PopReadOnlyTail oneRecordSample 0
      = Run.panic GoPanic.sliceBounds { oneRecordSample with pushReadPos := 24 } := by
  decide

/-- The result of `PopReadOnlyTail(n)` for `n ≥ 1`: when the records of the
payloads `q1..qk`, each of at most `2^30` bytes with its newline, lie between
`pushReadOffset` and the end of the push file, the call returns normally with the last `min(n, k)` payloads, in push order and
without the framing newline, and the count `min(n, k)`. -/
theorem tail_returns_suffix (q : DQueue) (pre : Bytes) (qs : List Bytes) (n : Nat)
    (hlog : q.pushLog = pre ++ framesOf qs) (hoff : q.pushReadOffset = (pre.length : Int))
    (hlen : ∀ p ∈ qs, p.length + 1 ≤ maxRW) (hn : 1 ≤ n) :
    ∃ q', PopReadOnlyTail q n = Run.ret (qs.drop (qs.length - n), min n qs.length, q') := by
  have hk := length_le_framesOf qs
  have hl := congrArg List.length hlog
  rw [List.length_append] at hl
  obtain ⟨q1, hq1, _⟩ := popReadOnlyTailLoop_frames n qs (q.pushLog.length + 1)
    (seekRead q q.pushReadOffset) pre [] 0
    (by rw [hoff, seekRead_nonneg _ _ (Or.inr (by omega))]; exact hlog)
    (by rw [hoff, seekRead_nonneg _ _ (Or.inr (by omega))])
    hlen (by omega) hn (by simp) rfl
  refine ⟨q1, ?_⟩
  unfold PopReadOnlyTail
  simpa using hq1

set_option maxRecDepth 100000 in
/-- **C11** (counterexample to the claim as stated) `PopReadOnly` can rotate: on
the drained queue reached by `push("a")`, `pop`, `MaxSize(10)` (offset 24, past
`maxsize`), `PopReadOnly(1)` produces no payload, so its deferred function
calls `rotatePop`: `pushReadOffset` goes from 24 to 0, the push file (24 bytes)
and the pop file (one marker) are moved away and the live files are empty.
And when `Seek` refuses `pushReadOffset`, `PopReadOnly` changes what the next
`pop` returns, because both read on from the handle: on the queue reopened
with the offset `2^62` (past the largest offset of ext4), and on the queue
reopened with the offset `-1`, `pop` returns `"a"`, whereas after
`PopReadOnly(1)`, which returns `["a"]` and leaves the handle at 24, `pop`
returns `io.EOF` and rotates. -/
theorem head_purity_counterexample :
    drainedSmallMaxSample.pushReadOffset = 24
      ∧ drainedSmallMaxSample.pushLog.length = 24
      ∧ drainedSmallMaxSample.popLog.length = 43
      ∧ PopReadOnly IOEnv.allOk drainedSmallMaxSample 1
          = Run.ret ([], 0, rotatePop IOEnv.allOk drainedSmallMaxSample)
      ∧ (rotatePop IOEnv.allOk drainedSmallMaxSample).pushReadOffset = 0
      ∧ (rotatePop IOEnv.allOk drainedSmallMaxSample).pushLog = []
      ∧ (rotatePop IOEnv.allOk drainedSmallMaxSample).popLog = []
      ∧ ReadDelRecord farOffsetSample = (4611686018427387904, none)
      ∧ farOffsetSample.maxOffset = 17592186040320
      ∧ ¬ seekAccepts farOffsetSample farOffsetSample.pushReadOffset
      ∧ pop IOEnv.allOk farOffsetSample
          = Run.ret ⟨[97], none, queueAfterPop IOEnv.allOk farOffsetSample⟩
      ∧ PopReadOnly IOEnv.allOk farOffsetSample 1
          = Run.ret ([[97]], 1, { farOffsetSample with pushReadPos := 24 })
      ∧ pop IOEnv.allOk { farOffsetSample with pushReadPos := 24 }
          = Run.ret ⟨[], some Err.eof,
              rotatePop IOEnv.allOk { farOffsetSample with pushReadPos := 24 }⟩
      ∧ ReadDelRecord negativeOffsetSample = (-1, none)
      ∧ ¬ seekAccepts negativeOffsetSample negativeOffsetSample.pushReadOffset
      ∧ pop IOEnv.allOk negativeOffsetSample
          = Run.ret ⟨[97], none, queueAfterPop IOEnv.allOk negativeOffsetSample⟩
      ∧ PopReadOnly IOEnv.allOk negativeOffsetSample 1
          = Run.ret ([[97]], 1, { negativeOffsetSample with pushReadPos := 24 })
      ∧ pop IOEnv.allOk { negativeOffsetSample with pushReadPos := 24 }
          = Run.ret ⟨[], some Err.eof,
              rotatePop IOEnv.allOk { negativeOffsetSample with pushReadPos := 24 }⟩ := by
  decide

/-- **C11** (amended) Purity of `PopReadOnly`: on every queue and for every `n`
the call returns or panics (the fuel of the loop never runs out); when it
returns, then unless `n ≠ 0`, `pushReadOffset` is past `maxsize` and no payload
is returned (the condition under which the deferred function rotates), it
changes nothing but the position of the read handle: `pushReadOffset`, the pop
file, the push file, the backup directory, the counters and `maxsize` are
unchanged, and, when `Seek` accepts `pushReadOffset` (it is not negative and
not past the largest offset of the file system), a `pop` issued after it
returns exactly what it returns before it. -/
theorem head_purity (env : IOEnv) (q : DQueue) (n : Nat) :
    PopReadOnly env q n ≠ Run.outOfFuel
      ∧ ∀ data cnt q', PopReadOnly env q n = Run.ret (data, cnt, q') →
          ¬ (n ≠ 0 ∧ q.maxsize < toUInt64 q.pushReadOffset ∧ data = []) →
            q' = { q with pushReadPos := q'.pushReadPos }
              ∧ q'.pushReadOffset = q.pushReadOffset ∧ q'.popLog = q.popLog
              ∧ q'.pushLog = q.pushLog ∧ q'.bkp = q.bkp
              ∧ q'.pushRecNro = q.pushRecNro ∧ q'.popRecNro = q.popRecNro
              ∧ q'.maxsize = q.maxsize
              ∧ (seekAccepts q q.pushReadOffset → ∀ env1, pop env1 q' = pop env1 q) := by
  rcases PopReadOnly_state env q n with ⟨d, c, pos, h⟩ | ⟨p, qp, h⟩
  · rw [h]
    refine ⟨by simp, ?_⟩
    intro data cnt q' heq
    injection heq with heq
    injection heq with hd heq
    injection heq with hc hq
    subst hd
    subst hq
    have hlen : d.length = 0 ↔ d = [] := List.length_eq_zero
    intro hno
    have hno2 : ¬ (n ≠ 0 ∧ ({ q with pushReadPos := pos } : DQueue).maxsize
        < toUInt64 ({ q with pushReadPos := pos } : DQueue).pushReadOffset ∧ d.length = 0) :=
      fun hh => hno ⟨hh.1, hh.2.1, hlen.mp hh.2.2⟩
    unfold popReadOnlyDefer
    rw [if_neg hno2]
    exact ⟨rfl, rfl, rfl, rfl, rfl, rfl, rfl, rfl, fun h0 env1 => pop_ignores_pos env1 q pos h0⟩
  · rw [h]
    refine ⟨by simp, ?_⟩
    intro data cnt q' heq
    cases heq

set_option maxRecDepth 100000 in
/-- Witness of **C11** (amended): `PopReadOnly(1)` on the queue after
`push("a")` returns `["a"]` and leaves the offset and the files as they were. -/
theorem head_purity_witness :
    PopReadOnly IOEnv.allOk oneRecordSample 1
        = Run.ret ([[97]], 1, { oneRecordSample with pushReadPos := 24 })
      ∧ ({ oneRecordSample with pushReadPos := 24 } : DQueue).pushReadOffset
          = oneRecordSample.pushReadOffset
      ∧ ({ oneRecordSample with pushReadPos := 24 } : DQueue).popLog = oneRecordSample.popLog
      ∧ ({ oneRecordSample with pushReadPos := 24 } : DQueue).pushLog = oneRecordSample.pushLog :=
  have h : PopReadOnly IOEnv.allOk oneRecordSample 1
      = Run.ret ([[97]], 1, { oneRecordSample with pushReadPos := 24 }) := by decide
  have hp := (head_purity IOEnv.allOk oneRecordSample 1).2 _ _ _ h (by decide)
  ⟨h, hp.2.1, hp.2.2.1, hp.2.2.2.1⟩

/-- **C12** Purity of `PopReadOnlyTail`: on every queue and for every `n` the
call returns or panics (the fuel of the loop never runs out), and when it
returns it has changed nothing but the position of the read handle:
`pushReadOffset`, the pop file, the push file, the backup directory, the record
counters and `maxsize` are unchanged. -/
theorem tail_purity (q : DQueue) (n : Nat) :
    PopReadOnlyTail q n ≠ Run.outOfFuel
      ∧ ∀ data cnt q', PopReadOnlyTail q n = Run.ret (data, cnt, q') →
          q' = { q with pushReadPos := q'.pushReadPos }
            ∧ q'.pushReadOffset = q.pushReadOffset ∧ q'.popLog = q.popLog
            ∧ q'.pushLog = q.pushLog ∧ q'.bkp = q.bkp
            ∧ q'.pushRecNro = q.pushRecNro ∧ q'.popRecNro = q.popRecNro
            ∧ q'.maxsize = q.maxsize := by
  rcases PopReadOnlyTail_state q n with ⟨d, c, pos, h⟩ | ⟨p, qp, h⟩
  · rw [h]
    refine ⟨by simp, ?_⟩
    intro data cnt q' heq
    injection heq with heq
    injection heq with hd heq
    injection heq with hc hq
    subst hq
    exact ⟨rfl, rfl, rfl, rfl, rfl, rfl, rfl, rfl⟩
  · rw [h]
    refine ⟨by simp, ?_⟩
    intro data cnt q' heq
    cases heq

set_option maxRecDepth 100000 in
/-- Witness of **C12**: `PopReadOnlyTail(1)` on the queue after `push("a")`
returns `["a"]` and leaves the offset and the files as they were. -/
theorem tail_purity_witness :
    PopReadOnlyTail oneRecordSample 1
        = Run.ret ([[97]], 1, { oneRecordSample with pushReadPos := 24 })
      ∧ ({ oneRecordSample with pushReadPos := 24 } : DQueue).pushReadOffset
          = oneRecordSample.pushReadOffset
      ∧ ({ oneRecordSample with pushReadPos := 24 } : DQueue).popLog = oneRecordSample.popLog
      ∧ ({ oneRecordSample with pushReadPos := 24 } : DQueue).pushLog = oneRecordSample.pushLog :=
  have h : PopReadOnlyTail oneRecordSample 1
      = Run.ret ([[97]], 1, { oneRecordSample with pushReadPos := 24 }) := by decide
  have hp := (tail_purity oneRecordSample 1).2 _ _ _ h
  ⟨h, hp.2.1, hp.2.2.1, hp.2.2.2.1⟩

set_option maxRecDepth 100000 in
/-- **C13** `PopReadOnlyStart` does not return one entry per record. On the push
file of `push("a")`, `push("b")`, `push("c")` (three well-formed records, at
the offsets 0, 24 and 48) with `pushReadOffset = 0` it returns two entries: the
loop adds `offset`, which already holds `offsetCurr`, to `offsetCurr`, so after
the record at 24 it seeks to 72 and never reads the record at 48. After one
`pop` (`pushReadOffset = 24`) it returns one entry, for the record at 24 only:
the loop starts at `pushReadOffset`, not at the beginning of the file. Each
entry carries the stored payload (with its newline) and the offset of the end
of the record. -/
theorem scan_skips_records :
    threeRecordSample.pushLog = framesOf [[97], [98], [99]]
      ∧ threeRecordSample.pushReadOffset = 0
      ∧ PopReadOnlyStart threeRecordSample
          = Run.ret ([⟨24, [97, 10]⟩, ⟨48, [98, 10]⟩],
              { threeRecordSample with pushReadPos := 72 })
      ∧ (queueAfterPop IOEnv.allOk threeRecordSample).pushLog = framesOf [[97], [98], [99]]
      ∧ (queueAfterPop IOEnv.allOk threeRecordSample).pushReadOffset = 24
      ∧ PopReadOnlyStart (queueAfterPop IOEnv.allOk threeRecordSample)
          = Run.ret ([⟨48, [98, 10]⟩],
              { queueAfterPop IOEnv.allOk threeRecordSample with pushReadPos := 72 }) := by
  decide

set_option maxRecDepth 100000 in
/-- **C14** (counterexample to the claim as stated) On the drained queue after
`push("a")`, `pop` and `MaxSize(10)` (offset 24, the length of the push file,
past `maxsize`) `pop` returns `io.EOF` and rotates; the `push` of a payload of
`2^31 - 2` bytes that follows succeeds and puts its record at offset 0, but the
`pop` after it does not return that payload: the one `Read` of `readPayload`
returns `2^30` of the `2^31 - 1` stored bytes and `pop` returns
"Invalid Data size". The same happens for a payload of `2^30` bytes, whose
stored form is one byte more than one `Read` returns. -/
theorem pop_drained_rotates_counterexample :
    drainedSmallMaxSample.pushReadOffset = 24
      ∧ drainedSmallMaxSample.pushLog.length = 24
      ∧ drainedSmallMaxSample.maxsize = 10
      ∧ pop IOEnv.allOk drainedSmallMaxSample
          = Run.ret ⟨[], some Err.eof, rotatePop IOEnv.allOk drainedSmallMaxSample⟩
      ∧ largePayload.length + 1 < 2 ^ 31
      ∧ (push IOEnv.allOk (rotatePop IOEnv.allOk drainedSmallMaxSample) largePayload).1 = none
      ∧ (∃ q3, pop IOEnv.allOk
            (push IOEnv.allOk (rotatePop IOEnv.allOk drainedSmallMaxSample) largePayload).2
          = Run.ret ⟨[], some Err.invalidDataSize, q3⟩)
      ∧ gibPayload.length + 1 = maxRW + 1
      ∧ (push IOEnv.allOk (rotatePop IOEnv.allOk drainedSmallMaxSample) gibPayload).1 = none
      ∧ ∃ q3, pop IOEnv.allOk
            (push IOEnv.allOk (rotatePop IOEnv.allOk drainedSmallMaxSample) gibPayload).2
          = Run.ret ⟨[], some Err.invalidDataSize, q3⟩ := by
  have hlen := largePayload_length
  have hgib := gibPayload_length
  have h := pop_after_push_short IOEnv.allOk rfl (rotatePop IOEnv.allOk drainedSmallMaxSample)
    largePayload rfl rfl (by rw [hlen]; unfold maxRW; norm_num) (by rw [hlen]; norm_num)
  have hg := pop_after_push_short IOEnv.allOk rfl (rotatePop IOEnv.allOk drainedSmallMaxSample)
    gibPayload rfl rfl (by rw [hgib]; unfold maxRW; norm_num) (by rw [hgib]; norm_num)
  exact ⟨by decide, by decide, by decide, by decide, by rw [hlen]; norm_num, h.1,
    ⟨_, h.2.2.2.2⟩, by rw [hgib]; rfl, hg.1, _, hg.2.2.2.2⟩

/-- **C14** (amended) Rotation on a drained pop: in every state in which
`pushReadOffset` equals the length of the push file (a file of at most
`2^63 - 1` bytes) and is greater than `maxsize`, `pop`, the two renames
succeeding, returns the error `io.EOF` with no payload, and afterwards
`pushReadOffset`, `pushRecNro` and `popRecNro` are 0 and the live push and pop
files are empty. A `push` of `x` with `len(x) + 1 ≤ 2^30`, the most that one
`Read` returns (its write succeeding), then puts the record of `x` at offset 0
of the push file, and the `pop` that follows returns `x` and moves the offset
to the end of that record. -/
theorem pop_drained_rotates (env : IOEnv) (q : DQueue) (x : Bytes)
    (hoff : q.pushReadOffset = (q.pushLog.length : Int))
    (hmax : (q.maxsize : Int) < q.pushReadOffset)
    (hsz : q.pushLog.length ≤ maxFileSize)
    (hrp : env.renamePopOk = true) (hrq : env.renamePushOk = true)
    (hw : env.pushWriteOk = true) (hpw : env.popWriteOk = true)
    (hx : x.length + 1 ≤ maxRW) :
    ∃ q1, pop env q = Run.ret ⟨[], some Err.eof, q1⟩
      ∧ q1.pushReadOffset = 0 ∧ q1.pushRecNro = 0 ∧ q1.popRecNro = 0
      ∧ q1.pushLog = [] ∧ q1.popLog = []
      ∧ (push env q1 x).1 = none
      ∧ (push env q1 x).2.pushLog = storedBytes x
      ∧ (push env q1 x).2.pushReadOffset = 0
      ∧ ∃ q3, pop env (push env q1 x).2 = Run.ret ⟨x, none, q3⟩
          ∧ q3.pushReadOffset = ((22 + x.length + 1 : Nat) : Int) := by
  have hx31 := lt_of_le_maxRW _ hx
  have hrot : q.maxsize < toUInt64 q.pushReadOffset := by
    unfold maxFileSize at hsz
    unfold toUInt64
    omega
  have hpop := pop_eof env q hoff
  rw [if_pos hrot] at hpop
  obtain ⟨q1, hq1, hpop1⟩ : ∃ q1, q1 = rotatePop env { q with pushReadPos := q.pushLog.length }
      ∧ pop env q = Run.ret ⟨[], some Err.eof, q1⟩ := ⟨_, rfl, hpop⟩
  have hl1 : q1.pushLog = [] := by
    rw [hq1]
    simp only [rotatePop, hrq, if_true]
  have ho1 : q1.pushReadOffset = 0 := by rw [hq1]; rfl
  have hpush := push_frame env q1 x hx31 hw
  have hlog2 : (push env q1 x).2.pushLog = storedBytes x := by
    rw [hpush]
    simp only [hl1, List.nil_append]
    rfl
  have hoff2 : (push env q1 x).2.pushReadOffset = 0 := by
    rw [hpush]
    exact ho1
  have hpop2 := pop_stored env (push env q1 x).2 [] x []
    (by rw [hlog2]; simp) (by rw [hoff2]; rfl) hx
    (by unfold maxFileSize; simp only [List.length_nil]; omega) hpw
  refine ⟨q1, hpop1, ho1, by rw [hq1]; rfl, by rw [hq1]; rfl, hl1, ?_, by rw [hpush],
    hlog2, hoff2, _, hpop2, ?_⟩
  · rw [hq1]
    simp only [rotatePop, hrp, if_true]
  · simp only [List.length_nil, Nat.zero_add]

set_option maxRecDepth 100000 in
/-- Witness of **C14** (amended): the drained queue after `push("a")`, `pop` and
`MaxSize(10)`, then `push("b")`: the first `pop` rotates and returns `io.EOF`,
the second returns `"b"`. -/
theorem pop_drained_rotates_witness :
    drainedSmallMaxSample.pushReadOffset = 24
      ∧ drainedSmallMaxSample.pushLog.length = 24
      ∧ drainedSmallMaxSample.maxsize = 10
      ∧ ∃ q1, pop IOEnv.allOk drainedSmallMaxSample = Run.ret ⟨[], some Err.eof, q1⟩
          ∧ q1.pushReadOffset = 0 ∧ q1.pushLog = [] ∧ q1.popLog = []
          ∧ ∃ q3, pop IOEnv.allOk (push IOEnv.allOk q1 [98]).2 = Run.ret ⟨[98], none, q3⟩ :=
  have h := pop_drained_rotates IOEnv.allOk drainedSmallMaxSample [98] (by decide) (by decide)
    (by unfold maxFileSize; decide) rfl rfl rfl rfl (by decide)
  ⟨by decide, by decide, by decide, h.choose, h.choose_spec.1, h.choose_spec.2.1,
    h.choose_spec.2.2.2.2.1, h.choose_spec.2.2.2.2.2.1,
    h.choose_spec.2.2.2.2.2.2.2.2.2.choose, h.choose_spec.2.2.2.2.2.2.2.2.2.choose_spec.1⟩

set_option maxRecDepth 100000 in
/-- **C15** (counterexample to the claim as stated) The 22 bytes
`"abcdefghij abcdefghij "`, whose fields are not numbers, are read by
`readHeader` without error as the record with `Len = 0` and `Crc = 0`; the 22
bytes `"-000000005 0000000007 "`, whose length field is negative, are read
without error as the record with `Len = -5` and `Crc = 7`. -/
theorem readHeader_malformed_counterexample :
    lettersHeader.length = 22
      ∧ readHeader lettersHeader 0 = (⟨0, 0, []⟩, none, 22)
      ∧ headerBytes (-5) 7 = [45, 48, 48, 48, 48, 48, 48, 48, 48, 53, 32,
          48, 48, 48, 48, 48, 48, 48, 48, 48, 55, 32]
      ∧ readHeader (headerBytes (-5) 7) 0 = (⟨-5, 7, []⟩, none, 22) := by
  decide

/-- **C15** (amended) A malformed header is not an error: for every 22-byte
header, whatever its bytes, `readHeader` returns a record and no error, and the
handle is 22 bytes further. The errors of `Atoi` and `ParseUint` are dropped:
`Len` is the `int32` of the value `Atoi` gives for the bytes [0:10] and `Crc`
the `uint32` of the value `ParseUint` gives for the bytes [11:21]. A length
field with a byte that is not a digit after its optional sign gives `Len = 0`,
and a checksum field with a byte that is not a digit gives `Crc = 0`. -/
theorem readHeader_malformed (pre hdr rest : Bytes) (h : hdr.length = 22) :
    readHeader (pre ++ (hdr ++ rest)) pre.length
        = (⟨toInt32 (Atoi (hdr.take 10)).1,
            toUInt32 (ParseUint ((hdr.drop 11).take 10) 64).1, []⟩, none, pre.length + 22)
      ∧ (¬ allDigits (dropSign (hdr.take 10)) →
          (readHeader (pre ++ (hdr ++ rest)) pre.length).1.Len = 0)
      ∧ (¬ allDigits ((hdr.drop 11).take 10) →
          (readHeader (pre ++ (hdr ++ rest)) pre.length).1.Crc = 0) := by
  have hr := readHeader_any pre hdr rest h
  refine ⟨hr, ?_, ?_⟩
  · intro hbad
    rw [hr]
    have hl : (hdr.take 10).length < 19 := by
      rw [List.length_take]
      omega
    simp only [Atoi_not_allDigits _ hbad hl]
    rfl
  · intro hbad
    rw [hr]
    have hl : ((hdr.drop 11).take 10).length ≤ 19 := by
      rw [List.length_take]
      omega
    simp only [ParseUint_not_allDigits _ hbad hl]
    rfl

set_option maxRecDepth 100000 in
/-- Witness of **C15** (amended): the header `"abcdefghij abcdefghij "` gives the
record with `Len = 0` and `Crc = 0`. -/
theorem readHeader_malformed_witness :
    lettersHeader.length = 22
      ∧ (readHeader ([] ++ (lettersHeader ++ [])) ([] : Bytes).length).2.1 = none
      ∧ (readHeader ([] ++ (lettersHeader ++ [])) ([] : Bytes).length).1.Len = 0
      ∧ (readHeader ([] ++ (lettersHeader ++ [])) ([] : Bytes).length).1.Crc = 0 :=
  ⟨by decide,
    by rw [(readHeader_malformed [] lettersHeader [] (by decide)).1],
    (readHeader_malformed [] lettersHeader [] (by decide)).2.1 (by decide),
    (readHeader_malformed [] lettersHeader [] (by decide)).2.2 (by decide)⟩

set_option maxRecDepth 100000 in
/-- **C16** `PopReadOnly` rotates a push file that is not drained. In the state
`corruptSecondSample` the push file has 48 bytes, `pushReadOffset = 24` is past
`maxsize = 10`, and the 24 bytes from the offset on hold a record whose payload
fails its checksum. `pop` returns "CRC not equal!" and rotates nothing, whereas
`PopReadOnly(1)` returns no payload for the same reason and its deferred
function, which does not ask for `io.EOF`, calls `rotatePop`: the push file
goes to the backup directory with its unread record and `pushReadOffset` is
reset to 0. -/
theorem head_rotates_undrained :
    corruptSecondSample.pushLog.length = 48
      ∧ corruptSecondSample.pushReadOffset = 24
      ∧ corruptSecondSample.maxsize = 10
      ∧ pop IOEnv.allOk corruptSecondSample
          = Run.ret ⟨[], some Err.crcNotEqual, { corruptSecondSample with pushReadPos := 48 }⟩
      ∧ PopReadOnly IOEnv.allOk corruptSecondSample 1
          = Run.ret ([], 0, rotatePop IOEnv.allOk { corruptSecondSample with pushReadPos := 48 })
      ∧ (rotatePop IOEnv.allOk { corruptSecondSample with pushReadPos := 48 }).pushLog = []
      ∧ (rotatePop IOEnv.allOk { corruptSecondSample with pushReadPos := 48 }).pushReadOffset = 0
      ∧ (rotatePop IOEnv.allOk { corruptSecondSample with pushReadPos := 48 }).bkp
          = [corruptSecondSample.pushLog, corruptSecondSample.popLog] := by
  decide

set_option maxRecDepth 100000 in
/-- **C17** A failed marker write leaves the cursor advanced. On the queue after
`push("a")` (`pushReadOffset = 0`, a well-formed record at 0), when the write
to the pop file fails, `pop` returns the payload `"a"` together with the write
error, the pop file is still empty and `popRecNro` is still 0, but
`pushReadOffset` is 24: the method adds to the offset before it calls
`WriteDelRecord`. -/
theorem pop_write_failure_advances_cursor :
    oneRecordSample.pushReadOffset = 0
      ∧ pop IOEnv.popWriteFails oneRecordSample
          = Run.ret ⟨[97], some Err.writeFailed,
              { oneRecordSample with pushReadPos := 24, pushReadOffset := 24 }⟩
      ∧ ({ oneRecordSample with pushReadPos := 24, pushReadOffset := 24 } : DQueue).popLog = []
      ∧ ({ oneRecordSample with pushReadPos := 24, pushReadOffset := 24 } : DQueue).popRecNro
          = 0 := by
  decide

/-- **C18** Push is append-only and touches nothing else: for every queue and
every payload `x` for which `push` returns no error, the queue after the call
is the queue before it with one record appended to the push file (the `%010d`
fields of the stored length and of the CRC-32, then `x ++ "\n"`) and
`pushRecNro` incremented; so the old push file is a prefix of the new one,
`pushReadOffset` and the pop file are unchanged, and the counter, a `uint64`
below its last value, is one more than before. -/
theorem push_appends_only (env : IOEnv) (q : DQueue) (x : Bytes)
    (h : (push env q x).1 = none) :
    ∃ r : Record, buildPushRecord (x ++ [10]) = Except.ok r
      ∧ r.Payload = x ++ [10]
      ∧ (push env q x).2 = { q with pushLog := q.pushLog ++ pushRecordBytes r
                                    pushRecNro := incr64 q.pushRecNro }
      ∧ q.pushLog <+: (push env q x).2.pushLog
      ∧ (push env q x).2.pushLog.length = q.pushLog.length + (pushRecordBytes r).length
      ∧ (push env q x).2.pushReadOffset = q.pushReadOffset
      ∧ (push env q x).2.popLog = q.popLog
      ∧ (q.pushRecNro + 1 < 2 ^ 64 → (push env q x).2.pushRecNro = q.pushRecNro + 1) := by
  have hst : ∃ r : Record, buildPushRecord (x ++ [10]) = Except.ok r
      ∧ r.Payload = x ++ [10]
      ∧ (push env q x).2 = { q with pushLog := q.pushLog ++ pushRecordBytes r
                                    pushRecNro := incr64 q.pushRecNro } := by
    by_cases hz : toInt32 (((x ++ [10]).length : Nat) : Int) = 0
    · simp only [push, buildPushRecord, hz, if_true] at h
      cases h
    · by_cases hw : env.pushWriteOk = true
      · simp only [push, buildPushRecord, hz, if_false, pushRecord, fileAppend, hw, if_true]
        exact ⟨_, rfl, rfl, rfl⟩
      · simp only [push, buildPushRecord, hz, if_false, pushRecord, fileAppend, hw] at h
        cases h
  obtain ⟨r, hb, hp, hq⟩ := hst
  refine ⟨r, hb, hp, hq, ?_, ?_, ?_, ?_, ?_⟩
  · rw [hq]
    exact List.prefix_append _ _
  · rw [hq]
    exact List.length_append _ _
  · rw [hq]
  · rw [hq]
  · intro hn
    rw [hq]
    show incr64 q.pushRecNro = q.pushRecNro + 1
    unfold incr64
    omega

set_option maxRecDepth 100000 in
/-- Witness of **C18**: `push("a")` on the fresh queue succeeds, the push file
grows from 0 to 24 bytes and `pushRecNro` from 0 to 1. -/
theorem push_appends_only_witness :
    (push IOEnv.allOk fresh [97]).1 = none
      ∧ (push IOEnv.allOk fresh [97]).2.pushLog.length = 24
      ∧ (push IOEnv.allOk fresh [97]).2.pushReadOffset = fresh.pushReadOffset
      ∧ (push IOEnv.allOk fresh [97]).2.popLog = fresh.popLog
      ∧ (push IOEnv.allOk fresh [97]).2.pushRecNro = 1 :=
  have h := push_appends_only IOEnv.allOk fresh [97] (by decide)
  ⟨by decide, by decide, h.choose_spec.2.2.2.2.2.1, h.choose_spec.2.2.2.2.2.2.1,
    h.choose_spec.2.2.2.2.2.2.2 (by decide)⟩

/-- **C19** (counterexample to the claim as stated) One `push` of a payload of
`2^31 - 1` bytes on the fresh queue leaves a push file that is not a
concatenation of well-formed records: the stored length `2^31` wraps to
`-2147483648` in the `int32` field, so the file of `2^31 + 23` bytes starts
with `"-2147483648"`, `pushReadOffset = 0` is neither the length of the file
nor the start of a record with a 22-byte header, and the next `pop`, which
decodes the length `-214748364` from the first 10 bytes, panics. -/
theorem cursor_on_boundary_counterexample :
    (push IOEnv.allOk fresh hugePayload).1 = none
      ∧ (push IOEnv.allOk fresh hugePayload).2.pushReadOffset = 0
      ∧ (push IOEnv.allOk fresh hugePayload).2.pushLog.length = 2147483671
      ∧ (push IOEnv.allOk fresh hugePayload).2.pushLog.take 11
          = [45, 50, 49, 52, 55, 52, 56, 51, 54, 52, 56]
      ∧ ∃ qp, pop IOEnv.allOk (push IOEnv.allOk fresh hugePayload).2
          = Run.panic GoPanic.makeNegativeLen qp := by
  have hlen := hugePayload_length
  have hl : hugePayload.length + 1 = 2147483648 := by rw [hlen]
  have hsz := push_wrapped_size fresh hugePayload hl
  have hw := push_wrapped_length fresh hugePayload hl
  refine ⟨hsz.1, ?_, ?_, push_wrapped_prefix hugePayload hl,
    pop_wrapped_panics fresh hugePayload hl rfl rfl⟩
  · rw [hw]
    rfl
  · rw [hsz.2, hlen]
    have h0 : fresh.pushLog.length = 0 := rfl
    omega

/-- **C19** (amended) Cursor-on-boundary invariant: in every state reached from
a fresh queue by calls of `push` (of payloads with `len(x) + 1 < 2^31`, the
push file staying within `2^63 - 1` bytes), `pop`, `PopReadOnly`,
`PopReadOnlyTail` and `MaxSize`, rotations included and every write and rename
succeeding, the push file is a concatenation of well-formed records, those of
payloads `consumed` followed by those of payloads `pending`, and
`pushReadOffset` is the end of the records of `consumed`: it is the length of
the push file when `pending` is empty, and otherwise the start of a record,
a 22-byte header with the length and the CRC-32 of the payload bytes that
follow. When that record has at most `2^30` payload bytes, the most that one
`Read` returns, `pop` (its write succeeding) returns its payload. -/
theorem cursor_on_boundary (q : DQueue) (h : ReachOps q) :
    ∃ consumed pending : List Bytes,
      (∀ p ∈ consumed ++ pending, p.length + 1 < 2 ^ 31)
        ∧ q.pushLog = framesOf consumed ++ framesOf pending
        ∧ q.pushReadOffset = ((framesOf consumed).length : Int)
        ∧ (pending = [] → q.pushReadOffset = (q.pushLog.length : Int))
        ∧ ∀ p rest, pending = p :: rest →
            q.pushLog = framesOf consumed
                ++ (headerBytes ((p ++ [10]).length : Int) (ChecksumIEEE (p ++ [10]))
                  ++ (p ++ [10]) ++ framesOf rest)
              ∧ (headerBytes ((p ++ [10]).length : Int) (ChecksumIEEE (p ++ [10]))).length = 22
              ∧ ∀ env : IOEnv, env.popWriteOk = true → p.length + 1 ≤ maxRW →
                  ∃ q1, pop env q = Run.ret ⟨p, none, q1⟩ := by
  obtain ⟨c, pd, hb, hlog, hoff, hsz⟩ := boundaryInv_of_reachOps q h
  refine ⟨c, pd, hb, hlog, hoff, ?_, ?_⟩
  · intro hnil
    rw [hoff, hlog, hnil]
    simp only [framesOf, List.append_nil]
  · intro y rest hpd
    subst hpd
    have hy : y.length + 1 < 2 ^ 31 := hb y (by simp)
    have hsl := storedBytes_length y hy
    have hpl : (y ++ [10]).length = y.length + 1 := by simp
    have hcrc := sliceCRC_lt (y ++ [10])
    have hlog1 : q.pushLog = framesOf c ++ (storedBytes y ++ framesOf rest) := by
      rw [hlog]
      rfl
    have hsz1 : (framesOf c).length + (22 + y.length + 1) ≤ maxFileSize := by
      rw [hlog1] at hsz
      simp only [List.length_append, hsl] at hsz
      omega
    refine ⟨?_, ?_, fun env hw hcap =>
      ⟨_, pop_stored env q (framesOf c) y (framesOf rest) hlog1 hoff hcap hsz1 hw⟩⟩
    · rw [hlog1, hpl]
      rfl
    · rw [hpl]
      exact headerBytes_length _ _ (by omega) (by omega) (by unfold sliceCRC at hcrc; omega)

set_option maxRecDepth 100000 in
/-- Witness of **C19** (amended): the queue after `push("a")` is reached from
the fresh queue, and its push file is made of records with the offset on a
boundary. -/
theorem cursor_on_boundary_witness :
    ∃ consumed pending : List Bytes,
      oneRecordSample.pushLog = framesOf consumed ++ framesOf pending
        ∧ oneRecordSample.pushReadOffset = ((framesOf consumed).length : Int) :=
  have h := cursor_on_boundary oneRecordSample
    (ReachOps.push IOEnv.allOk (freshOn ext4MaxOffset) [97] ⟨rfl, rfl, rfl, rfl⟩
      (ReachOps.fresh ext4MaxOffset) (by norm_num)
      (by unfold maxFileSize; simp only [freshOn, List.length_nil, List.length_singleton]; norm_num))
  ⟨h.choose, h.choose_spec.choose, h.choose_spec.choose_spec.2.1,
    h.choose_spec.choose_spec.2.2.1⟩

set_option maxRecDepth 100000 in
/-- **C20** `pop` panics on hand-written headers. On a push file that holds the
22 bytes `"0000000000 0000000000 "` (length 0, checksum 0, the CRC-32 of no
bytes) `pop` reads an empty payload without error and then takes the slice
`paylo[:le-1]` with `le = 0`, which panics; on `"-000000001 0000000000 "`
`readPayload` calls `make([]byte, -1)`, which panics. Neither call returns. -/
theorem pop_panics_on_framing :
    headerBytes 0 0 = [48, 48, 48, 48, 48, 48, 48, 48, 48, 48, 32,
        48, 48, 48, 48, 48, 48, 48, 48, 48, 48, 32]
      ∧ pop IOEnv.allOk { fresh with pushLog := headerBytes 0 0 }
          = Run.panic GoPanic.sliceBounds
              { fresh with pushLog := headerBytes 0 0, pushReadPos := 22 }
      ∧ headerBytes (-1) 0 = [45, 48, 48, 48, 48, 48, 48, 48, 48, 49, 32,
        48, 48, 48, 48, 48, 48, 48, 48, 48, 48, 32]
      ∧ pop IOEnv.allOk { fresh with pushLog := headerBytes (-1) 0 }
          = Run.panic GoPanic.makeNegativeLen
              { fresh with pushLog := headerBytes (-1) 0, pushReadPos := 22 } := by
  decide

end AQueue
